import Mathlib

/-!
Verification development for the TowerBlocksOptimizer reachability engine.

The Python source (`city.py`, `configuration.py`, `solver.py`) is embedded as
executable Lean functions.  Mutation is modelled by explicit state passing,
exceptions by `Except Err`, and the two non-structural recursions of the
solver (the recursive safe reduction and the depth-first search over
speculative 2-promotions) by an explicit fuel argument; the entry points
supply fuel that is proved sufficient for well-formed configurations, and
running out of fuel is a distinguished error value so that it can never be
confused with a genuine result of the Python code.
-/

namespace TowerBlocks

/-- A move is a `(row, col, color)` triple, as in the Python solver. -/
abbrev Move := Nat × Nat × Nat

/-- Embeds `city.City`: grid dimensions, number of colors and score table.
(The string color names of the source are presentation-only and omitted.) -/
structure City where
  n : Nat
  m : Nat
  nbColors : Nat
  scores : List Int
deriving DecidableEq, Repr

/-- Embeds `City.neighbors`: orthogonal neighbors clipped to the grid, in the
source order Up, Down, Left, Right.  (The source raises for an out-of-bounds
query cell; all call sites in the engine query in-bounds cells only.) -/
def City.neighbors (city : City) (row col : Nat) : List (Nat × Nat) :=
  (if 0 < row then [(row - 1, col)] else []) ++
  (if row < city.n - 1 then [(row + 1, col)] else []) ++
  (if 0 < col then [(row, col - 1)] else []) ++
  (if col < city.m - 1 then [(row, col + 1)] else [])

/-- Embeds `configuration.Configuration`: a city together with the
row-major grid of tower colors. -/
structure Configuration where
  city : City
  towers : List (List Nat)
deriving DecidableEq, Repr

/-- Reading `self.towers[row][col]` (all engine reads are in bounds). -/
def Configuration.getCell (cfg : Configuration) (row col : Nat) : Nat :=
  (cfg.towers.getD row []).getD col 0

/-- Writing `self.towers[row][col] = v` (all engine writes are in bounds). -/
def Configuration.setCell (cfg : Configuration) (row col v : Nat) : Configuration :=
  { cfg with towers := cfg.towers.set row ((cfg.towers.getD row []).set col v) }

/-- Embeds `Configuration.__init__`: the all-zero configuration for a city. -/
def zeroConfiguration (city : City) : Configuration :=
  ⟨city, List.replicate city.n (List.replicate city.m 0)⟩

/-- Embeds `Configuration.__lt__`: strictly smaller iff not equal and no cell
exceeds the corresponding cell of the other configuration. -/
def Configuration.ltc (a b : Configuration) : Bool :=
  !(a.towers == b.towers) &&
    (a.towers.zip b.towers).all (fun rr => (rr.1.zip rr.2).all (fun xy => xy.1 ≤ xy.2))

/-- Embeds `Configuration.get_total_score`. -/
def Configuration.getTotalScore (cfg : Configuration) : Int :=
  ((List.range cfg.city.n).map (fun row =>
    ((List.range cfg.city.m).map (fun col =>
      cfg.city.scores.getD (cfg.getCell row col) 0)).sum)).sum

/-- Embeds `Configuration.has_neighbor`. -/
def Configuration.hasNeighbor (cfg : Configuration) (row col color : Nat) : Bool :=
  (cfg.city.neighbors row col).any (fun pq => cfg.getCell pq.1 pq.2 == color)

/-- Embeds `Configuration.neighbor_counts`. -/
def Configuration.neighborCounts (cfg : Configuration) (row col : Nat) : List Nat :=
  (List.range cfg.city.nbColors).map (fun color =>
    (cfg.city.neighbors row col).countP (fun pq => cfg.getCell pq.1 pq.2 == color))

/-- Embeds `Configuration.all_zero`. -/
def Configuration.allZero (cfg : Configuration) : Bool :=
  cfg.towers.all (fun row => row.all (fun t => t == 0))

/-- The exceptions of the source, one constructor per distinct `raise` site:
`ValueError` for bounds (`outOfRange`), `PlacementError` (`placement`), the two
internal `Exception`s of `__safely_promotable`, `SafeReductionError`, the
internal-consistency `Exception` of `get_moves` (`invalidSequence`),
`InfeasibleConfigurationError` (`infeasible`, carrying the target and the
conflict), and the artificial fuel-exhaustion marker of the embedding. -/
inductive Err where
  | outOfRange : Err
  | placement : Err
  | promoteNotNeighbor : Err
  | promoteColor : Err
  | safeReduction (row col : Nat) : Err
  | invalidSequence : Err
  | infeasible (config conflict : Configuration) : Err
  | fuel : Err
deriving DecidableEq, Repr

/-- Embeds `Configuration.__check_bounds`. -/
def Configuration.checkBounds (cfg : Configuration) (row col color : Nat) : Except Err Unit :=
  if cfg.city.n ≤ row then .error .outOfRange
  else if cfg.city.m ≤ col then .error .outOfRange
  else if cfg.city.nbColors ≤ color then .error .outOfRange
  else .ok ()

/-- Embeds `Configuration.__valid_placement` (its own bounds re-check is
subsumed by the caller's `checkBounds`, which has already succeeded). -/
def Configuration.validPlacement (cfg : Configuration) (row col color : Nat) : Bool :=
  (List.range color).all (fun k => cfg.hasNeighbor row col k)

/-- Embeds `Configuration.place_tower`. -/
def Configuration.placeTower (cfg : Configuration) (row col color : Nat) (verify : Bool) :
    Except Err Configuration :=
  match cfg.checkBounds row col color with
  | .error e => .error e
  | .ok _ =>
    if verify && !(cfg.validPlacement row col color) then .error .placement
    else .ok (cfg.setCell row col color)

/-- Decidable equality of `Except` results, for concrete evaluation. -/
instance instDecEqExcept {e a : Type} [DecidableEq e] [DecidableEq a] :
    DecidableEq (Except e a) := fun x y =>
  match x, y with
  | .error e1, .error e2 =>
    if h : e1 = e2 then isTrue (by rw [h]) else
      isFalse (by intro hh; injection hh with hh; exact h hh)
  | .ok a1, .ok a2 =>
    if h : a1 = a2 then isTrue (by rw [h]) else
      isFalse (by intro hh; injection hh with hh; exact h hh)
  | .error _, .ok _ => isFalse (by intro hh; cases hh)
  | .ok _, .error _ => isFalse (by intro hh; cases hh)

/-- Embeds `Solver.__safely_promotable`, including its two internal
consistency exceptions. -/
def safelyPromotable (city : City) (cfg : Configuration)
    (reduceRow reduceCol promoteRow promoteCol colorWanted : Nat) : Except Err Bool :=
  if (promoteRow, promoteCol) ∉ city.neighbors reduceRow reduceCol then
    .error .promoteNotNeighbor
  else if colorWanted ≠ 1 ∧ colorWanted ≠ 2 then .error .promoteColor
  else if cfg.getCell promoteRow promoteCol ≠ 0 then .ok false
  else if colorWanted = 1 then .ok true
  else
    .ok ((city.neighbors promoteRow promoteCol).any (fun vw =>
      vw ≠ (reduceRow, reduceCol) && (cfg.getCell vw.1 vw.2 == 0 || cfg.getCell vw.1 vw.2 == 1)))

/-- The inner loop of `Solver.__apply_safe_reduction` that scans the neighbors
of the reduction cell for the first unused safely-promotable one. -/
def findPromotable (city : City) (cfg : Configuration) (row col colorNeeded : Nat) :
    List (Nat × Nat) → List (Nat × Nat) → Except Err (Option (Nat × Nat))
  | [], _ => .ok none
  | pq :: rest, used =>
    if pq ∈ used then findPromotable city cfg row col colorNeeded rest used
    else match safelyPromotable city cfg row col pq.1 pq.2 colorNeeded with
      | .error e => .error e
      | .ok true => .ok (some pq)
      | .ok false => findPromotable city cfg row col colorNeeded rest used

/-- The promotion-selection loop of `Solver.__apply_safe_reduction`
(`for color_needed in reversed(range(1, color))`): for each needed color,
either the color is already present among the neighbors, or a promotion is
chosen; returns `none` exactly where the source calls `reduction_fail()`. -/
def selectPromotions (city : City) (cfg : Configuration) (row col : Nat) :
    List Nat → Nat → List (Nat × Nat) → Except Err (Option (List Move))
  | [], _, _ => .ok (some [])
  | k :: rest, avail, used =>
    if cfg.hasNeighbor row col k then selectPromotions city cfg row col rest avail used
    else if avail = 0 then .ok none
    else match findPromotable city cfg row col k (city.neighbors row col) used with
      | .error e => .error e
      | .ok none => .ok none
      | .ok (some pq) =>
        match selectPromotions city cfg row col rest (avail - 1) (used ++ [pq]) with
        | .error e => .error e
        | .ok none => .ok none
        | .ok (some ps) => .ok (some ((pq.1, pq.2, k) :: ps))

/-- `reversed(range(1, color))`, the needed colors of a reduction. -/
def needList (color : Nat) : List Nat := (List.range' 1 (color - 1)).reverse

/-- `sum(config.towers[p][q] == 0 for p, q in self.city.neighbors(row, col))`. -/
def countZeroNeighbors (city : City) (cfg : Configuration) (row col : Nat) : Nat :=
  (city.neighbors row col).countP (fun pq => cfg.getCell pq.1 pq.2 == 0)

/-- One iteration of the promotion-undo loop of `Solver.__apply_safe_reduction`
(`moves = self.__apply_safe_reduction(config, p, q, error_on_fail=True) + moves`),
parameterized by the recursive reducer. -/
def undoStepF (red : Configuration → Nat → Nat → Except Err (List Move × Configuration))
    (acc : List Move × Configuration) (p : Move) : Except Err (List Move × Configuration) :=
  match red acc.2 p.1 p.2.1 with
  | .error e => .error e
  | .ok mc => .ok (mc.1 ++ acc.1, mc.2)

/-- Embeds `Solver.__apply_safe_reduction`.  The recursion of the source (the
undo of each promotion by a further safe reduction) is driven by an explicit
fuel argument; the nested reductions always act on a cell of strictly smaller
color, so any fuel exceeding the cell's color is sufficient (proved below). -/
def applySafeReduction (city : City) :
    Nat → Configuration → Nat → Nat → Bool → Except Err (List Move × Configuration)
  | 0, _, _, _, _ => .error .fuel
  | fuel + 1, cfg, row, col, errorOnFail =>
    if cfg.getCell row col = 0 then
      if errorOnFail then .error (.safeReduction row col) else .ok ([], cfg)
    else if !(cfg.hasNeighbor row col 0) then
      if errorOnFail then .error (.safeReduction row col) else .ok ([], cfg)
    else
      match selectPromotions city cfg row col (needList (cfg.getCell row col))
          (countZeroNeighbors city cfg row col - 1) [] with
      | .error e => .error e
      | .ok none =>
        if errorOnFail then .error (.safeReduction row col) else .ok ([], cfg)
      | .ok (some promotions) =>
        promotions.foldlM
          (undoStepF (fun c r2 c2 => applySafeReduction city fuel c r2 c2 true))
          ((row, col, cfg.getCell row col) ::
             promotions.foldl (fun m p => (p.1, p.2.1, 0) :: m) ([] : List Move),
           (promotions.foldl (fun c p => c.setCell p.1 p.2.1 p.2.2) cfg).setCell row col 0)

/-- The row-major cell enumeration `for row in range(n): for col in range(m)`. -/
def cellList (city : City) : List (Nat × Nat) :=
  (List.range city.n).flatMap (fun r => (List.range city.m).map (fun c => (r, c)))

/-- The body of the scan of `Solver.__apply_safe_reductions` for one cell:
attempt the safe reduction, accumulate its moves and set `change_made`. -/
def sweepStep (city : City) (acc : List Move × Configuration × Bool) (rc : Nat × Nat) :
    Except Err (List Move × Configuration × Bool) :=
  match applySafeReduction city city.nbColors acc.2.1 rc.1 rc.2 false with
  | .error e => .error e
  | .ok mc =>
    if mc.1.isEmpty then .ok (acc.1, mc.2, acc.2.2)
    else .ok (mc.1 ++ acc.1, mc.2, true)

/-- One full row-major scan of `Solver.__apply_safe_reductions`, returning the
accumulated moves, the updated configuration, and the `change_made` flag. -/
def sweepPass (city : City) (cfg : Configuration) :
    Except Err (List Move × Configuration × Bool) :=
  (cellList city).foldlM (sweepStep city) ([], cfg, false)

/-- Embeds the `while change_made` fixpoint loop of
`Solver.__apply_safe_reductions`.  Each changed pass zeroes at least one cell,
so fuel `n*m + 1` (supplied by `applySafeReductionsTop`) is sufficient. -/
def applySafeReductions (city : City) :
    Nat → Configuration → Except Err (List Move × Configuration)
  | 0, _ => .error .fuel
  | fuel + 1, cfg =>
    match sweepPass city cfg with
    | .error e => .error e
    | .ok (mv, cfg', changed) =>
      if changed then
        match applySafeReductions city fuel cfg' with
        | .error e => .error e
        | .ok (mv2, cfg'') => .ok (mv2 ++ mv, cfg'')
      else .ok (mv, cfg')

/-- `Solver.__apply_safe_reductions` with its sufficient fuel. -/
def applySafeReductionsTop (city : City) (cfg : Configuration) :
    Except Err (List Move × Configuration) :=
  applySafeReductions city (city.n * city.m + 1) cfg

/-- Embeds `Solver.__get_useful_two_promotions`.  The Python function returns a
`set`; the embedding returns the deterministic first-insertion-order list of
the same elements (each 0-neighbor is flagged at most once). -/
def usefulTwoPromotions (city : City) (cfg : Configuration) : List (Nat × Nat) :=
  (cellList city).foldl (fun acc rc =>
    if cfg.getCell rc.1 rc.2 ≠ 3 then acc
    else
      let counts := cfg.neighborCounts rc.1 rc.2
      if 0 < counts.getD 2 0 then acc
      else if counts.getD 0 0 < 2 then acc
      else if 1 ≤ counts.getD 1 0 || 3 ≤ counts.getD 0 0 then
        (city.neighbors rc.1 rc.2).foldl (fun a pq =>
          if cfg.getCell pq.1 pq.2 == 0 && !(a.contains pq) then a ++ [pq] else a) acc
      else acc) []

/-- One branch of the depth-first search of
`Solver.__get_reduced_configuration`, parameterized by the recursive call:
skip if an all-zero branch was already found (the source's early `return`),
otherwise clone, apply the speculative 2-promotion, recurse, and keep the
better of the branch result and the best so far. -/
def searchStep (red : Configuration → Except Err (Configuration × List Move))
    (current : Configuration) (currentMoves : List Move)
    (best : Configuration × List Move) (z : Nat × Nat) :
    Except Err (Configuration × List Move) :=
  if best.1.allZero then .ok best
  else
    match current.placeTower z.1 z.2 2 false with
    | .error e => .error e
    | .ok next =>
      match red next with
      | .error e => .error e
      | .ok rr =>
        if rr.1.allZero then .ok (rr.1, rr.2 ++ (z.1, z.2, 0) :: currentMoves)
        else if rr.1.ltc best.1 then .ok (rr.1, rr.2 ++ (z.1, z.2, 0) :: currentMoves)
        else .ok best

/-- Embeds `Solver.__get_reduced_configuration`.  The depth-first search over
useful 2-promotions is driven by fuel; the early return on an all-zero branch
is realized by the `best.1.allZero` guard (once the accumulator is all-zero it
is returned unchanged, skipping the remaining branches exactly as the source's
`return` does). -/
def getReducedAux (city : City) : Nat → Configuration → Except Err (Configuration × List Move)
  | 0, _ => .error .fuel
  | fuelS + 1, cfg =>
    match applySafeReductionsTop city cfg with
    | .error e => .error e
    | .ok (currentMoves, current) =>
      if current.allZero then .ok (current, currentMoves)
      else
        (usefulTwoPromotions city current).foldlM
          (searchStep (getReducedAux city fuelS) current currentMoves)
          (current, currentMoves)

/-- `Solver.__get_reduced_configuration` with its sufficient fuel: the search
depth is bounded by the number of 3-cells plus one (each recursion level
strictly reduces it), hence by `n*m + 1`. -/
def getReducedTop (city : City) (cfg : Configuration) :
    Except Err (Configuration × List Move) :=
  getReducedAux city (city.n * city.m + 1) cfg

/-- The replay loop of `Solver.valid_sequence`: apply the moves with
`verify=True`, returning `false` on a caught `PlacementError` and propagating
any other error; at the end compare the towers with the end configuration. -/
def validSeqGo (endC : Configuration) : Configuration → List Move → Except Err Bool
  | cfg, [] => .ok (cfg.towers == endC.towers)
  | cfg, mv :: rest =>
    match cfg.placeTower mv.1 mv.2.1 mv.2.2 true with
    | .error .placement => .ok false
    | .error e => .error e
    | .ok c' => validSeqGo endC c' rest

/-- Embeds `Solver.valid_sequence` (the deep copy of the start configuration
is value copying in the embedding). -/
def validSequence (startC : Configuration) (moves : List Move) (endC : Configuration) :
    Except Err Bool :=
  validSeqGo endC startC moves

/-- Embeds `Solver.get_moves`. -/
def getMoves (city : City) (cfg : Configuration) : Except Err (List Move) :=
  match getReducedTop city cfg with
  | .error e => .error e
  | .ok (reduced, moves) =>
    match validSequence reduced moves cfg with
    | .error e => .error e
    | .ok good =>
      if !good then .error .invalidSequence
      else if !reduced.allZero then .error (.infeasible cfg reduced)
      else .ok moves

/-- `Solver.get_moves` together with the state of the caller's configuration
object after the call (the engine deep-copies the target before mutating, so
the caller's object flows through unchanged). -/
def getMovesFrame (city : City) (cfg : Configuration) :
    Except Err (List Move) × Configuration :=
  (getMoves city cfg, cfg)

/-- Strict replay used to state the round-trip law: apply every move with
`verify=True` and fail on any invalid placement. -/
def replayAll (cfg : Configuration) : List Move → Except Err Configuration
  | [] => .ok cfg
  | mv :: rest =>
    match cfg.placeTower mv.1 mv.2.1 mv.2.2 true with
    | .error e => .error e
    | .ok c' => replayAll c' rest

/-- Well-formedness of cell contents: every cell (in or out of range, the
out-of-range default being 0) holds a color below `nbColors`.  Every
configuration the Python program can build satisfies this. -/
def CellsWF (city : City) (cfg : Configuration) : Prop :=
  ∀ row col, cfg.getCell row col < city.nbColors

/-- Decidable version of `CellsWF` for concrete witnesses. -/
def cellsWFb (city : City) (cfg : Configuration) : Bool :=
  0 < city.nbColors && cfg.towers.all (fun row => row.all (fun t => t < city.nbColors))

/-- Shape well-formedness: the towers grid is exactly `n` rows of `m` cells. -/
def ShapeWF (city : City) (cfg : Configuration) : Prop :=
  cfg.towers.length = city.n ∧ ∀ row ∈ cfg.towers, row.length = city.m

/-- Decidable version of `ShapeWF` for concrete witnesses. -/
def shapeWFb (city : City) (cfg : Configuration) : Bool :=
  cfg.towers.length == city.n && cfg.towers.all (fun row => row.length == city.m)

/-- The safety condition the source checks before a 2-promotion of `(p, q)`
for the sake of reducing `(r, c)`: the cell is at color 0 and has a witness
neighbor other than `(r, c)` at color 0 or 1. -/
def Promotable2P (city : City) (cfg : Configuration) (r c p q : Nat) : Prop :=
  cfg.getCell p q = 0 ∧
    ∃ vw ∈ city.neighbors p q, vw ≠ (r, c) ∧ cfg.getCell vw.1 vw.2 ≤ 1

/-- Exact success condition of `Solver.__apply_safe_reduction` on a
well-formed configuration, by case on the cell's color (proved below). -/
def RedCond (city : City) (cfg : Configuration) (r c : Nat) : Prop :=
  cfg.hasNeighbor r c 0 = true ∧
  match cfg.getCell r c with
  | 1 => True
  | 2 => cfg.hasNeighbor r c 1 = true ∨ 2 ≤ countZeroNeighbors city cfg r c
  | 3 =>
      (cfg.hasNeighbor r c 2 = true ∧
        (cfg.hasNeighbor r c 1 = true ∨ 2 ≤ countZeroNeighbors city cfg r c)) ∨
      (¬ cfg.hasNeighbor r c 2 = true ∧ 2 ≤ countZeroNeighbors city cfg r c ∧
        (∃ p q, (p, q) ∈ city.neighbors r c ∧ Promotable2P city cfg r c p q) ∧
        (cfg.hasNeighbor r c 1 = true ∨ 3 ≤ countZeroNeighbors city cfg r c))
  | _ => False

/-- Same city and same grid dimensions, row by row. -/
def ShapeEq (a b : Configuration) : Prop :=
  b.city = a.city ∧ b.towers.length = a.towers.length ∧
    ∀ i, (b.towers.getD i []).length = (a.towers.getD i []).length

/-- `b` is obtained from `a` by zeroing some cells (the net effect of any
sequence of safe reductions). -/
def ZeroedFrom (a b : Configuration) : Prop :=
  ShapeEq a b ∧ ∀ r c, b.getCell r c = a.getCell r c ∨ b.getCell r c = 0

/-- Number of nonzero cells of the grid. -/
def nonzeroCount (cfg : Configuration) : Nat :=
  (cfg.towers.map (fun row => row.countP (fun t => !(t == 0)))).sum

/-- Number of cells at color 3 (the termination measure of the search). -/
def threeCount (cfg : Configuration) : Nat :=
  (cfg.towers.map (fun row => row.countP (fun t => t == 3))).sum

/-- `(r, c)` addresses an actual entry of the towers grid. -/
def InShape (cfg : Configuration) (r c : Nat) : Prop :=
  r < cfg.towers.length ∧ c < (cfg.towers.getD r []).length

/-- A 1x3 city used for concrete evaluations. -/
def cityA : City := ⟨1, 3, 4, [1, 2, 3, 4]⟩

/-- The target `[2, 0, 2]` on the 1x3 city: infeasible, and its reported
conflict is not locally minimal. -/
def cfgA : Configuration := ⟨cityA, [[2, 0, 2]]⟩

/-- A 1x1 city used for concrete evaluations. -/
def cityB : City := ⟨1, 1, 4, [1, 2, 3, 4]⟩

/-- The configuration `[[1]]`: a sweep fixpoint whose residual cell is not at
the highest level. -/
def cfgB : Configuration := ⟨cityB, [[1]]⟩

/-- A 2x2 city used for concrete evaluations. -/
def cityC : City := ⟨2, 2, 4, [1, 2, 3, 4]⟩

section BasicLemmas

theorem getD_set_ne {l : List Nat} {i j a d : Nat} (h : i ≠ j) :
    (l.set i a).getD j d = l.getD j d := by
  simp [List.getD_eq_getElem?_getD, List.getElem?_set_ne h]

theorem getD_set_self {l : List Nat} {i a d : Nat} (h : i < l.length) :
    (l.set i a).getD i d = a := by
  simp [List.getD_eq_getElem?_getD, List.getElem?_set_eq_of_lt _ h]

theorem set_getD_self {l : List Nat} {i d : Nat} (h : i < l.length) :
    l.set i (l.getD i d) = l := by
  have : l.getD i d = l[i] := by
    simp [List.getD_eq_getElem?_getD, List.getElem?_eq_getElem h]
  rw [this]
  apply List.ext_getElem
  · simp
  · intro n h1 h2
    simp only [List.getElem_set]
    split
    · subst n; rfl
    · rfl

theorem getD_set_lists_ne {α : Type} [Inhabited α] {l : List (List α)} {i j : Nat}
    {a : List α} {d : List α} (h : i ≠ j) : (l.set i a).getD j d = l.getD j d := by
  simp [List.getD_eq_getElem?_getD, List.getElem?_set_ne h]

theorem getD_set_lists_self {α : Type} {l : List (List α)} {i : Nat}
    {a : List α} {d : List α} (h : i < l.length) : (l.set i a).getD i d = a := by
  simp [List.getD_eq_getElem?_getD, List.getElem?_set_eq_of_lt _ h]

theorem Configuration.city_setCell (cfg : Configuration) (r c v : Nat) :
    (cfg.setCell r c v).city = cfg.city := rfl

theorem getCell_setCell_ne {cfg : Configuration} {r c r' c' v : Nat}
    (h : (r, c) ≠ (r', c')) :
    (cfg.setCell r c v).getCell r' c' = cfg.getCell r' c' := by
  unfold Configuration.setCell Configuration.getCell
  by_cases hr : r = r'
  · subst hr
    have hc : c ≠ c' := by intro hc; exact h (by rw [hc])
    by_cases hlen : r < cfg.towers.length
    · rw [getD_set_lists_self hlen, getD_set_ne hc]
    · rw [List.set_eq_of_length_le (Nat.le_of_not_lt hlen)]
  · simp only [getD_set_lists_ne hr]

theorem getCell_setCell_self {cfg : Configuration} {r c v : Nat}
    (h : InShape cfg r c) : (cfg.setCell r c v).getCell r c = v := by
  obtain ⟨h1, h2⟩ := h
  unfold Configuration.setCell Configuration.getCell
  rw [getD_set_lists_self h1, getD_set_self h2]

theorem Configuration.ext2 {a b : Configuration} (h1 : a.city = b.city)
    (h2 : a.towers = b.towers) : a = b := by
  cases a; cases b; cases h1; cases h2; rfl

theorem setCell_getCell_self (cfg : Configuration) (r c : Nat) :
    cfg.setCell r c (cfg.getCell r c) = cfg := by
  unfold Configuration.setCell Configuration.getCell
  by_cases h1 : r < cfg.towers.length
  · by_cases h2 : c < (cfg.towers.getD r []).length
    · rw [set_getD_self h2]
      cases cfg with
      | mk city towers =>
        simp only [Configuration.mk.injEq, and_true, true_and]
        have : towers.getD r [] = towers[r] := by
          simp [List.getD_eq_getElem?_getD, List.getElem?_eq_getElem h1]
        rw [this]
        apply List.ext_getElem
        · simp
        · intro n hn1 hn2
          simp only [List.getElem_set]
          split
          · subst n; rfl
          · rfl
    · rw [List.set_eq_of_length_le (Nat.le_of_not_lt h2)]
      cases cfg with
      | mk city towers =>
        simp only [Configuration.mk.injEq, and_true, true_and]
        have : towers.getD r [] = towers[r] := by
          simp [List.getD_eq_getElem?_getD, List.getElem?_eq_getElem h1]
        rw [this]
        apply List.ext_getElem
        · simp
        · intro n hn1 hn2
          simp only [List.getElem_set]
          split
          · subst n; rfl
          · rfl
  · exact Configuration.ext2 rfl (List.set_eq_of_length_le (Nat.le_of_not_lt h1))

theorem setCell_setCell_same (cfg : Configuration) (r c v w : Nat) :
    (cfg.setCell r c v).setCell r c w = cfg.setCell r c w := by
  refine Configuration.ext2 ?_ ?_
  · rfl
  show (cfg.towers.set r _).set r _ = cfg.towers.set r _
  by_cases h1 : r < cfg.towers.length
  · have hget : (cfg.towers.set r ((cfg.towers.getD r []).set c v)).getD r [] =
        (cfg.towers.getD r []).set c v := getD_set_lists_self (by simpa using h1)
    rw [show ((cfg.setCell r c v).towers.getD r []) =
        (cfg.towers.set r ((cfg.towers.getD r []).set c v)).getD r [] from rfl, hget,
      List.set_set, List.set_set]
  · have e1 : ∀ A : List Nat, cfg.towers.set r A = cfg.towers :=
      fun A => List.set_eq_of_length_le (Nat.le_of_not_lt h1)
    simp only [Configuration.setCell, e1]

theorem setCell_comm {cfg : Configuration} {r c r' c' v v' : Nat}
    (h : (r, c) ≠ (r', c')) :
    (cfg.setCell r c v).setCell r' c' v' = (cfg.setCell r' c' v').setCell r c v := by
  refine Configuration.ext2 ?_ ?_
  · rfl
  show (cfg.towers.set r _).set r' _ = (cfg.towers.set r' _).set r _
  by_cases hr : r = r'
  · subst hr
    have hc : c ≠ c' := by intro hc; exact h (by rw [hc])
    by_cases h1 : r < cfg.towers.length
    · have hg1 : (cfg.towers.set r ((cfg.towers.getD r []).set c v)).getD r [] =
          (cfg.towers.getD r []).set c v := getD_set_lists_self (by simpa using h1)
      have hg2 : (cfg.towers.set r ((cfg.towers.getD r []).set c' v')).getD r [] =
          (cfg.towers.getD r []).set c' v' := getD_set_lists_self (by simpa using h1)
      rw [show ((cfg.setCell r c v).towers.getD r []) =
          (cfg.towers.set r ((cfg.towers.getD r []).set c v)).getD r [] from rfl, hg1,
        show ((cfg.setCell r c' v').towers.getD r []) =
          (cfg.towers.set r ((cfg.towers.getD r []).set c' v')).getD r [] from rfl, hg2,
        List.set_set, List.set_set, List.set_comm _ _ _ hc]
    · have e1 : ∀ A : List Nat, cfg.towers.set r A = cfg.towers :=
        fun A => List.set_eq_of_length_le (Nat.le_of_not_lt h1)
      simp only [Configuration.setCell, e1]
  · rw [show ((cfg.setCell r c v).towers.getD r' []) = cfg.towers.getD r' [] from
        getD_set_lists_ne hr,
      show ((cfg.setCell r' c' v').towers.getD r []) = cfg.towers.getD r [] from
        getD_set_lists_ne (fun hh => hr hh.symm),
      List.set_comm _ _ _ hr]

theorem InShape.setCellIn {cfg : Configuration} {r c v r' c' : Nat}
    (h : InShape cfg r' c') : InShape (cfg.setCell r c v) r' c' := by
  obtain ⟨h1, h2⟩ := h
  constructor
  · simpa [Configuration.setCell] using h1
  · simp only [Configuration.setCell]
    by_cases hr : r = r'
    · subst hr
      by_cases hl : r < cfg.towers.length
      · rw [getD_set_lists_self hl]
        simpa using h2
      · rw [List.set_eq_of_length_le (Nat.le_of_not_lt hl)]
        exact h2
    · rw [getD_set_lists_ne hr]
      exact h2

end BasicLemmas

section NeighborLemmas

theorem mem_ite_single {α : Type} {b : Prop} [Decidable b] {x y : α} :
    (x ∈ if b then [y] else []) ↔ b ∧ x = y := by
  split <;> simp_all

theorem mem_neighbors {city : City} {r c p q : Nat} :
    (p, q) ∈ city.neighbors r c ↔
      (0 < r ∧ (p, q) = (r - 1, c)) ∨ (r < city.n - 1 ∧ (p, q) = (r + 1, c)) ∨
      (0 < c ∧ (p, q) = (r, c - 1)) ∨ (c < city.m - 1 ∧ (p, q) = (r, c + 1)) := by
  simp [City.neighbors, mem_ite_single, or_assoc]

theorem self_not_mem_neighbors {city : City} {r c : Nat} :
    (r, c) ∉ city.neighbors r c := by
  rw [mem_neighbors]
  simp only [Prod.mk.injEq]
  omega

theorem mem_neighbors_symm {city : City} {r c p q : Nat}
    (hr : r < city.n) (hc : c < city.m) (h : (p, q) ∈ city.neighbors r c) :
    (r, c) ∈ city.neighbors p q := by
  rw [mem_neighbors] at h ⊢
  simp only [Prod.mk.injEq] at h ⊢
  omega

theorem mem_neighbors_bounds {city : City} {r c p q : Nat}
    (hr : r < city.n) (hc : c < city.m) (h : (p, q) ∈ city.neighbors r c) :
    p < city.n ∧ q < city.m := by
  rw [mem_neighbors] at h
  simp only [Prod.mk.injEq] at h
  omega

theorem neighbors_nodup (city : City) (r c : Nat) : (city.neighbors r c).Nodup := by
  unfold City.neighbors
  split_ifs <;> simp_all [Prod.ext_iff] <;> omega

theorem hasNeighbor_iff {cfg : Configuration} {r c k : Nat} :
    cfg.hasNeighbor r c k = true ↔
      ∃ pq ∈ cfg.city.neighbors r c, cfg.getCell pq.1 pq.2 = k := by
  simp [Configuration.hasNeighbor]

theorem countZero_pos_iff {city : City} {cfg : Configuration} {r c : Nat} :
    0 < countZeroNeighbors city cfg r c ↔
      ∃ pq ∈ city.neighbors r c, cfg.getCell pq.1 pq.2 = 0 := by
  simp [countZeroNeighbors, List.countP_pos_iff]

theorem hasNeighbor_zero_iff_countZero {city : City} {cfg : Configuration}
    {r c : Nat} (hcity : cfg.city = city) :
    cfg.hasNeighbor r c 0 = true ↔ 0 < countZeroNeighbors city cfg r c := by
  rw [hasNeighbor_iff, countZero_pos_iff, hcity]

theorem length_le_one_of_all_eq {α : Type} {l : List α} {a : α}
    (h : ∀ x ∈ l, x = a) (hn : l.Nodup) : l.length ≤ 1 := by
  cases l with
  | nil => simp
  | cons x rest =>
    have hx : x = a := h x (by simp)
    have : rest = [] := by
      cases rest with
      | nil => rfl
      | cons y r2 =>
        exfalso
        have hy : y = a := h y (by simp)
        rw [List.nodup_cons] at hn
        exact hn.1 (by rw [hx, ← hy]; simp)
    simp [this]

theorem length_le_two_of_all_mem_pair {α : Type} [DecidableEq α] {l : List α} {a b : α}
    (h : ∀ x ∈ l, x = a ∨ x = b) (hn : l.Nodup) : l.length ≤ 2 := by
  cases l with
  | nil => simp
  | cons x rest =>
    rw [List.nodup_cons] at hn
    have hx : x = a ∨ x = b := h x (by simp)
    have hrest : ∀ y ∈ rest, y = a ∨ y = b := fun y hy => h y (by simp [hy])
    rcases hx with hx | hx
    · have : ∀ y ∈ rest, y = b := by
        intro y hy
        rcases hrest y hy with h' | h'
        · exfalso; exact hn.1 (by rw [hx, ← h']; exact hy)
        · exact h'
      have := length_le_one_of_all_eq this hn.2
      simp; omega
    · have : ∀ y ∈ rest, y = a := by
        intro y hy
        rcases hrest y hy with h' | h'
        · exact h'
        · exfalso; exact hn.1 (by rw [hx, ← h']; exact hy)
      have := length_le_one_of_all_eq this hn.2
      simp; omega

theorem countP_ge_two_exists {α : Type} [DecidableEq α] {l : List α} {p : α → Bool}
    (hn : l.Nodup) (h : 2 ≤ l.countP p) (a : α) :
    ∃ x ∈ l, x ≠ a ∧ p x = true := by
  by_contra hcon
  push_neg at hcon
  have hall : ∀ x ∈ l.filter p, x = a := by
    intro x hx
    rw [List.mem_filter] at hx
    by_contra hne
    exact absurd hx.2 (by simpa using (hcon x hx.1 hne))
  have := length_le_one_of_all_eq hall (hn.filter p)
  rw [← List.countP_eq_length_filter p l] at this
  omega

theorem countP_ge_three_exists {α : Type} [DecidableEq α] {l : List α} {p : α → Bool}
    (hn : l.Nodup) (h : 3 ≤ l.countP p) (a b : α) :
    ∃ x ∈ l, x ≠ a ∧ x ≠ b ∧ p x = true := by
  by_contra hcon
  push_neg at hcon
  have hall : ∀ x ∈ l.filter p, x = a ∨ x = b := by
    intro x hx
    rw [List.mem_filter] at hx
    by_contra hne
    push_neg at hne
    exact absurd hx.2 (by simpa using (hcon x hx.1 hne.1 hne.2))
  have := length_le_two_of_all_mem_pair hall (hn.filter p)
  rw [← List.countP_eq_length_filter p l] at this
  omega

theorem countP_two_of_distinct {α : Type} {p : α → Bool} {a b : α} (hab : a ≠ b) :
    ∀ {l : List α}, l.Nodup → a ∈ l → b ∈ l → p a = true → p b = true →
      2 ≤ l.countP p := by
  intro l
  induction l with
  | nil => intro _ ha; simp at ha
  | cons x rest ih =>
    intro hn ha hb hpa hpb
    rw [List.nodup_cons] at hn
    rw [List.countP_cons]
    rcases List.mem_cons.mp ha with rfl | ha'
    · have hb' : b ∈ rest := by
        rcases List.mem_cons.mp hb with h | h
        · exact absurd h.symm hab
        · exact h
      have : 0 < rest.countP p := List.countP_pos_iff.mpr ⟨b, hb', hpb⟩
      rw [if_pos hpa]
      omega
    · rcases List.mem_cons.mp hb with rfl | hb'
      · have : 0 < rest.countP p := List.countP_pos_iff.mpr ⟨a, ha', hpa⟩
        rw [if_pos hpb]
        omega
      · have := ih hn.2 ha' hb' hpa hpb
        omega

end NeighborLemmas

section ShapeLemmas

theorem ShapeEq.refl (cfg : Configuration) : ShapeEq cfg cfg := ⟨rfl, rfl, fun _ => rfl⟩

theorem ShapeEq.trans {a b c : Configuration} (h1 : ShapeEq a b) (h2 : ShapeEq b c) :
    ShapeEq a c := by
  obtain ⟨e1, e2, e3⟩ := h1
  obtain ⟨f1, f2, f3⟩ := h2
  exact ⟨f1.trans e1, f2.trans e2, fun i => (f3 i).trans (e3 i)⟩

theorem ShapeEq.setCellE (cfg : Configuration) (r c v : Nat) :
    ShapeEq cfg (cfg.setCell r c v) := by
  refine ⟨rfl, by simp [Configuration.setCell], fun i => ?_⟩
  show ((cfg.towers.set r _).getD i []).length = _
  by_cases hr : r = i
  · subst hr
    by_cases hl : r < cfg.towers.length
    · rw [getD_set_lists_self hl]; simp
    · rw [List.set_eq_of_length_le (Nat.le_of_not_lt hl)]
  · rw [getD_set_lists_ne hr]

theorem shapeWF_iff {city : City} {cfg : Configuration} :
    ShapeWF city cfg ↔ cfg.towers.length = city.n ∧
      ∀ i < city.n, (cfg.towers.getD i []).length = city.m := by
  constructor
  · rintro ⟨h1, h2⟩
    refine ⟨h1, fun i hi => ?_⟩
    have hi' : i < cfg.towers.length := by omega
    have : cfg.towers.getD i [] = cfg.towers[i] := by
      simp [List.getD_eq_getElem?_getD, List.getElem?_eq_getElem hi']
    rw [this]
    exact h2 _ (List.getElem_mem hi')
  · rintro ⟨h1, h2⟩
    refine ⟨h1, fun row hrow => ?_⟩
    rcases List.getElem_of_mem hrow with ⟨i, hi, hrw⟩
    have : cfg.towers.getD i [] = cfg.towers[i] := by
      simp [List.getD_eq_getElem?_getD, List.getElem?_eq_getElem hi]
    rw [← hrw, ← this]
    exact h2 i (by omega)

theorem ShapeWF.of_shapeEq {city : City} {a b : Configuration}
    (h : ShapeWF city a) (he : ShapeEq a b) : ShapeWF city b := by
  rw [shapeWF_iff] at h ⊢
  obtain ⟨e1, e2, e3⟩ := he
  exact ⟨e2.trans h.1, fun i hi => (e3 i).trans (h.2 i hi)⟩

theorem ShapeWF.inShape {city : City} {cfg : Configuration} {r c : Nat}
    (h : ShapeWF city cfg) (hr : r < city.n) (hc : c < city.m) : InShape cfg r c := by
  rw [shapeWF_iff] at h
  exact ⟨by omega, by rw [h.2 r hr]; exact hc⟩

theorem ShapeWF.setCell {city : City} {cfg : Configuration} (h : ShapeWF city cfg)
    (r c v : Nat) : ShapeWF city (cfg.setCell r c v) :=
  h.of_shapeEq (ShapeEq.setCellE cfg r c v)

theorem allZero_iff {cfg : Configuration} :
    cfg.allZero = true ↔ ∀ r c, cfg.getCell r c = 0 := by
  unfold Configuration.allZero Configuration.getCell
  rw [List.all_eq_true]
  constructor
  · intro h r c
    by_cases hr : r < cfg.towers.length
    · have hrow : cfg.towers.getD r [] = cfg.towers[r] := by
        simp [List.getD_eq_getElem?_getD, List.getElem?_eq_getElem hr]
      rw [hrow]
      have hall := h _ (List.getElem_mem hr)
      rw [List.all_eq_true] at hall
      by_cases hc : c < (cfg.towers[r]).length
      · have := hall _ (List.getElem_mem hc)
        simp at this
        simp [List.getD_eq_getElem?_getD, List.getElem?_eq_getElem hc, this]
      · simp [List.getD_eq_getElem?_getD, List.getElem?_eq_none_iff.mpr (Nat.le_of_not_lt hc)]
    · simp [List.getD_eq_getElem?_getD, List.getElem?_eq_none_iff.mpr (Nat.le_of_not_lt hr)]
  · intro h row hrow
    rw [List.all_eq_true]
    intro t ht
    rcases List.getElem_of_mem hrow with ⟨i, hi, hrw⟩
    rcases List.getElem_of_mem ht with ⟨j, hj, hjw⟩
    have := h i j
    have hrow' : cfg.towers.getD i [] = row := by
      simp [List.getD_eq_getElem?_getD, List.getElem?_eq_getElem hi, hrw]
    rw [hrow'] at this
    have : row.getD j 0 = 0 := this
    rw [List.getD_eq_getElem?_getD, List.getElem?_eq_getElem hj, hjw] at this
    simpa using this

theorem allZero_zeroConfiguration (city : City) : (zeroConfiguration city).allZero = true := by
  rw [allZero_iff]
  intro r c
  unfold zeroConfiguration Configuration.getCell
  simp only [List.getD_eq_getElem?_getD, List.getElem?_replicate]
  by_cases hr : r < city.n
  · rw [if_pos hr]
    simp only [Option.getD_some, List.getElem?_replicate]
    by_cases hc : c < city.m
    · rw [if_pos hc]; rfl
    · rw [if_neg hc]; rfl
  · rw [if_neg hr]; rfl

theorem allZero_eq_zeroConfiguration {city : City} {cfg : Configuration}
    (hz : cfg.allZero = true) (hs : ShapeWF city cfg) (hc : cfg.city = city) :
    cfg = zeroConfiguration city := by
  apply Configuration.ext2 hc
  show cfg.towers = List.replicate city.n (List.replicate city.m 0)
  rw [shapeWF_iff] at hs
  apply List.ext_getElem
  · simp [hs.1]
  · intro i h1 h2
    have hrowlen : (cfg.towers[i]).length = city.m := by
      have : cfg.towers.getD i [] = cfg.towers[i] := by
        simp [List.getD_eq_getElem?_getD, List.getElem?_eq_getElem h1]
      rw [← this]
      exact hs.2 i (by rw [← hs.1]; exact h1)
    rw [List.getElem_replicate]
    apply List.ext_getElem
    · simp [hrowlen]
    · intro j hj1 hj2
      rw [List.getElem_replicate]
      rw [allZero_iff] at hz
      have := hz i j
      unfold Configuration.getCell at this
      rw [show cfg.towers.getD i [] = cfg.towers[i] by
        simp [List.getD_eq_getElem?_getD, List.getElem?_eq_getElem h1]] at this
      rw [List.getD_eq_getElem?_getD, List.getElem?_eq_getElem hj1] at this
      exact this

end ShapeLemmas

section CountLemmas

theorem sum_set_decomp {l : List Nat} :
    ∀ {i : Nat}, i < l.length → ∀ v : Nat, (l.set i v).sum + l.getD i 0 = l.sum + v := by
  induction l with
  | nil => intro i h; simp at h
  | cons x rest ih =>
    intro i h v
    cases i with
    | zero => simp [List.set]; omega
    | succ j =>
      have hj : j < rest.length := by simpa using h
      have := ih hj v
      simp only [List.set, List.sum_cons, List.getD_cons_succ]
      omega

theorem countP_set_decomp {p : Nat → Bool} {l : List Nat} :
    ∀ {i : Nat}, i < l.length → ∀ v : Nat,
      (l.set i v).countP p + (if p (l.getD i 0) then 1 else 0) =
        l.countP p + (if p v then 1 else 0) := by
  induction l with
  | nil => intro i h; simp at h
  | cons x rest ih =>
    intro i h v
    cases i with
    | zero => simp [List.set, List.countP_cons, List.getD_cons_zero]; omega
    | succ j =>
      have hj : j < rest.length := by simpa using h
      have := ih hj v
      simp only [List.set, List.countP_cons, List.getD_cons_succ]
      omega

theorem getD_map_cnt {l : List (List Nat)} {f : List Nat → Nat} {i : Nat}
    (h : i < l.length) (d : Nat) : (l.map f).getD i d = f (l.getD i []) := by
  simp [List.getD_eq_getElem?_getD, List.getElem?_map, List.getElem?_eq_getElem h]

theorem nonzeroCount_setCell_zero {cfg : Configuration} {r c : Nat}
    (h : InShape cfg r c) (hnz : cfg.getCell r c ≠ 0) :
    nonzeroCount (cfg.setCell r c 0) < nonzeroCount cfg := by
  obtain ⟨h1, h2⟩ := h
  unfold nonzeroCount Configuration.setCell
  simp only [List.map_set]
  have hrowcnt : ((cfg.towers.getD r []).set c 0).countP (fun t => !(t == 0)) + 1 =
      (cfg.towers.getD r []).countP (fun t => !(t == 0)) := by
    have hd := countP_set_decomp (p := fun t => !(t == 0)) (l := cfg.towers.getD r []) h2 0
    have hpz : (!((cfg.towers.getD r []).getD c 0 == 0)) = true := by
      simp only [Bool.not_eq_true', beq_eq_false_iff_ne]
      exact hnz
    rw [if_pos hpz] at hd
    simpa using hd
  have hmaplen : r < (cfg.towers.map (fun row => row.countP (fun t => !(t == 0)))).length := by
    simpa using h1
  have hs := sum_set_decomp
    (l := cfg.towers.map (fun row => row.countP (fun t => !(t == 0)))) hmaplen
    (((cfg.towers.getD r []).set c 0).countP (fun t => !(t == 0)))
  rw [getD_map_cnt h1] at hs
  omega

theorem nonzeroCount_le {city : City} {cfg : Configuration} (h : ShapeWF city cfg) :
    nonzeroCount cfg ≤ city.n * city.m := by
  unfold nonzeroCount
  obtain ⟨h1, h2⟩ := h
  calc (cfg.towers.map (fun row => row.countP (fun t => !(t == 0)))).sum
      ≤ (cfg.towers.map (fun row => row.length)).sum := by
        apply List.sum_le_sum
        intro x hx
        exact List.countP_le_length _
    _ = city.n * city.m := by
        have : cfg.towers.map (fun row => row.length) = List.replicate city.n city.m := by
          rw [List.eq_replicate_iff]
          constructor
          · simp [h1]
          · intro b hb
            rcases List.mem_map.mp hb with ⟨row, hrow, hrw⟩
            rw [← hrw]
            exact h2 row hrow
        rw [this, List.sum_replicate, smul_eq_mul]

end CountLemmas

section PlaceLemmas

theorem validPlacement_iff {cfg : Configuration} {row col color : Nat} :
    cfg.validPlacement row col color = true ↔
      ∀ k < color, cfg.hasNeighbor row col k = true := by
  unfold Configuration.validPlacement
  rw [List.all_eq_true]
  constructor
  · intro h k hk
    exact h k (List.mem_range.mpr hk)
  · intro h k hk
    exact h k (List.mem_range.mp hk)

theorem checkBounds_ok {cfg : Configuration} {row col color : Nat}
    (h1 : row < cfg.city.n) (h2 : col < cfg.city.m) (h3 : color < cfg.city.nbColors) :
    cfg.checkBounds row col color = .ok () := by
  unfold Configuration.checkBounds
  rw [if_neg (by omega), if_neg (by omega), if_neg (by omega)]

theorem checkBounds_oob {cfg : Configuration} {row col color : Nat}
    (h : ¬ (row < cfg.city.n ∧ col < cfg.city.m ∧ color < cfg.city.nbColors)) :
    cfg.checkBounds row col color = .error .outOfRange := by
  unfold Configuration.checkBounds
  by_cases h1 : cfg.city.n ≤ row
  · rw [if_pos h1]
  · rw [if_neg h1]
    by_cases h2 : cfg.city.m ≤ col
    · rw [if_pos h2]
    · rw [if_neg h2]
      rw [if_pos (by omega)]

theorem placeTower_ok_of_bounds {cfg : Configuration} {row col color : Nat} {verify : Bool}
    (h1 : row < cfg.city.n) (h2 : col < cfg.city.m) (h3 : color < cfg.city.nbColors) :
    cfg.placeTower row col color verify =
      if verify && !(cfg.validPlacement row col color) then .error .placement
      else .ok (cfg.setCell row col color) := by
  unfold Configuration.placeTower
  rw [checkBounds_ok h1 h2 h3]

theorem placeTower_zero_ok {cfg : Configuration} {row col : Nat} {verify : Bool}
    (h1 : row < cfg.city.n) (h2 : col < cfg.city.m) (h3 : 0 < cfg.city.nbColors) :
    cfg.placeTower row col 0 verify = .ok (cfg.setCell row col 0) := by
  rw [placeTower_ok_of_bounds h1 h2 h3]
  have : cfg.validPlacement row col 0 = true := by
    rw [validPlacement_iff]; intro k hk; omega
  rw [this]
  simp

end PlaceLemmas

section ClaimC5

/-- C5 — Placement legality: for every in-bounds `(row, col, level)`,
`Configuration.place_tower` with `verify=True` raises `PlacementError` iff the
move is illegal in the current state (level 0 is always legal; level `v > 0`
is legal iff for every `k < v` some current neighbor is at level `k`); on
success exactly the cell `(row, col)` is set to the level and every other
cell is unchanged; out-of-bounds `row`, `col` or `level` raises the
out-of-range `ValueError` regardless of `verify`. -/
theorem spec_C5_place_legality (cfg : Configuration) (row col lvl : Nat) (verify : Bool)
    (hshape : ShapeWF cfg.city cfg) :
    (row < cfg.city.n → col < cfg.city.m → lvl < cfg.city.nbColors →
      ((cfg.placeTower row col lvl verify = .error .placement ↔
        verify = true ∧ ¬ (lvl = 0 ∨ ∀ k < lvl, cfg.hasNeighbor row col k = true)) ∧
       (∀ c', cfg.placeTower row col lvl verify = .ok c' →
         c'.getCell row col = lvl ∧
         ∀ r c, (r, c) ≠ (row, col) → c'.getCell r c = cfg.getCell r c))) ∧
    (¬ (row < cfg.city.n ∧ col < cfg.city.m ∧ lvl < cfg.city.nbColors) →
      cfg.placeTower row col lvl verify = .error .outOfRange) := by
  constructor
  · intro h1 h2 h3
    rw [placeTower_ok_of_bounds h1 h2 h3]
    constructor
    · constructor
      · intro herr
        by_cases hv : (verify && !(cfg.validPlacement row col lvl)) = true
        · rw [if_pos hv] at herr
          rcases Bool.and_eq_true_iff.mp hv with ⟨hv1, hv2⟩
          refine ⟨hv1, ?_⟩
          rintro (hl | hall)
          · subst hl
            have : cfg.validPlacement row col 0 = true := by
              rw [validPlacement_iff]; intro k hk; omega
            rw [this] at hv2; simp at hv2
          · rw [validPlacement_iff.mpr hall] at hv2; simp at hv2
        · rw [if_neg hv] at herr; simp at herr
      · rintro ⟨hv, hnl⟩
        subst hv
        have hvf : cfg.validPlacement row col lvl = false := by
          by_contra hcon
          have : cfg.validPlacement row col lvl = true := by
            cases hb : cfg.validPlacement row col lvl
            · exact absurd hb hcon
            · rfl
          exact hnl (Or.inr (validPlacement_iff.mp this))
        rw [hvf]
        simp
    · intro c' hok
      by_cases hv : (verify && !(cfg.validPlacement row col lvl)) = true
      · rw [if_pos hv] at hok; simp at hok
      · rw [if_neg hv] at hok
        have hc' : c' = cfg.setCell row col lvl := by
          injection hok with h; exact h.symm
        subst hc'
        refine ⟨getCell_setCell_self (hshape.inShape h1 h2), fun r c hne => ?_⟩
        exact getCell_setCell_ne (fun hh => hne (by rw [hh]))
  · intro hoob
    unfold Configuration.placeTower
    rw [checkBounds_oob hoob]

/-- Witness for C5 at a concrete input: on the all-zero 2x2 grid, placing
level 2 with verification fails with `PlacementError` (no level-1 neighbor). -/
theorem spec_C5_place_legality_witness :
    (zeroConfiguration ⟨2, 2, 4, [1, 2, 3, 4]⟩).placeTower 0 0 2 true =
      .error .placement := by
  have h := (spec_C5_place_legality (zeroConfiguration ⟨2, 2, 4, [1, 2, 3, 4]⟩)
    0 0 2 true (by constructor <;> decide)).1 (by decide) (by decide) (by decide)
  exact h.1.mpr ⟨rfl, by decide⟩

end ClaimC5

section ReduceBasic

theorem undoFold_ok_moves {city : City} {fuel : Nat} :
    ∀ {ps : List Move} {acc res : List Move × Configuration},
      ps.foldlM (undoStepF (fun c r2 c2 => applySafeReduction city fuel c r2 c2 true))
        acc = .ok res →
      ∃ pre : List Move, res.1 = pre ++ acc.1 := by
  intro ps
  induction ps with
  | nil =>
    intro acc res h
    simp only [List.foldlM_nil] at h
    injection h with h
    exact ⟨[], by simp [← h]⟩
  | cons p rest ih =>
    intro acc res h
    rw [List.foldlM_cons] at h
    cases hred : applySafeReduction city fuel acc.2 p.1 p.2.1 true with
    | error e =>
      rw [show undoStepF (fun c r2 c2 => applySafeReduction city fuel c r2 c2 true) acc p =
        .error e by simp [undoStepF, hred]] at h
      exact absurd h (by simp [Bind.bind, Except.bind])
    | ok mc =>
      rw [show undoStepF (fun c r2 c2 => applySafeReduction city fuel c r2 c2 true) acc p =
        .ok (mc.1 ++ acc.1, mc.2) by simp [undoStepF, hred]] at h
      have h2 : rest.foldlM
          (undoStepF (fun c r2 c2 => applySafeReduction city fuel c r2 c2 true))
          (mc.1 ++ acc.1, mc.2) = .ok res := h
      rcases ih h2 with ⟨pre, hpre⟩
      exact ⟨pre ++ mc.1, by rw [hpre]; simp⟩

theorem undoFold_shapeEq {city : City} {fuel : Nat}
    (IH : ∀ cfg row col mv cfg',
      applySafeReduction city fuel cfg row col true = .ok (mv, cfg') → ShapeEq cfg cfg') :
    ∀ {ps : List Move} {acc res : List Move × Configuration},
      ps.foldlM (undoStepF (fun c r2 c2 => applySafeReduction city fuel c r2 c2 true))
        acc = .ok res →
      ShapeEq acc.2 res.2 := by
  intro ps
  induction ps with
  | nil =>
    intro acc res h
    simp only [List.foldlM_nil] at h
    injection h with h
    rw [← h]
    exact ShapeEq.refl _
  | cons p rest ih =>
    intro acc res h
    rw [List.foldlM_cons] at h
    cases hred : applySafeReduction city fuel acc.2 p.1 p.2.1 true with
    | error e =>
      rw [show undoStepF (fun c r2 c2 => applySafeReduction city fuel c r2 c2 true) acc p =
        .error e by simp [undoStepF, hred]] at h
      exact absurd h (by simp [Bind.bind, Except.bind])
    | ok mc =>
      rw [show undoStepF (fun c r2 c2 => applySafeReduction city fuel c r2 c2 true) acc p =
        .ok (mc.1 ++ acc.1, mc.2) by simp [undoStepF, hred]] at h
      have h2 : rest.foldlM
          (undoStepF (fun c r2 c2 => applySafeReduction city fuel c r2 c2 true))
          (mc.1 ++ acc.1, mc.2) = .ok res := h
      have hstep := ih h2
      exact (IH _ _ _ _ _ hred).trans hstep

theorem foldl_setCell_shapeEq (cfg : Configuration) (ps : List Move) :
    ShapeEq cfg (ps.foldl (fun c p => c.setCell p.1 p.2.1 p.2.2) cfg) := by
  induction ps generalizing cfg with
  | nil => exact ShapeEq.refl _
  | cons p rest ih =>
    simp only [List.foldl_cons]
    exact (ShapeEq.setCellE cfg p.1 p.2.1 p.2.2).trans (ih _)

theorem reduce_shapeEq {city : City} :
    ∀ {fuel : Nat} {cfg : Configuration} {row col : Nat} {eof : Bool}
      {mv : List Move} {cfg' : Configuration},
      applySafeReduction city fuel cfg row col eof = .ok (mv, cfg') →
      ShapeEq cfg cfg' := by
  intro fuel
  induction fuel with
  | zero => intro cfg row col eof mv cfg' h; exact absurd h (by simp [applySafeReduction])
  | succ fuel ih =>
    intro cfg row col eof mv cfg' h
    rw [applySafeReduction] at h
    split at h
    · split at h
      · exact absurd h (by simp)
      · injection h with h
        rw [show cfg' = (([], cfg) : List Move × Configuration).2 from by rw [h]]
        exact ShapeEq.refl _
    · split at h
      · split at h
        · exact absurd h (by simp)
        · injection h with h
          rw [show cfg' = (([], cfg) : List Move × Configuration).2 from by rw [h]]
          exact ShapeEq.refl _
      · split at h
        · exact absurd h (by simp)
        · split at h
          · exact absurd h (by simp)
          · injection h with h
            rw [show cfg' = (([], cfg) : List Move × Configuration).2 from by rw [h]]
            exact ShapeEq.refl _
        · rename_i ps heq
          have hstep := @undoFold_shapeEq city fuel
            (fun cfg row col mv cfg' hh => ih hh) _ _ _ h
          refine ShapeEq.trans ?_ hstep
          exact ((foldl_setCell_shapeEq cfg ps).trans
            (ShapeEq.setCellE _ row col 0))

theorem reduce_ok_empty_cases {city : City} {fuel : Nat} {cfg : Configuration}
    {row col : Nat} {eof : Bool} {mv : List Move} {cfg' : Configuration}
    (h : applySafeReduction city fuel cfg row col eof = .ok (mv, cfg')) :
    (mv = [] ∧ cfg' = cfg ∧ eof = false) ∨ mv ≠ [] := by
  cases fuel with
  | zero => exact absurd h (by simp [applySafeReduction])
  | succ fuel =>
    rw [applySafeReduction] at h
    split at h
    · split at h
      · exact absurd h (by simp)
      · injection h with h
        rename_i heof
        left
        refine ⟨?_, ?_, by simpa using heof⟩
        · rw [show mv = (([], cfg) : List Move × Configuration).1 from by rw [h]]
        · rw [show cfg' = (([], cfg) : List Move × Configuration).2 from by rw [h]]
    · split at h
      · split at h
        · exact absurd h (by simp)
        · injection h with h
          rename_i heof
          left
          refine ⟨?_, ?_, by simpa using heof⟩
          · rw [show mv = (([], cfg) : List Move × Configuration).1 from by rw [h]]
          · rw [show cfg' = (([], cfg) : List Move × Configuration).2 from by rw [h]]
      · split at h
        · exact absurd h (by simp)
        · split at h
          · exact absurd h (by simp)
          · injection h with h
            rename_i heof
            left
            refine ⟨?_, ?_, by simpa using heof⟩
            · rw [show mv = (([], cfg) : List Move × Configuration).1 from by rw [h]]
            · rw [show cfg' = (([], cfg) : List Move × Configuration).2 from by rw [h]]
        · rcases undoFold_ok_moves h with ⟨pre, hpre⟩
          right
          simp only at hpre
          rw [hpre]
          simp

end ReduceBasic

section ClaimC6

/-- C6 — Safe-reduction failure atomicity: with `error_on_fail=False`, the
reduction returns an empty move list whenever the cell's color is 0, or no
neighbor is currently at level 0, or the promotion demand cannot be met (the
selection loop fails); and whenever it returns an empty move list the
configuration is returned exactly as it was (no partial mutation). -/
theorem spec_C6_reduction_atomicity (city : City) (fuel : Nat) (cfg : Configuration)
    (row col : Nat) :
    (0 < fuel →
      (cfg.getCell row col = 0 ∨ ¬ cfg.hasNeighbor row col 0 = true ∨
        selectPromotions city cfg row col (needList (cfg.getCell row col))
          (countZeroNeighbors city cfg row col - 1) [] = .ok none) →
      applySafeReduction city fuel cfg row col false = .ok ([], cfg)) ∧
    (∀ mv cfg', applySafeReduction city fuel cfg row col false = .ok (mv, cfg') →
      mv = [] → cfg' = cfg) := by
  constructor
  · intro hfuel hcond
    cases fuel with
    | zero => omega
    | succ fuel =>
      rw [applySafeReduction]
      by_cases h0 : cfg.getCell row col = 0
      · rw [if_pos h0]
        rfl
      · rw [if_neg h0]
        by_cases h1 : cfg.hasNeighbor row col 0 = true
        · rw [if_neg (by simp [h1])]
          have hsel : selectPromotions city cfg row col (needList (cfg.getCell row col))
              (countZeroNeighbors city cfg row col - 1) [] = .ok none := by
            rcases hcond with h | h | h
            · exact absurd h h0
            · exact absurd h1 h
            · exact h
          rw [hsel]
          rfl
        · rw [if_pos (by simp [Bool.not_eq_true] at h1; simp [h1])]
          rfl
  · intro mv cfg' h hmv
    rcases reduce_ok_empty_cases h with ⟨_, hc, _⟩ | hne
    · exact hc
    · exact absurd hmv hne

/-- Witness for C6 at a concrete input: on the 1x3 grid `[2, 0, 2]`, cell
`(0, 0)` has a level-0 neighbor but the single needed level-1 promotion is
not available, so the reduction fails atomically. -/
theorem spec_C6_reduction_atomicity_witness :
    applySafeReduction ⟨1, 3, 4, [1, 2, 3, 4]⟩ 4
      ⟨⟨1, 3, 4, [1, 2, 3, 4]⟩, [[2, 0, 2]]⟩ 0 0 false =
      .ok ([], ⟨⟨1, 3, 4, [1, 2, 3, 4]⟩, [[2, 0, 2]]⟩) :=
  (spec_C6_reduction_atomicity ⟨1, 3, 4, [1, 2, 3, 4]⟩ 4
    ⟨⟨1, 3, 4, [1, 2, 3, 4]⟩, [[2, 0, 2]]⟩ 0 0).1 (by decide)
    (Or.inr (Or.inr (by decide)))

end ClaimC6

section ErrShape

/-- The error values an engine-internal failure can carry (everything except
the `Infeasible` raised by `get_moves` itself). -/
def Err.benign : Err → Prop := fun e => ∀ t k, e ≠ .infeasible t k

theorem benign_outOfRange : Err.benign .outOfRange := by intro t k h; cases h
theorem benign_placement : Err.benign .placement := by intro t k h; cases h
theorem benign_promoteNotNeighbor : Err.benign .promoteNotNeighbor := by intro t k h; cases h
theorem benign_promoteColor : Err.benign .promoteColor := by intro t k h; cases h
theorem benign_safeReduction (r c : Nat) : Err.benign (.safeReduction r c) := by
  intro t k h; cases h
theorem benign_invalidSequence : Err.benign .invalidSequence := by intro t k h; cases h
theorem benign_fuel : Err.benign .fuel := by intro t k h; cases h

theorem safelyPromotable_error_benign {city cfg rr rc pr pc cw e}
    (h : safelyPromotable city cfg rr rc pr pc cw = .error e) : Err.benign e := by
  unfold safelyPromotable at h
  split at h
  · injection h with h; rw [← h]; exact benign_promoteNotNeighbor
  · split at h
    · injection h with h; rw [← h]; exact benign_promoteColor
    · split at h
      · exact absurd h (by simp)
      · split at h
        · exact absurd h (by simp)
        · exact absurd h (by simp)

theorem findPromotable_error_benign {city cfg row col k e} :
    ∀ {l used}, findPromotable city cfg row col k l used = .error e → Err.benign e := by
  intro l
  induction l with
  | nil => intro used h; exact absurd h (by simp [findPromotable])
  | cons pq rest ih =>
    intro used h
    rw [findPromotable] at h
    split at h
    · exact ih h
    · split at h
      · rename_i e' heq
        injection h with h
        rw [← h]
        exact safelyPromotable_error_benign heq
      · exact absurd h (by simp)
      · exact ih h

theorem selectPromotions_error_benign {city cfg row col e} :
    ∀ {needed : List Nat} {avail used},
      selectPromotions city cfg row col needed avail used = .error e → Err.benign e := by
  intro needed
  induction needed with
  | nil => intro avail used h; exact absurd h (by simp [selectPromotions])
  | cons k rest ih =>
    intro avail used h
    rw [selectPromotions] at h
    split at h
    · exact ih h
    · split at h
      · exact absurd h (by simp)
      · split at h
        · rename_i e' heq
          injection h with h
          rw [← h]
          exact findPromotable_error_benign heq
        · exact absurd h (by simp)
        · split at h
          · rename_i heq
            injection h with h
            subst h
            exact ih heq
          · exact absurd h (by simp)
          · exact absurd h (by simp)

theorem reduce_error_benign {city : City} :
    ∀ {fuel cfg row col eof e},
      applySafeReduction city fuel cfg row col eof = .error e → Err.benign e := by
  intro fuel
  induction fuel with
  | zero =>
    intro cfg row col eof e h
    rw [applySafeReduction] at h
    injection h with h
    rw [← h]
    exact benign_fuel
  | succ fuel ih =>
    intro cfg row col eof e h
    rw [applySafeReduction] at h
    have hfail : ∀ hh : (if eof then (.error (.safeReduction row col) :
        Except Err (List Move × Configuration)) else .ok ([], cfg)) = .error e,
        Err.benign e := by
      intro hh
      cases eof with
      | true =>
        simp only [if_pos] at hh
        injection hh with hh
        rw [← hh]
        exact benign_safeReduction row col
      | false => exact absurd hh (by simp)
    split at h
    · exact hfail h
    · split at h
      · exact hfail h
      · split at h
        · rename_i heq
          injection h with h
          rw [← h]
          exact selectPromotions_error_benign heq
        · exact hfail h
        · rename_i ps heq
          clear heq
          revert h
          generalize ((row, col, cfg.getCell row col) ::
            ps.foldl (fun m p => (p.1, p.2.1, 0) :: m) ([] : List Move),
            (ps.foldl (fun c p => c.setCell p.1 p.2.1 p.2.2) cfg).setCell row col 0) = acc
          induction ps generalizing acc with
          | nil => intro h; exact absurd h (by simp [pure, Except.pure])
          | cons p rest ihp =>
            intro h
            rw [List.foldlM_cons] at h
            cases hred : applySafeReduction city fuel acc.2 p.1 p.2.1 true with
            | error e' =>
              rw [show undoStepF (fun c r2 c2 => applySafeReduction city fuel c r2 c2 true)
                  acc p = .error e' by simp [undoStepF, hred]] at h
              have : (Except.error e' : Except Err (List Move × Configuration)) = .error e := h
              injection this with hh
              rw [← hh]
              exact ih hred
            | ok mc =>
              rw [show undoStepF (fun c r2 c2 => applySafeReduction city fuel c r2 c2 true)
                  acc p = .ok (mc.1 ++ acc.1, mc.2) by simp [undoStepF, hred]] at h
              exact ihp (mc.1 ++ acc.1, mc.2) h

theorem placeTower_error_benign {cfg : Configuration} {row col color : Nat}
    {verify : Bool} {e : Err}
    (h : cfg.placeTower row col color verify = .error e) : Err.benign e := by
  unfold Configuration.placeTower Configuration.checkBounds at h
  split at h
  · rename_i heq
    split at heq
    · injection heq with heq
      injection h with h
      rw [← h, ← heq]
      exact benign_outOfRange
    · split at heq
      · injection heq with heq
        injection h with h
        rw [← h, ← heq]
        exact benign_outOfRange
      · split at heq
        · injection heq with heq
          injection h with h
          rw [← h, ← heq]
          exact benign_outOfRange
        · exact absurd heq (by simp)
  · split at h
    · injection h with h
      rw [← h]
      exact benign_placement
    · exact absurd h (by simp)

theorem sweepPass_error_benign {city : City} {cfg : Configuration} {e : Err}
    (h : sweepPass city cfg = .error e) : Err.benign e := by
  unfold sweepPass at h
  revert h
  generalize (([], cfg, false) : List Move × Configuration × Bool) = acc
  induction (cellList city) generalizing acc with
  | nil => intro h; exact absurd h (by simp [pure, Except.pure])
  | cons rc rest ih =>
    intro h
    rw [List.foldlM_cons] at h
    cases hred : applySafeReduction city city.nbColors acc.2.1 rc.1 rc.2 false with
    | error e' =>
      rw [show sweepStep city acc rc = .error e' by simp [sweepStep, hred]] at h
      have : (Except.error e' : Except Err (List Move × Configuration × Bool)) = .error e := h
      injection this with hh
      rw [← hh]
      exact reduce_error_benign hred
    | ok mc =>
      by_cases hemp : mc.1.isEmpty
      · rw [show sweepStep city acc rc = .ok (acc.1, mc.2, acc.2.2) by
          simp [sweepStep, hred, hemp]] at h
        exact ih (acc.1, mc.2, acc.2.2) h
      · rw [show sweepStep city acc rc = .ok (mc.1 ++ acc.1, mc.2, true) by
          simp only [sweepStep, hred]; rw [if_neg hemp]] at h
        exact ih (mc.1 ++ acc.1, mc.2, true) h

theorem applySafeReductions_error_benign {city : City} :
    ∀ {fuel : Nat} {cfg : Configuration} {e : Err},
      applySafeReductions city fuel cfg = .error e → Err.benign e := by
  intro fuel
  induction fuel with
  | zero =>
    intro cfg e h
    rw [applySafeReductions] at h
    injection h with h
    rw [← h]
    exact benign_fuel
  | succ fuel ih =>
    intro cfg e h
    rw [applySafeReductions] at h
    split at h
    · rename_i heq
      injection h with h
      rw [← h]
      exact sweepPass_error_benign heq
    · split at h
      · split at h
        · rename_i heq
          injection h with h
          subst h
          exact ih heq
        · exact absurd h (by simp)
      · exact absurd h (by simp)

theorem applySafeReductionsTop_error_benign {city : City} {cfg : Configuration} {e : Err}
    (h : applySafeReductionsTop city cfg = .error e) : Err.benign e :=
  applySafeReductions_error_benign h

theorem getReducedAux_error_benign {city : City} :
    ∀ {fuelS : Nat} {cfg : Configuration} {e : Err},
      getReducedAux city fuelS cfg = .error e → Err.benign e := by
  intro fuelS
  induction fuelS with
  | zero =>
    intro cfg e h
    rw [getReducedAux] at h
    injection h with h
    rw [← h]
    exact benign_fuel
  | succ fuelS ih =>
    intro cfg e h
    rw [getReducedAux] at h
    split at h
    · rename_i heq
      injection h with h
      rw [← h]
      exact applySafeReductionsTop_error_benign heq
    · rename_i currentMoves current heq
      split at h
      · exact absurd h (by simp)
      · revert h
        generalize ((current, currentMoves) : Configuration × List Move) = acc
        induction (usefulTwoPromotions city current) generalizing acc with
        | nil => intro h; exact absurd h (by simp [pure, Except.pure])
        | cons z rest ihz =>
          intro h
          rw [List.foldlM_cons] at h
          by_cases hz : acc.1.allZero = true
          · rw [show searchStep (getReducedAux city fuelS) current currentMoves acc z =
                .ok acc by simp [searchStep, hz]] at h
            exact ihz acc h
          · cases hpl : current.placeTower z.1 z.2 2 false with
            | error e' =>
              rw [show searchStep (getReducedAux city fuelS) current currentMoves acc z =
                  .error e' by simp [searchStep, hz, hpl]] at h
              have : (Except.error e' : Except Err (Configuration × List Move)) = .error e := h
              injection this with hh
              rw [← hh]
              exact placeTower_error_benign hpl
            | ok next =>
              cases hrec : getReducedAux city fuelS next with
              | error e' =>
                rw [show searchStep (getReducedAux city fuelS) current currentMoves acc z =
                    .error e' by simp [searchStep, hz, hpl, hrec]] at h
                have : (Except.error e' : Except Err (Configuration × List Move)) = .error e := h
                injection this with hh
                rw [← hh]
                exact ih hrec
              | ok rr =>
                by_cases hrz : rr.1.allZero = true
                · rw [show searchStep (getReducedAux city fuelS) current currentMoves acc z =
                      .ok (rr.1, rr.2 ++ (z.1, z.2, 0) :: currentMoves) by
                    simp [searchStep, hz, hpl, hrec, hrz]] at h
                  exact ihz (rr.1, rr.2 ++ (z.1, z.2, 0) :: currentMoves) h
                · by_cases hlt : rr.1.ltc acc.1 = true
                  · rw [show searchStep (getReducedAux city fuelS) current currentMoves acc z =
                        .ok (rr.1, rr.2 ++ (z.1, z.2, 0) :: currentMoves) by
                      simp [searchStep, hz, hpl, hrec, hrz, hlt]] at h
                    exact ihz (rr.1, rr.2 ++ (z.1, z.2, 0) :: currentMoves) h
                  · rw [show searchStep (getReducedAux city fuelS) current currentMoves acc z =
                        .ok acc by simp [searchStep, hz, hpl, hrec, hrz, hlt]] at h
                    exact ihz acc h

theorem validSeqGo_error_benign {endC : Configuration} :
    ∀ {moves : List Move} {cfg : Configuration} {e : Err},
      validSeqGo endC cfg moves = .error e → Err.benign e := by
  intro moves
  induction moves with
  | nil => intro cfg e h; exact absurd h (by simp [validSeqGo])
  | cons mv rest ih =>
    intro cfg e h
    rw [validSeqGo] at h
    split at h
    · exact absurd h (by simp)
    · rename_i e' hne heq
      injection h with h
      rw [← h]
      exact placeTower_error_benign heq
    · exact ih h

end ErrShape

section ClaimC9

/-- C9 — Caller's frame unchanged: `get_moves` works only on deep copies of
the target, so the caller's configuration object is unchanged by the call,
both on success and on failure; moreover the `Infeasible` error carries the
caller's target configuration exactly as passed. -/
theorem spec_C9_frame_unchanged (city : City) (cfg : Configuration) :
    (getMovesFrame city cfg).2 = cfg ∧
    (∀ target conflict, getMoves city cfg = .error (.infeasible target conflict) →
      target = cfg) := by
  refine ⟨rfl, ?_⟩
  intro target conflict h
  unfold getMoves at h
  split at h
  · rename_i heq
    injection h with h
    exact absurd h (getReducedAux_error_benign heq target conflict)
  · rename_i reduced moves heq
    split at h
    · rename_i heq2
      injection h with h
      exact absurd h (validSeqGo_error_benign heq2 target conflict)
    · split at h
      · injection h with h
        exact absurd h (benign_invalidSequence target conflict)
      · split at h
        · injection h with h
          injection h with h1 h2
          exact h1.symm
        · exact absurd h (by simp)

end ClaimC9

section FixpointLemmas

theorem mem_cellList {city : City} {r c : Nat} :
    (r, c) ∈ cellList city ↔ r < city.n ∧ c < city.m := by
  unfold cellList
  constructor
  · intro h
    rcases List.mem_flatMap.mp h with ⟨a, ha, hin⟩
    rcases List.mem_map.mp hin with ⟨b, hb, he⟩
    injection he with h1 h2
    subst h1; subst h2
    exact ⟨List.mem_range.mp ha, List.mem_range.mp hb⟩
  · rintro ⟨h1, h2⟩
    exact List.mem_flatMap.mpr ⟨r, List.mem_range.mpr h1,
      List.mem_map.mpr ⟨c, List.mem_range.mpr h2, rfl⟩⟩

theorem sweepFlag_monotone {city : City} :
    ∀ {l : List (Nat × Nat)} {acc res : List Move × Configuration × Bool},
      l.foldlM (sweepStep city) acc = .ok res → acc.2.2 = true → res.2.2 = true := by
  intro l
  induction l with
  | nil =>
    intro acc res h hacc
    simp only [List.foldlM_nil] at h
    injection h with h
    rw [← h]
    exact hacc
  | cons rc rest ih =>
    intro acc res h hacc
    rw [List.foldlM_cons] at h
    cases hred : applySafeReduction city city.nbColors acc.2.1 rc.1 rc.2 false with
    | error e =>
      rw [show sweepStep city acc rc = .error e by simp [sweepStep, hred]] at h
      exact absurd h (by simp [Bind.bind, Except.bind])
    | ok mc =>
      by_cases hemp : mc.1.isEmpty
      · rw [show sweepStep city acc rc = .ok (acc.1, mc.2, acc.2.2) by
          simp [sweepStep, hred, hemp]] at h
        have h2 : rest.foldlM (sweepStep city) (acc.1, mc.2, acc.2.2) = .ok res := h
        exact ih h2 hacc
      · rw [show sweepStep city acc rc = .ok (mc.1 ++ acc.1, mc.2, true) by
          simp only [sweepStep, hred]; rw [if_neg hemp]] at h
        have h2 : rest.foldlM (sweepStep city) (mc.1 ++ acc.1, mc.2, true) = .ok res := h
        exact ih h2 rfl

theorem sweepFold_false_eq {city : City} :
    ∀ {l : List (Nat × Nat)} {acc res : List Move × Configuration × Bool},
      l.foldlM (sweepStep city) acc = .ok res → res.2.2 = false → res = acc := by
  intro l
  induction l with
  | nil =>
    intro acc res h hres
    simp only [List.foldlM_nil] at h
    injection h with h
    rw [← h]
  | cons rc rest ih =>
    intro acc res h hres
    rw [List.foldlM_cons] at h
    cases hred : applySafeReduction city city.nbColors acc.2.1 rc.1 rc.2 false with
    | error e =>
      rw [show sweepStep city acc rc = .error e by simp [sweepStep, hred]] at h
      exact absurd h (by simp [Bind.bind, Except.bind])
    | ok mc =>
      by_cases hemp : mc.1.isEmpty
      · have hmc1 : mc.1 = [] := by simpa [List.isEmpty_iff] using hemp
        have hmc2 : mc.2 = acc.2.1 := by
          have hred2 : applySafeReduction city city.nbColors acc.2.1 rc.1 rc.2 false =
              .ok (mc.1, mc.2) := hred
          rcases reduce_ok_empty_cases hred2 with ⟨_, hc, _⟩ | hne
          · exact hc
          · exact absurd hmc1 hne
        rw [show sweepStep city acc rc = .ok (acc.1, mc.2, acc.2.2) by
          simp [sweepStep, hred, hemp]] at h
        have hstep : (acc.1, mc.2, acc.2.2) = acc := by rw [hmc2]
        rw [hstep] at h
        exact ih h hres
      · rw [show sweepStep city acc rc = .ok (mc.1 ++ acc.1, mc.2, true) by
          simp only [sweepStep, hred]; rw [if_neg hemp]] at h
        have h2 : rest.foldlM (sweepStep city) (mc.1 ++ acc.1, mc.2, true) = .ok res := h
        have := sweepFlag_monotone h2 rfl
        rw [hres] at this
        cases this

theorem sweepFold_fixpoint_cells {city : City} :
    ∀ {l : List (Nat × Nat)} {acc : List Move × Configuration × Bool},
      l.foldlM (sweepStep city) acc = .ok acc → acc.2.2 = false →
      ∀ rc ∈ l, applySafeReduction city city.nbColors acc.2.1 rc.1 rc.2 false =
        .ok ([], acc.2.1) := by
  intro l
  induction l with
  | nil => intro acc h hacc rc hrc; simp at hrc
  | cons rc0 rest ih =>
    intro acc h hacc rc hrc
    rw [List.foldlM_cons] at h
    cases hred : applySafeReduction city city.nbColors acc.2.1 rc0.1 rc0.2 false with
    | error e =>
      rw [show sweepStep city acc rc0 = .error e by simp [sweepStep, hred]] at h
      exact absurd h (by simp [Bind.bind, Except.bind])
    | ok mc =>
      by_cases hemp : mc.1.isEmpty
      · have hmc1 : mc.1 = [] := by simpa [List.isEmpty_iff] using hemp
        have hmc2 : mc.2 = acc.2.1 := by
          have hred2 : applySafeReduction city city.nbColors acc.2.1 rc0.1 rc0.2 false =
              .ok (mc.1, mc.2) := hred
          rcases reduce_ok_empty_cases hred2 with ⟨_, hc, _⟩ | hne
          · exact hc
          · exact absurd hmc1 hne
        rw [show sweepStep city acc rc0 = .ok (acc.1, mc.2, acc.2.2) by
          simp [sweepStep, hred, hemp]] at h
        have hstep : (acc.1, mc.2, acc.2.2) = acc := by rw [hmc2]
        rw [hstep] at h
        rcases List.mem_cons.mp hrc with rfl | hrc'
        · have hmceq : mc = ([], acc.2.1) := by rw [← hmc1, ← hmc2]
          rw [hred, hmceq]
        · exact ih h hacc rc hrc'
      · rw [show sweepStep city acc rc0 = .ok (mc.1 ++ acc.1, mc.2, true) by
          simp only [sweepStep, hred]; rw [if_neg hemp]] at h
        have h2 : rest.foldlM (sweepStep city) (mc.1 ++ acc.1, mc.2, true) = .ok acc := h
        have := sweepFlag_monotone h2 rfl
        rw [hacc] at this
        cases this

theorem sweeps_ok_fixpoint {city : City} :
    ∀ {fuel : Nat} {cfg : Configuration} {mv : List Move} {S : Configuration},
      applySafeReductions city fuel cfg = .ok (mv, S) →
      sweepPass city S = .ok ([], S, false) := by
  intro fuel
  induction fuel with
  | zero => intro cfg mv S h; exact absurd h (by simp [applySafeReductions])
  | succ fuel ih =>
    intro cfg mv S h
    rw [applySafeReductions] at h
    split at h
    · exact absurd h (by simp)
    · rename_i mv1 cfg1 changed heq
      split at h
      · split at h
        · exact absurd h (by simp)
        · rename_i mv2 S2 heq2
          injection h with h
          have h2 : S2 = S := congrArg (fun x => x.2) h
          rw [← h2]
          exact ih heq2
      · rename_i hch
        injection h with h
        have hS : cfg1 = S := congrArg (fun x => x.2) h
        have hchf : changed = false := by
          cases changed
          · rfl
          · exact absurd rfl hch
        subst hchf
        have heq2 : (cellList city).foldlM (sweepStep city)
            (([], cfg, false) : List Move × Configuration × Bool) =
            .ok (mv1, cfg1, false) := by
          unfold sweepPass at heq
          exact heq
        have heqq := sweepFold_false_eq heq2 rfl
        have hmv1 : mv1 = [] := congrArg (fun x => x.1) heqq
        have hcfg1 : cfg1 = cfg := congrArg (fun x => x.2.1) heqq
        rw [← hS, hcfg1, heq, hmv1, hcfg1]

theorem sweepsTop_fixpoint_cells {city : City} {cfg : Configuration}
    {mv : List Move} {S : Configuration}
    (h : applySafeReductionsTop city cfg = .ok (mv, S)) :
    ∀ r c, r < city.n → c < city.m → 
      applySafeReduction city city.nbColors S r c false = .ok ([], S) := by
  intro r c hr hc
  have hfix := sweeps_ok_fixpoint h
  have hfix2 : (cellList city).foldlM (sweepStep city)
      (([], S, false) : List Move × Configuration × Bool) = .ok ([], S, false) := by
    unfold sweepPass at hfix
    exact hfix
  have := sweepFold_fixpoint_cells hfix2 rfl (r, c) (mem_cellList.mpr ⟨hr, hc⟩)
  exact this

end FixpointLemmas

section ClaimC3

/-- C3 — The conflict reported by `get_moves` is NOT always locally minimal:
on the 1x3 target `[2, 0, 2]`, `get_moves` raises `Infeasible` with conflict
`K = [2, 0, 2]`, yet zeroing the nonzero cell `(0, 0)` of `K` and re-running
the safe-reduction fixpoint sweep leaves the nonzero configuration
`[0, 0, 2]` — contradicting the documented minimality of the conflict (the
engine's own docstrings promise a "minimal conflict").  This theorem
evaluates the code at the failing input. -/
theorem spec_C3_conflict_not_minimal :
    getMoves cityA cfgA = .error (.infeasible cfgA cfgA) ∧
    cfgA.getCell 0 0 ≠ 0 ∧
    cfgA.setCell 0 0 0 = ⟨cityA, [[0, 0, 2]]⟩ ∧
    applySafeReductionsTop cityA (⟨cityA, [[0, 0, 2]]⟩ : Configuration) =
      .ok ([], ⟨cityA, [[0, 0, 2]]⟩) ∧
    (⟨cityA, [[0, 0, 2]]⟩ : Configuration).allZero = false := by
  refine ⟨by decide, by decide, by decide, by decide, by decide⟩

end ClaimC3

section ClaimC4

/-- C4 counterexample — the claim "every cell remaining after the
safe-reduction fixpoint has the highest level `L-1`" fails on the code: on
the 1x1 grid the configuration `[[1]]` is a fixpoint of the sweep (the sweep
terminates immediately with no change), its cell is nonzero, and its level 1
is not `nb_colors - 1 = 3`. -/
theorem spec_C4_counterexample :
    applySafeReductionsTop cityB cfgB = .ok ([], cfgB) ∧
    sweepPass cityB cfgB = .ok ([], cfgB, false) ∧
    cfgB.getCell 0 0 ≠ 0 ∧
    cfgB.getCell 0 0 ≠ cityB.nbColors - 1 := by
  refine ⟨by decide, by decide, by decide, by decide⟩

/-- C4 (amended) — Residual cells are irreducible: whenever the
safe-reduction fixpoint sweep terminates on a configuration with result `S`,
every in-range nonzero cell of `S` is not directly safely-reducible (the
safe reduction of that cell fails and leaves `S` unchanged).  The original
claim's additional assertion that such cells hold the highest level `L-1` is
false (see the counterexample). -/
theorem spec_C4_residual_irreducible (city : City) (cfg S : Configuration)
    (mv : List Move) (h : applySafeReductionsTop city cfg = .ok (mv, S)) :
    ∀ r c, r < city.n → c < city.m → S.getCell r c ≠ 0 →
      applySafeReduction city city.nbColors S r c false = .ok ([], S) := by
  intro r c hr hc _
  exact sweepsTop_fixpoint_cells h r c hr hc

/-- Witness for the amended C4 at a concrete input. -/
theorem spec_C4_residual_irreducible_witness :
    applySafeReduction cityB cityB.nbColors cfgB 0 0 false = .ok ([], cfgB) :=
  spec_C4_residual_irreducible cityB cfgB cfgB [] (by decide) 0 0
    (by decide) (by decide) (by decide)

end ClaimC4

section ClaimC8

theorem reduce_of_zero_cell {city : City} {cfg : Configuration} {r c : Nat}
    {fuel : Nat} (h0 : cfg.getCell r c = 0) (hf : 0 < fuel) :
    applySafeReduction city fuel cfg r c false = .ok ([], cfg) := by
  cases fuel with
  | zero => omega
  | succ fuel =>
    rw [applySafeReduction, if_pos h0]
    rfl

theorem sweepFold_allZero {city : City} {cfg : Configuration}
    (hz : cfg.allZero = true) (hnb : 0 < city.nbColors) :
    ∀ l : List (Nat × Nat),
      l.foldlM (sweepStep city) (([], cfg, false) : List Move × Configuration × Bool) =
        .ok ([], cfg, false) := by
  intro l
  induction l with
  | nil => rfl
  | cons rc rest ih =>
    rw [List.foldlM_cons]
    have hred : applySafeReduction city city.nbColors cfg rc.1 rc.2 false =
        .ok ([], cfg) :=
      reduce_of_zero_cell (allZero_iff.mp hz rc.1 rc.2) hnb
    rw [show sweepStep city ([], cfg, false) rc = .ok ([], cfg, false) by
      simp [sweepStep, hred]]
    exact ih

/-- C8 — All-zero base case: for every all-zero target configuration,
`get_moves` returns the empty move sequence (and raises nothing). -/
theorem spec_C8_allzero_empty (city : City) (cfg : Configuration)
    (hz : cfg.allZero = true) (hnb : 0 < city.nbColors) :
    getMoves city cfg = .ok [] := by
  have hpass : sweepPass city cfg = .ok ([], cfg, false) := by
    unfold sweepPass
    exact sweepFold_allZero hz hnb _
  have hsweeps : applySafeReductionsTop city cfg = .ok ([], cfg) := by
    unfold applySafeReductionsTop
    rw [applySafeReductions, hpass]
    rfl
  have haux : getReducedTop city cfg = .ok (cfg, []) := by
    unfold getReducedTop
    rw [getReducedAux, hsweeps]
    simp only [hz]
    rfl
  unfold getMoves
  rw [haux]
  dsimp only
  rw [show validSequence cfg [] cfg = .ok true by
    unfold validSequence
    rw [validSeqGo]
    simp]
  simp only [Bool.not_true]
  rw [if_neg (by simp)]
  rw [if_neg (by simp [hz])]

/-- Witness for C8 at a concrete input: the all-zero 2x2 configuration. -/
theorem spec_C8_allzero_empty_witness :
    getMoves cityC (zeroConfiguration cityC) = .ok [] :=
  spec_C8_allzero_empty cityC (zeroConfiguration cityC) (by decide) (by decide)

end ClaimC8

section PromotableLemmas

theorem sp_eq_one {city : City} {cfg : Configuration} {r c p q : Nat}
    (h : (p, q) ∈ city.neighbors r c) :
    safelyPromotable city cfg r c p q 1 = .ok (cfg.getCell p q == 0) := by
  unfold safelyPromotable
  rw [if_neg (by simp [h])]
  rw [if_neg (by simp)]
  by_cases hz : cfg.getCell p q = 0
  · rw [if_neg (by simp [hz]), if_pos rfl, hz]
    rfl
  · rw [if_pos hz]
    simp [hz]

theorem sp_eq_two {city : City} {cfg : Configuration} {r c p q : Nat}
    (h : (p, q) ∈ city.neighbors r c) :
    safelyPromotable city cfg r c p q 2 =
      .ok ((cfg.getCell p q == 0) && (city.neighbors p q).any (fun vw =>
        vw ≠ (r, c) && (cfg.getCell vw.1 vw.2 == 0 || cfg.getCell vw.1 vw.2 == 1))) := by
  unfold safelyPromotable
  rw [if_neg (by simp [h])]
  rw [if_neg (by simp)]
  by_cases hz : cfg.getCell p q = 0
  · rw [if_neg (by simp [hz]), if_neg (by simp), hz]
    simp
  · rw [if_pos hz]
    simp [hz]

theorem sp_two_true_iff {city : City} {cfg : Configuration} {r c p q : Nat}
    (h : (p, q) ∈ city.neighbors r c) :
    safelyPromotable city cfg r c p q 2 = .ok true ↔
      Promotable2P city cfg r c p q := by
  rw [sp_eq_two h]
  unfold Promotable2P
  constructor
  · intro hh
    injection hh with hh
    rcases Bool.and_eq_true_iff.mp hh with ⟨h1, h2⟩
    refine ⟨by simpa using h1, ?_⟩
    rcases List.any_eq_true.mp h2 with ⟨vw, hvw, hp⟩
    rcases Bool.and_eq_true_iff.mp hp with ⟨hne, hcol⟩
    refine ⟨vw, hvw, by simpa using hne, ?_⟩
    rcases Bool.or_eq_true_iff.mp hcol with h0 | h1
    · simp only [beq_iff_eq] at h0; omega
    · simp only [beq_iff_eq] at h1; omega
  · rintro ⟨h1, vw, hvw, hne, hcol⟩
    have : (cfg.getCell p q == 0) = true := by simpa using h1
    rw [this]
    have : ((city.neighbors p q).any (fun vw =>
        vw ≠ (r, c) && (cfg.getCell vw.1 vw.2 == 0 || cfg.getCell vw.1 vw.2 == 1))) = true := by
      refine List.any_eq_true.mpr ⟨vw, hvw, ?_⟩
      refine Bool.and_eq_true_iff.mpr ⟨by simpa using hne, ?_⟩
      rcases Nat.le_one_iff_eq_zero_or_eq_one.mp hcol with h0 | h1
      · exact Bool.or_eq_true_iff.mpr (Or.inl (by simpa using h0))
      · exact Bool.or_eq_true_iff.mpr (Or.inr (by simpa using h1))
    rw [this]
    rfl

theorem sp_true_cell_zero {city : City} {cfg : Configuration} {r c p q k : Nat}
    (h : safelyPromotable city cfg r c p q k = .ok true) : cfg.getCell p q = 0 := by
  by_contra hz
  unfold safelyPromotable at h
  split at h <;> first
    | (simp_all; done)
    | (split at h <;> simp_all)

theorem findPromotable_some {city : City} {cfg : Configuration} {r c k : Nat} :
    ∀ {l used : List (Nat × Nat)} {pq : Nat × Nat},
      findPromotable city cfg r c k l used = .ok (some pq) →
      pq ∈ l ∧ pq ∉ used ∧ safelyPromotable city cfg r c pq.1 pq.2 k = .ok true := by
  intro l
  induction l with
  | nil => intro used pq h; exact absurd h (by simp [findPromotable])
  | cons x rest ih =>
    intro used pq h
    rw [findPromotable] at h
    by_cases hxu : x ∈ used
    · rw [if_pos hxu] at h
      rcases ih h with ⟨h1, h2, h3⟩
      exact ⟨List.mem_cons_of_mem _ h1, h2, h3⟩
    · rw [if_neg hxu] at h
      cases hsp : safelyPromotable city cfg r c x.1 x.2 k with
      | error e => rw [hsp] at h; exact absurd h (by simp)
      | ok b =>
        rw [hsp] at h
        cases b with
        | true =>
          have h' : (Except.ok (some x) : Except Err (Option (Nat × Nat))) =
              .ok (some pq) := h
          injection h' with h'
          injection h' with h'
          subst h'
          exact ⟨List.mem_cons_self _ _, hxu, hsp⟩
        | false =>
          rcases ih h with ⟨h1, h2, h3⟩
          exact ⟨List.mem_cons_of_mem _ h1, h2, h3⟩

theorem findPromotable_none {city : City} {cfg : Configuration} {r c k : Nat} :
    ∀ {l used : List (Nat × Nat)},
      findPromotable city cfg r c k l used = .ok none →
      ∀ pq ∈ l, pq ∉ used → ¬ safelyPromotable city cfg r c pq.1 pq.2 k = .ok true := by
  intro l
  induction l with
  | nil => intro used h pq hpq; simp at hpq
  | cons x rest ih =>
    intro used h pq hpq hused
    rw [findPromotable] at h
    by_cases hxu : x ∈ used
    · rw [if_pos hxu] at h
      rcases List.mem_cons.mp hpq with rfl | hpq'
      · exact absurd hxu hused
      · exact ih h pq hpq' hused
    · rw [if_neg hxu] at h
      cases hsp : safelyPromotable city cfg r c x.1 x.2 k with
      | error e => rw [hsp] at h; exact absurd h (by simp)
      | ok b =>
        rw [hsp] at h
        cases b with
        | true =>
          have h' : (Except.ok (some x) : Except Err (Option (Nat × Nat))) =
              .ok none := h
          exact absurd h' (by simp)
        | false =>
          rcases List.mem_cons.mp hpq with rfl | hpq'
          · intro hcon; rw [hsp] at hcon; exact absurd hcon (by simp)
          · exact ih h pq hpq' hused

theorem findPromotable_finds {city : City} {cfg : Configuration} {r c k : Nat} :
    ∀ {l used : List (Nat × Nat)},
      (∀ pq ∈ l, ∃ b, safelyPromotable city cfg r c pq.1 pq.2 k = .ok b) →
      (∃ pq ∈ l, pq ∉ used ∧ safelyPromotable city cfg r c pq.1 pq.2 k = .ok true) →
      ∃ pq, findPromotable city cfg r c k l used = .ok (some pq) := by
  intro l
  induction l with
  | nil => intro used _ hex; rcases hex with ⟨pq, hpq, _⟩; simp at hpq
  | cons x rest ih =>
    intro used hok hex
    rw [findPromotable]
    by_cases hxu : x ∈ used
    · rw [if_pos hxu]
      apply ih (fun pq hpq => hok pq (List.mem_cons_of_mem _ hpq))
      rcases hex with ⟨pq, hpq, hpu, hpt⟩
      rcases List.mem_cons.mp hpq with rfl | hpq'
      · exact absurd hxu hpu
      · exact ⟨pq, hpq', hpu, hpt⟩
    · rw [if_neg hxu]
      rcases hok x (List.mem_cons_self _ _) with ⟨b, hb⟩
      rw [hb]
      cases b with
      | true => exact ⟨x, rfl⟩
      | false =>
        apply ih (fun pq hpq => hok pq (List.mem_cons_of_mem _ hpq))
        rcases hex with ⟨pq, hpq, hpu, hpt⟩
        rcases List.mem_cons.mp hpq with rfl | hpq'
        · rw [hb] at hpt; exact absurd hpt (by simp)
        · exact ⟨pq, hpq', hpu, hpt⟩

theorem select_some_spec {city : City} {cfg : Configuration} {r c : Nat} :
    ∀ {needed : List Nat} {avail : Nat} {used : List (Nat × Nat)} {ps : List Move},
      selectPromotions city cfg r c needed avail used = .ok (some ps) →
      (ps.map (fun p => p.2.2) =
        needed.filter (fun k => !(cfg.hasNeighbor r c k))) ∧
      ps.length ≤ avail ∧
      (∀ p ∈ ps, (p.1, p.2.1) ∈ city.neighbors r c ∧ (p.1, p.2.1) ∉ used ∧
        safelyPromotable city cfg r c p.1 p.2.1 p.2.2 = .ok true) ∧
      List.Pairwise (fun a b : Move => (a.1, a.2.1) ≠ (b.1, b.2.1)) ps := by
  intro needed
  induction needed with
  | nil =>
    intro avail used ps h
    rw [selectPromotions] at h
    injection h with h
    injection h with h
    subst h
    exact ⟨by simp, by simp, by simp, by simp⟩
  | cons k rest ih =>
    intro avail used ps h
    rw [selectPromotions] at h
    by_cases hk : cfg.hasNeighbor r c k = true
    · rw [if_pos hk] at h
      rcases ih h with ⟨h1, h2, h3, h4⟩
      exact ⟨by rw [List.filter_cons, if_neg (by simp [hk]), h1], h2, h3, h4⟩
    · rw [if_neg hk] at h
      by_cases havail : avail = 0
      · rw [if_pos havail] at h
        exact absurd h (by simp)
      · rw [if_neg havail] at h
        cases hfind : findPromotable city cfg r c k (city.neighbors r c) used with
        | error e => rw [hfind] at h; exact absurd h (by simp)
        | ok opq =>
          simp only [hfind] at h
          cases opq with
          | none => exact absurd h (by simp)
          | some pq =>
            cases hsel : selectPromotions city cfg r c rest (avail - 1) (used ++ [pq]) with
            | error e => simp only [hsel] at h; exact absurd h (by simp)
            | ok ops =>
              simp only [hsel] at h
              cases ops with
              | none => exact absurd h (by simp)
              | some ps' =>
                have hps : ps = (pq.1, pq.2, k) :: ps' := by
                  have h' : (Except.ok (some ((pq.1, pq.2, k) :: ps')) :
                      Except Err (Option (List Move))) = .ok (some ps) := h
                  injection h' with h'
                  injection h' with h'
                  exact h'.symm
                subst hps
                rcases findPromotable_some hfind with ⟨hmem, hused, htrue⟩
                rcases ih hsel with ⟨h1, h2, h3, h4⟩
                refine ⟨?_, ?_, ?_, ?_⟩
                · rw [List.filter_cons, if_pos (by simp [hk])]
                  simp only [List.map_cons, h1]
                · simp only [List.length_cons]
                  omega
                · intro p hp
                  rcases List.mem_cons.mp hp with rfl | hp'
                  · exact ⟨hmem, hused, htrue⟩
                  · rcases h3 p hp' with ⟨g1, g2, g3⟩
                    refine ⟨g1, fun hcon => g2 (by simp [hcon]), g3⟩
                · rw [List.pairwise_cons]
                  refine ⟨?_, h4⟩
                  intro p hp
                  rcases h3 p hp with ⟨g1, g2, g3⟩
                  intro hcon
                  apply g2
                  rw [← hcon]
                  simp

theorem placeTower_verify_ok {cfg : Configuration} {r c color : Nat}
    (h1 : r < cfg.city.n) (h2 : c < cfg.city.m) (h3 : color < cfg.city.nbColors)
    (hv : ∀ k < color, cfg.hasNeighbor r c k = true) :
    cfg.placeTower r c color true = .ok (cfg.setCell r c color) := by
  rw [placeTower_ok_of_bounds h1 h2 h3, validPlacement_iff.mpr hv]
  simp

theorem hasNeighbor_false_of_not {cfg : Configuration} {r c k : Nat}
    (h : ¬ cfg.hasNeighbor r c k = true) : cfg.hasNeighbor r c k = false := by
  cases hcase : cfg.hasNeighbor r c k
  · rfl
  · exact absurd hcase h

theorem replayAll_append {l1 l2 : List Move} {cfg c1 : Configuration}
    (h : replayAll cfg l1 = .ok c1) :
    replayAll cfg (l1 ++ l2) = replayAll c1 l2 := by
  induction l1 generalizing cfg with
  | nil =>
    rw [replayAll] at h
    injection h with h
    rw [h]
    rfl
  | cons mv rest ih =>
    rw [replayAll] at h
    rw [List.cons_append, replayAll]
    split at h
    · exact absurd h (by simp)
    · exact ih h

end PromotableLemmas

section MasterLemmas

theorem needList_one : needList 1 = [] := by decide
theorem needList_two : needList 2 = [1] := by decide
theorem needList_three : needList 3 = [2, 1] := by decide

/-- Characterization of `__apply_safe_reduction` on a cell at color 1:
it succeeds iff the cell has a level-0 neighbor, and on success the cell is
zeroed, the move list is `[(r, c, 1)]`, and replaying it restores the
configuration with a valid placement. -/
theorem reduce1_char {city : City} {cfg : Configuration} {r c : Nat} {fuel : Nat}
    {eof : Bool}
    (hcity : cfg.city = city) (hshape : ShapeWF city cfg)
    (hr : r < city.n) (hc : c < city.m)
    (hcol : cfg.getCell r c = 1) (hnb : 1 < city.nbColors) (hfuel : 1 ≤ fuel) :
    (cfg.hasNeighbor r c 0 = true →
      applySafeReduction city fuel cfg r c eof = .ok ([(r, c, 1)], cfg.setCell r c 0) ∧
      replayAll (cfg.setCell r c 0) [(r, c, 1)] = .ok cfg) ∧
    (¬ cfg.hasNeighbor r c 0 = true →
      applySafeReduction city fuel cfg r c eof =
        if eof then .error (.safeReduction r c) else .ok ([], cfg)) := by
  cases fuel with
  | zero => omega
  | succ fuel =>
    constructor
    · intro h0
      constructor
      · rw [applySafeReduction, if_neg (by simp [hcol]), if_neg (by simp [h0]), hcol,
          needList_one]
        rw [show selectPromotions city cfg r c []
          (countZeroNeighbors city cfg r c - 1) [] = .ok (some []) from rfl]
        rfl
      · rw [replayAll]
        have hin : InShape cfg r c := hshape.inShape hr hc
        have hplace : (cfg.setCell r c 0).placeTower r c 1 true =
            .ok ((cfg.setCell r c 0).setCell r c 1) := by
          apply placeTower_verify_ok
          · rw [Configuration.city_setCell, hcity]; exact hr
          · rw [Configuration.city_setCell, hcity]; exact hc
          · rw [Configuration.city_setCell, hcity]; exact hnb
          · intro k hk
            have hk0 : k = 0 := by omega
            subst hk0
            rcases hasNeighbor_iff.mp h0 with ⟨w, hw, hwv⟩
            apply hasNeighbor_iff.mpr
            refine ⟨w, by rw [Configuration.city_setCell]; exact hw, ?_⟩
            have hne : (r, c) ≠ (w.1, w.2) := by
              intro he
              have hmem : (r, c) ∈ cfg.city.neighbors r c := by
                rw [he]
                exact hw
              exact self_not_mem_neighbors hmem
            rw [getCell_setCell_ne hne]
            exact hwv
        rw [hplace, setCell_setCell_same]
        have hback : cfg.setCell r c 1 = cfg := by
          conv_lhs => rw [← hcol]
          exact setCell_getCell_self cfg r c
        rw [hback]
        rfl
    · intro h0
      rw [applySafeReduction, if_neg (by simp [hcol]),
        if_pos (by simp [hasNeighbor_false_of_not h0])]

theorem ne_of_mem_neighbors {city : City} {r c : Nat} {w : Nat × Nat}
    (hw : w ∈ city.neighbors r c) : (r, c) ≠ (w.1, w.2) := by
  intro he
  have hmem : (r, c) ∈ city.neighbors r c := by rw [he]; exact hw
  exact self_not_mem_neighbors hmem

theorem hasNeighbor_setCell_rc {cfg : Configuration} {r c k v : Nat}
    (hex : ∃ w ∈ cfg.city.neighbors r c, cfg.getCell w.1 w.2 = k) :
    (cfg.setCell r c v).hasNeighbor r c k = true := by
  rcases hex with ⟨w, hw, hwv⟩
  apply hasNeighbor_iff.mpr
  refine ⟨w, by rw [Configuration.city_setCell]; exact hw, ?_⟩
  rw [getCell_setCell_ne (ne_of_mem_neighbors hw)]
  exact hwv

theorem setCell_zero_collapse {cfg : Configuration} {p q : Nat}
    (h : cfg.getCell p q = 0) : cfg.setCell p q 0 = cfg := by
  conv_lhs => rw [← h]
  exact setCell_getCell_self cfg p q

theorem setCell_value_collapse {cfg : Configuration} {p q v : Nat}
    (h : cfg.getCell p q = v) : cfg.setCell p q v = cfg := by
  conv_lhs => rw [← h]
  exact setCell_getCell_self cfg p q

/-- Characterization of `__apply_safe_reduction` on a cell at color 2. -/
theorem reduce2_char {city : City} {cfg : Configuration} {r c : Nat} {fuel : Nat}
    {eof : Bool}
    (hcity : cfg.city = city) (hshape : ShapeWF city cfg)
    (hr : r < city.n) (hc : c < city.m) (hcol : cfg.getCell r c = 2)
    (hnb : 2 < city.nbColors) (hfuel : 2 ≤ fuel) :
    ((cfg.hasNeighbor r c 0 = true ∧
      (cfg.hasNeighbor r c 1 = true ∨ 2 ≤ countZeroNeighbors city cfg r c)) →
      ∃ mv, mv ≠ [] ∧
        applySafeReduction city fuel cfg r c eof = .ok (mv, cfg.setCell r c 0) ∧
        replayAll (cfg.setCell r c 0) mv = .ok cfg) ∧
    (¬(cfg.hasNeighbor r c 0 = true ∧
      (cfg.hasNeighbor r c 1 = true ∨ 2 ≤ countZeroNeighbors city cfg r c)) →
      applySafeReduction city fuel cfg r c eof =
        if eof then .error (.safeReduction r c) else .ok ([], cfg)) := by
  obtain ⟨fuel, rfl⟩ : ∃ f, fuel = f + 1 := ⟨fuel - 1, by omega⟩
  have hfuel1 : 1 ≤ fuel := by omega
  have hin : InShape cfg r c := hshape.inShape hr hc
  constructor
  · rintro ⟨h0, hor⟩
    by_cases h1 : cfg.hasNeighbor r c 1 = true
    · -- a level-1 neighbor is already present: no promotion needed
      refine ⟨[(r, c, 2)], by simp, ?_, ?_⟩
      · rw [applySafeReduction, if_neg (by simp [hcol]), if_neg (by simp [h0]), hcol,
          needList_two, selectPromotions, if_pos h1]
        rfl
      · have hv : ∀ k < cfg.getCell r c, (cfg.setCell r c 0).hasNeighbor r c k = true := by
          intro k hk
          rw [hcol] at hk
          interval_cases k
          · exact hasNeighbor_setCell_rc (hasNeighbor_iff.mp h0)
          · exact hasNeighbor_setCell_rc (hasNeighbor_iff.mp h1)
        rw [replayAll]
        dsimp only
        rw [placeTower_verify_ok (by rw [Configuration.city_setCell, hcity]; exact hr)
          (by rw [Configuration.city_setCell, hcity]; exact hc)
          (by rw [Configuration.city_setCell, hcity]; exact hnb)
          (by rw [← hcol]; exact hv)]
        rw [setCell_setCell_same, setCell_value_collapse hcol]
        rfl
    · -- a level-0 neighbor must be promoted to level 1
      have hcz : 2 ≤ countZeroNeighbors city cfg r c := by
        rcases hor with h | h
        · exact absurd h h1
        · exact h
      have hnoerr : ∀ pq ∈ city.neighbors r c,
          ∃ b, safelyPromotable city cfg r c pq.1 pq.2 1 = .ok b := by
        intro pq hpq
        exact ⟨_, sp_eq_one hpq⟩
      have hex : ∃ pq ∈ city.neighbors r c, pq ∉ ([] : List (Nat × Nat)) ∧
          safelyPromotable city cfg r c pq.1 pq.2 1 = .ok true := by
        rcases hasNeighbor_iff.mp h0 with ⟨w, hw, hwv⟩
        rw [hcity] at hw
        refine ⟨w, hw, by simp, ?_⟩
        rw [sp_eq_one hw, hwv]
        rfl
      obtain ⟨y, hy⟩ := findPromotable_finds hnoerr hex
      rcases findPromotable_some hy with ⟨hymem, -, hytrue⟩
      have hy0 : cfg.getCell y.1 y.2 = 0 := sp_true_cell_zero hytrue
      have hyb := mem_neighbors_bounds hr hc hymem
      have hyne : (r, c) ≠ (y.1, y.2) := ne_of_mem_neighbors hymem
      have hinY : InShape cfg y.1 y.2 := hshape.inShape hyb.1 hyb.2
      -- the configuration after promotion and zeroing of (r, c)
      set cfg2 : Configuration := (cfg.setCell y.1 y.2 1).setCell r c 0 with hcfg2
      have hcity2 : cfg2.city = city := by rw [hcfg2]; exact hcity
      have hshape2 : ShapeWF city cfg2 := (hshape.setCell _ _ _).setCell _ _ _
      have hcell2y : cfg2.getCell y.1 y.2 = 1 := by
        rw [hcfg2, getCell_setCell_ne hyne]
        exact getCell_setCell_self hinY
      have hcell2rc : cfg2.getCell r c = 0 := by
        rw [hcfg2]
        exact getCell_setCell_self (hin.setCellIn)
      have hrc_mem_y : (r, c) ∈ city.neighbors y.1 y.2 := by
        apply mem_neighbors_symm hr hc
        exact hymem
      have h2y0 : cfg2.hasNeighbor y.1 y.2 0 = true := by
        apply hasNeighbor_iff.mpr
        refine ⟨(r, c), ?_, hcell2rc⟩
        rw [hcity2]
        exact hrc_mem_y
      have hred1 := @reduce1_char city cfg2 y.1 y.2 fuel true hcity2 hshape2 hyb.1 hyb.2
        hcell2y (by omega) hfuel1
      rcases hred1.1 h2y0 with ⟨hred1eq, hred1rep⟩
      -- the final configuration equals zeroing (r, c) in the original
      have hfinal : cfg2.setCell y.1 y.2 0 = cfg.setCell r c 0 := by
        rw [hcfg2, setCell_comm hyne, setCell_setCell_same, setCell_zero_collapse hy0]
      refine ⟨[(y.1, y.2, 1), (r, c, 2), (y.1, y.2, 0)], by simp, ?_, ?_⟩
      · rw [applySafeReduction, if_neg (by simp [hcol]), if_neg (by simp [h0]), hcol,
          needList_two, selectPromotions, if_neg h1, if_neg (by omega), hy]
        show ([(y.1, y.2, 1)] : List Move).foldlM
          (undoStepF (fun c2 r3 c3 => applySafeReduction city fuel c2 r3 c3 true))
          ((r, c, 2) :: [(y.1, y.2, 0)], cfg2) = _
        rw [List.foldlM_cons]
        rw [show undoStepF (fun c2 r3 c3 => applySafeReduction city fuel c2 r3 c3 true)
            ((r, c, 2) :: [(y.1, y.2, 0)], cfg2) (y.1, y.2, 1) =
            .ok ([(y.1, y.2, 1), (r, c, 2), (y.1, y.2, 0)], cfg2.setCell y.1 y.2 0) by
          simp [undoStepF, hred1eq]]
        rw [hfinal]
        rfl
      · rw [← hfinal]
        show replayAll (cfg2.setCell y.1 y.2 0)
          ([(y.1, y.2, 1)] ++ [(r, c, 2), (y.1, y.2, 0)]) = .ok cfg
        rw [replayAll_append hred1rep]
        -- replay (r, c, 2) from cfg2
        rcases countP_ge_two_exists (neighbors_nodup city r c) hcz (y.1, y.2)
          with ⟨z, hzmem, hzne, hzp⟩
        have hz0 : cfg.getCell z.1 z.2 = 0 := by simpa using hzp
        have hvalid2 : ∀ k < 2, cfg2.hasNeighbor r c k = true := by
          intro k hk
          interval_cases k
          · apply hasNeighbor_iff.mpr
            refine ⟨z, by rw [hcity2]; exact hzmem, ?_⟩
            have hyz : (y.1, y.2) ≠ (z.1, z.2) := by
              intro he
              apply hzne
              have hze : z = (z.1, z.2) := rfl
              rw [hze, ← he]
            rw [hcfg2, getCell_setCell_ne (ne_of_mem_neighbors hzmem),
              getCell_setCell_ne hyz]
            exact hz0
          · apply hasNeighbor_iff.mpr
            refine ⟨y, by rw [hcity2]; exact hymem, hcell2y⟩
        rw [replayAll]
        dsimp only
        rw [placeTower_verify_ok (by rw [hcity2]; exact hr) (by rw [hcity2]; exact hc)
          (by rw [hcity2]; exact hnb) hvalid2]
        have hstep2 : cfg2.setCell r c 2 = cfg.setCell y.1 y.2 1 := by
          rw [hcfg2, setCell_setCell_same]
          apply setCell_value_collapse
          rw [getCell_setCell_ne (Ne.symm hyne)]
          exact hcol
        dsimp only
        rw [hstep2, replayAll]
        dsimp only
        rw [placeTower_zero_ok (by rw [Configuration.city_setCell, hcity]; exact hyb.1)
          (by rw [Configuration.city_setCell, hcity]; exact hyb.2)
          (by rw [Configuration.city_setCell, hcity]; omega)]
        rw [setCell_setCell_same, setCell_zero_collapse hy0]
        rfl
  · intro hneg
    by_cases h0 : cfg.hasNeighbor r c 0 = true
    · have h1 : ¬ cfg.hasNeighbor r c 1 = true := by
        intro h1
        exact hneg ⟨h0, Or.inl h1⟩
      have hcz : countZeroNeighbors city cfg r c < 2 := by
        by_contra hcon
        exact hneg ⟨h0, Or.inr (by omega)⟩
      rw [applySafeReduction, if_neg (by simp [hcol]), if_neg (by simp [h0]), hcol,
        needList_two, selectPromotions, if_neg h1, if_pos (by omega)]
    · rw [applySafeReduction, if_neg (by simp [hcol]),
        if_pos (by simp [hasNeighbor_false_of_not h0])]

theorem findPromotable_no_error {city : City} {cfg : Configuration} {r c k : Nat} :
    ∀ {l : List (Nat × Nat)} (used : List (Nat × Nat)),
      (∀ pq ∈ l, ∃ b, safelyPromotable city cfg r c pq.1 pq.2 k = .ok b) →
      ∃ o, findPromotable city cfg r c k l used = .ok o := by
  intro l
  induction l with
  | nil => intro used _; exact ⟨none, rfl⟩
  | cons x rest ih =>
    intro used hok
    rw [findPromotable]
    by_cases hxu : x ∈ used
    · rw [if_pos hxu]
      exact ih used (fun pq hpq => hok pq (List.mem_cons_of_mem _ hpq))
    · rw [if_neg hxu]
      rcases hok x (List.mem_cons_self _ _) with ⟨b, hb⟩
      rw [hb]
      cases b with
      | true => exact ⟨some x, rfl⟩
      | false => exact ih used (fun pq hpq => hok pq (List.mem_cons_of_mem _ hpq))

theorem findPromotable_none_of {city : City} {cfg : Configuration} {r c k : Nat} :
    ∀ {l used : List (Nat × Nat)},
      (∀ pq ∈ l, ∃ b, safelyPromotable city cfg r c pq.1 pq.2 k = .ok b) →
      (∀ pq ∈ l, ¬ safelyPromotable city cfg r c pq.1 pq.2 k = .ok true) →
      findPromotable city cfg r c k l used = .ok none := by
  intro l used hok hnt
  rcases findPromotable_no_error used hok with ⟨o, ho⟩
  cases o with
  | none => exact ho
  | some pq =>
    rcases findPromotable_some ho with ⟨h1, _, h3⟩
    exact absurd h3 (hnt pq h1)

theorem pair_eta_ne {w z : Nat × Nat} (h : w ≠ z) : (w.1, w.2) ≠ (z.1, z.2) := by
  intro he
  apply h
  rw [Prod.mk.injEq] at he
  exact Prod.ext he.1 he.2

theorem ne_pair_of_cell_ne {cfg : Configuration} {a b : Nat} {w : Nat × Nat} {u v : Nat}
    (ha : cfg.getCell a b = u) (hw : cfg.getCell w.1 w.2 = v) (huv : u ≠ v) :
    (a, b) ≠ (w.1, w.2) := by
  intro he
  rw [Prod.mk.injEq] at he
  rw [he.1, he.2] at ha
  exact huv (ha.symm.trans hw)

/-- Characterization of `__apply_safe_reduction` on a cell at color 3. -/
theorem reduce3_char {city : City} {cfg : Configuration} {r c : Nat} {fuel : Nat}
    {eof : Bool}
    (hcity : cfg.city = city) (hshape : ShapeWF city cfg)
    (hr : r < city.n) (hc : c < city.m) (hcol : cfg.getCell r c = 3)
    (hnb : 3 < city.nbColors) (hfuel : 3 ≤ fuel) :
    ((cfg.hasNeighbor r c 0 = true ∧
      ((cfg.hasNeighbor r c 2 = true ∧
        (cfg.hasNeighbor r c 1 = true ∨ 2 ≤ countZeroNeighbors city cfg r c)) ∨
       (¬ cfg.hasNeighbor r c 2 = true ∧ 2 ≤ countZeroNeighbors city cfg r c ∧
        (∃ p q, (p, q) ∈ city.neighbors r c ∧ Promotable2P city cfg r c p q) ∧
        (cfg.hasNeighbor r c 1 = true ∨ 3 ≤ countZeroNeighbors city cfg r c)))) →
      ∃ mv, mv ≠ [] ∧
        applySafeReduction city fuel cfg r c eof = .ok (mv, cfg.setCell r c 0) ∧
        replayAll (cfg.setCell r c 0) mv = .ok cfg) ∧
    (¬(cfg.hasNeighbor r c 0 = true ∧
      ((cfg.hasNeighbor r c 2 = true ∧
        (cfg.hasNeighbor r c 1 = true ∨ 2 ≤ countZeroNeighbors city cfg r c)) ∨
       (¬ cfg.hasNeighbor r c 2 = true ∧ 2 ≤ countZeroNeighbors city cfg r c ∧
        (∃ p q, (p, q) ∈ city.neighbors r c ∧ Promotable2P city cfg r c p q) ∧
        (cfg.hasNeighbor r c 1 = true ∨ 3 ≤ countZeroNeighbors city cfg r c)))) →
      applySafeReduction city fuel cfg r c eof =
        if eof then .error (.safeReduction r c) else .ok ([], cfg)) := by
  obtain ⟨fuel, rfl⟩ : ∃ f, fuel = f + 1 := ⟨fuel - 1, by omega⟩
  have hfuel2 : 2 ≤ fuel := by omega
  have hin : InShape cfg r c := hshape.inShape hr hc
  constructor
  · rintro ⟨h0, hcase⟩
    rcases hcase with ⟨h2, hor⟩ | ⟨h2, hcz, hexP, hor13⟩
    · -- a level-2 neighbor is already present
      by_cases h1 : cfg.hasNeighbor r c 1 = true
      · -- all needed colors present: no promotion
        refine ⟨[(r, c, 3)], by simp, ?_, ?_⟩
        · rw [applySafeReduction, if_neg (by simp [hcol]), if_neg (by simp [h0]), hcol,
            needList_three, selectPromotions, if_pos h2, selectPromotions, if_pos h1]
          rfl
        · have hv : ∀ k < 3, (cfg.setCell r c 0).hasNeighbor r c k = true := by
            intro k hk
            interval_cases k
            · exact hasNeighbor_setCell_rc (hasNeighbor_iff.mp h0)
            · exact hasNeighbor_setCell_rc (hasNeighbor_iff.mp h1)
            · exact hasNeighbor_setCell_rc (hasNeighbor_iff.mp h2)
          rw [replayAll]
          dsimp only
          rw [placeTower_verify_ok (by rw [Configuration.city_setCell, hcity]; exact hr)
            (by rw [Configuration.city_setCell, hcity]; exact hc)
            (by rw [Configuration.city_setCell, hcity]; exact hnb) hv]
          rw [setCell_setCell_same, setCell_value_collapse hcol]
          rfl
      · -- a zero neighbor must be promoted to level 1
        have hcz : 2 ≤ countZeroNeighbors city cfg r c := by
          rcases hor with h | h
          · exact absurd h h1
          · exact h
        have hnoerr : ∀ pq ∈ city.neighbors r c,
            ∃ b, safelyPromotable city cfg r c pq.1 pq.2 1 = .ok b := by
          intro pq hpq
          exact ⟨_, sp_eq_one hpq⟩
        have hex : ∃ pq ∈ city.neighbors r c, pq ∉ ([] : List (Nat × Nat)) ∧
            safelyPromotable city cfg r c pq.1 pq.2 1 = .ok true := by
          rcases hasNeighbor_iff.mp h0 with ⟨w, hw, hwv⟩
          rw [hcity] at hw
          refine ⟨w, hw, by simp, ?_⟩
          rw [sp_eq_one hw, hwv]
          rfl
        obtain ⟨y, hy⟩ := findPromotable_finds hnoerr hex
        rcases findPromotable_some hy with ⟨hymem, -, hytrue⟩
        have hy0 : cfg.getCell y.1 y.2 = 0 := sp_true_cell_zero hytrue
        have hyb := mem_neighbors_bounds hr hc hymem
        have hyne : (r, c) ≠ (y.1, y.2) := ne_of_mem_neighbors hymem
        have hinY : InShape cfg y.1 y.2 := hshape.inShape hyb.1 hyb.2
        set cfg2 : Configuration := (cfg.setCell y.1 y.2 1).setCell r c 0 with hcfg2
        have hcity2 : cfg2.city = city := by rw [hcfg2]; exact hcity
        have hshape2 : ShapeWF city cfg2 := (hshape.setCell _ _ _).setCell _ _ _
        have hcell2y : cfg2.getCell y.1 y.2 = 1 := by
          rw [hcfg2, getCell_setCell_ne hyne]
          exact getCell_setCell_self hinY
        have hcell2rc : cfg2.getCell r c = 0 := by
          rw [hcfg2]
          exact getCell_setCell_self (hin.setCellIn)
        have hrc_mem_y : (r, c) ∈ city.neighbors y.1 y.2 := mem_neighbors_symm hr hc hymem
        have h2y0 : cfg2.hasNeighbor y.1 y.2 0 = true :=
          hasNeighbor_iff.mpr ⟨(r, c), by rw [hcity2]; exact hrc_mem_y, hcell2rc⟩
        have hred1 := @reduce1_char city cfg2 y.1 y.2 fuel true hcity2 hshape2 hyb.1 hyb.2
          hcell2y (by omega) (by omega)
        rcases hred1.1 h2y0 with ⟨hred1eq, hred1rep⟩
        have hfinal : cfg2.setCell y.1 y.2 0 = cfg.setCell r c 0 := by
          rw [hcfg2, setCell_comm hyne, setCell_setCell_same, setCell_zero_collapse hy0]
        have hsel : selectPromotions city cfg r c [2, 1]
            (countZeroNeighbors city cfg r c - 1) [] = .ok (some [(y.1, y.2, 1)]) := by
          rw [selectPromotions, if_pos h2, selectPromotions, if_neg h1,
            if_neg (by omega), hy]
          rfl
        refine ⟨[(y.1, y.2, 1), (r, c, 3), (y.1, y.2, 0)], by simp, ?_, ?_⟩
        · rw [applySafeReduction, if_neg (by simp [hcol]), if_neg (by simp [h0]), hcol,
            needList_three, hsel]
          show ([(y.1, y.2, 1)] : List Move).foldlM
            (undoStepF (fun c2 r3 c3 => applySafeReduction city fuel c2 r3 c3 true))
            ((r, c, 3) :: [(y.1, y.2, 0)], cfg2) = _
          rw [List.foldlM_cons]
          rw [show undoStepF (fun c2 r3 c3 => applySafeReduction city fuel c2 r3 c3 true)
              ((r, c, 3) :: [(y.1, y.2, 0)], cfg2) (y.1, y.2, 1) =
              .ok ([(y.1, y.2, 1), (r, c, 3), (y.1, y.2, 0)], cfg2.setCell y.1 y.2 0) by
            simp [undoStepF, hred1eq]]
          rw [hfinal]
          rfl
        · rw [← hfinal]
          show replayAll (cfg2.setCell y.1 y.2 0)
            ([(y.1, y.2, 1)] ++ [(r, c, 3), (y.1, y.2, 0)]) = .ok cfg
          rw [replayAll_append hred1rep]
          rcases countP_ge_two_exists (neighbors_nodup city r c) hcz y
            with ⟨z, hzmem, hzne, hzp⟩
          have hz0 : cfg.getCell z.1 z.2 = 0 := by simpa using hzp
          rcases hasNeighbor_iff.mp h2 with ⟨w2, hw2mem, hw2v⟩
          rw [hcity] at hw2mem
          have hyw2 : (y.1, y.2) ≠ (w2.1, w2.2) := ne_pair_of_cell_ne hy0 hw2v (by decide)
          have hvalid2 : ∀ k < 3, cfg2.hasNeighbor r c k = true := by
            intro k hk
            interval_cases k
            · refine hasNeighbor_iff.mpr ⟨z, by rw [hcity2]; exact hzmem, ?_⟩
              rw [hcfg2, getCell_setCell_ne (ne_of_mem_neighbors hzmem),
                getCell_setCell_ne (pair_eta_ne (Ne.symm hzne))]
              exact hz0
            · exact hasNeighbor_iff.mpr ⟨y, by rw [hcity2]; exact hymem, hcell2y⟩
            · refine hasNeighbor_iff.mpr ⟨w2, by rw [hcity2]; exact hw2mem, ?_⟩
              rw [hcfg2, getCell_setCell_ne (ne_of_mem_neighbors hw2mem),
                getCell_setCell_ne hyw2]
              exact hw2v
          rw [replayAll]
          dsimp only
          rw [placeTower_verify_ok (by rw [hcity2]; exact hr) (by rw [hcity2]; exact hc)
            (by rw [hcity2]; exact hnb) hvalid2]
          have hstep2 : cfg2.setCell r c 3 = cfg.setCell y.1 y.2 1 := by
            rw [hcfg2, setCell_setCell_same]
            apply setCell_value_collapse
            rw [getCell_setCell_ne (Ne.symm hyne)]
            exact hcol
          dsimp only
          rw [hstep2, replayAll]
          dsimp only
          rw [placeTower_zero_ok (by rw [Configuration.city_setCell, hcity]; exact hyb.1)
            (by rw [Configuration.city_setCell, hcity]; exact hyb.2)
            (by rw [Configuration.city_setCell, hcity]; omega)]
          rw [setCell_setCell_same, setCell_zero_collapse hy0]
          rfl
    · -- no level-2 neighbor: a zero neighbor must be 2-promoted
      rcases hexP with ⟨p', q', hpqmem, hpqP⟩
      have hnoerr2 : ∀ pq ∈ city.neighbors r c,
          ∃ bb, safelyPromotable city cfg r c pq.1 pq.2 2 = .ok bb :=
        fun pq hpq => ⟨_, sp_eq_two hpq⟩
      have hex2 : ∃ pq ∈ city.neighbors r c, pq ∉ ([] : List (Nat × Nat)) ∧
          safelyPromotable city cfg r c pq.1 pq.2 2 = .ok true :=
        ⟨(p', q'), hpqmem, by simp, (sp_two_true_iff hpqmem).mpr hpqP⟩
      obtain ⟨a, ha⟩ := findPromotable_finds hnoerr2 hex2
      rcases findPromotable_some ha with ⟨hamem, -, hatrue⟩
      obtain ⟨ha0, w, hwmem, hwne, hwle⟩ : Promotable2P city cfg r c a.1 a.2 :=
        (sp_two_true_iff hamem).mp hatrue
      have hab := mem_neighbors_bounds hr hc hamem
      have hane : (r, c) ≠ (a.1, a.2) := ne_of_mem_neighbors hamem
      have hinA : InShape cfg a.1 a.2 := hshape.inShape hab.1 hab.2
      have hrc_mem_a : (r, c) ∈ city.neighbors a.1 a.2 := mem_neighbors_symm hr hc hamem
      have haw : (a.1, a.2) ≠ (w.1, w.2) := ne_of_mem_neighbors hwmem
      have hwrc : (r, c) ≠ (w.1, w.2) := Ne.symm hwne
      by_cases h1 : cfg.hasNeighbor r c 1 = true
      · -- only the 2-promotion is needed
        set cfg2 : Configuration := (cfg.setCell a.1 a.2 2).setCell r c 0 with hcfg2
        have hcity2 : cfg2.city = city := by rw [hcfg2]; exact hcity
        have hshape2 : ShapeWF city cfg2 := (hshape.setCell _ _ _).setCell _ _ _
        have hcell2a : cfg2.getCell a.1 a.2 = 2 := by
          rw [hcfg2, getCell_setCell_ne hane]
          exact getCell_setCell_self hinA
        have hcell2rc : cfg2.getCell r c = 0 := by
          rw [hcfg2]
          exact getCell_setCell_self (hin.setCellIn)
        have h2a0 : cfg2.hasNeighbor a.1 a.2 0 = true :=
          hasNeighbor_iff.mpr ⟨(r, c), by rw [hcity2]; exact hrc_mem_a, hcell2rc⟩
        have hcw2 : cfg2.getCell w.1 w.2 = cfg.getCell w.1 w.2 := by
          rw [hcfg2, getCell_setCell_ne hwrc, getCell_setCell_ne haw]
        have hcond2 : cfg2.hasNeighbor a.1 a.2 1 = true ∨
            2 ≤ countZeroNeighbors city cfg2 a.1 a.2 := by
          by_cases hw1 : cfg.getCell w.1 w.2 = 1
          · exact Or.inl (hasNeighbor_iff.mpr ⟨w, by rw [hcity2]; exact hwmem,
              by rw [hcw2]; exact hw1⟩)
          · have hw0 : cfg.getCell w.1 w.2 = 0 := by omega
            refine Or.inr (countP_two_of_distinct (Ne.symm hwne)
              (neighbors_nodup city a.1 a.2) hrc_mem_a hwmem ?_ ?_)
            · simp [hcell2rc]
            · simp [hcw2, hw0]
        have hred2 := @reduce2_char city cfg2 a.1 a.2 fuel true hcity2 hshape2
          hab.1 hab.2 hcell2a (by omega) hfuel2
        rcases hred2.1 ⟨h2a0, hcond2⟩ with ⟨mva, hmvane, hred2eq, hred2rep⟩
        have hfinal : cfg2.setCell a.1 a.2 0 = cfg.setCell r c 0 := by
          rw [hcfg2, setCell_comm hane, setCell_setCell_same, setCell_zero_collapse ha0]
        have hsel : selectPromotions city cfg r c [2, 1]
            (countZeroNeighbors city cfg r c - 1) [] = .ok (some [(a.1, a.2, 2)]) := by
          rw [selectPromotions, if_neg h2, if_neg (by omega), ha]
          dsimp only
          rw [selectPromotions, if_pos h1]
          rfl
        refine ⟨mva ++ [(r, c, 3), (a.1, a.2, 0)], by simp, ?_, ?_⟩
        · rw [applySafeReduction, if_neg (by simp [hcol]), if_neg (by simp [h0]), hcol,
            needList_three, hsel]
          show ([(a.1, a.2, 2)] : List Move).foldlM
            (undoStepF (fun c2 r3 c3 => applySafeReduction city fuel c2 r3 c3 true))
            ((r, c, 3) :: [(a.1, a.2, 0)], cfg2) = _
          rw [List.foldlM_cons]
          rw [show undoStepF (fun c2 r3 c3 => applySafeReduction city fuel c2 r3 c3 true)
              ((r, c, 3) :: [(a.1, a.2, 0)], cfg2) (a.1, a.2, 2) =
              .ok (mva ++ [(r, c, 3), (a.1, a.2, 0)], cfg2.setCell a.1 a.2 0) by
            simp [undoStepF, hred2eq]]
          rw [hfinal]
          rfl
        · rw [← hfinal]
          rw [replayAll_append hred2rep]
          rcases countP_ge_two_exists (neighbors_nodup city r c) hcz a
            with ⟨z, hzmem, hzne, hzp⟩
          have hz0 : cfg.getCell z.1 z.2 = 0 := by simpa using hzp
          rcases hasNeighbor_iff.mp h1 with ⟨w1, hw1mem, hw1v⟩
          rw [hcity] at hw1mem
          have haw1 : (a.1, a.2) ≠ (w1.1, w1.2) := ne_pair_of_cell_ne ha0 hw1v (by decide)
          have hvalid : ∀ k < 3, cfg2.hasNeighbor r c k = true := by
            intro k hk
            interval_cases k
            · refine hasNeighbor_iff.mpr ⟨z, by rw [hcity2]; exact hzmem, ?_⟩
              rw [hcfg2, getCell_setCell_ne (ne_of_mem_neighbors hzmem),
                getCell_setCell_ne (pair_eta_ne (Ne.symm hzne))]
              exact hz0
            · refine hasNeighbor_iff.mpr ⟨w1, by rw [hcity2]; exact hw1mem, ?_⟩
              rw [hcfg2, getCell_setCell_ne (ne_of_mem_neighbors hw1mem),
                getCell_setCell_ne haw1]
              exact hw1v
            · exact hasNeighbor_iff.mpr ⟨a, by rw [hcity2]; exact hamem, hcell2a⟩
          rw [replayAll]
          dsimp only
          rw [placeTower_verify_ok (by rw [hcity2]; exact hr) (by rw [hcity2]; exact hc)
            (by rw [hcity2]; exact hnb) hvalid]
          have hstep : cfg2.setCell r c 3 = cfg.setCell a.1 a.2 2 := by
            rw [hcfg2, setCell_setCell_same]
            apply setCell_value_collapse
            rw [getCell_setCell_ne (Ne.symm hane)]
            exact hcol
          dsimp only
          rw [hstep, replayAll]
          dsimp only
          rw [placeTower_zero_ok (by rw [Configuration.city_setCell, hcity]; exact hab.1)
            (by rw [Configuration.city_setCell, hcity]; exact hab.2)
            (by rw [Configuration.city_setCell, hcity]; omega)]
          rw [setCell_setCell_same, setCell_zero_collapse ha0]
          rfl
      · -- the 2-promotion and a further 1-promotion are needed
        have hcz3 : 3 ≤ countZeroNeighbors city cfg r c := by
          rcases hor13 with h | h
          · exact absurd h h1
          · exact h
        have hnoerr1 : ∀ pq ∈ city.neighbors r c,
            ∃ bb, safelyPromotable city cfg r c pq.1 pq.2 1 = .ok bb :=
          fun pq hpq => ⟨_, sp_eq_one hpq⟩
        have hex1 : ∃ pq ∈ city.neighbors r c, pq ∉ [a] ∧
            safelyPromotable city cfg r c pq.1 pq.2 1 = .ok true := by
          rcases countP_ge_two_exists (neighbors_nodup city r c)
            (show 2 ≤ countZeroNeighbors city cfg r c by omega) a
            with ⟨z, hzmem, hzne, hzp⟩
          have hz0 : cfg.getCell z.1 z.2 = 0 := by simpa using hzp
          refine ⟨z, hzmem, by simp [hzne], ?_⟩
          rw [sp_eq_one hzmem, hz0]
          rfl
        obtain ⟨b, hb⟩ := findPromotable_finds hnoerr1 hex1
        rcases findPromotable_some hb with ⟨hbmem, hbused, hbtrue⟩
        have hb0 : cfg.getCell b.1 b.2 = 0 := sp_true_cell_zero hbtrue
        have hbne_a : b ≠ a := by simpa using hbused
        have hba : (b.1, b.2) ≠ (a.1, a.2) := pair_eta_ne hbne_a
        have hbb := mem_neighbors_bounds hr hc hbmem
        have hbrc : (r, c) ≠ (b.1, b.2) := ne_of_mem_neighbors hbmem
        have hinB : InShape cfg b.1 b.2 := hshape.inShape hbb.1 hbb.2
        have hrc_mem_b : (r, c) ∈ city.neighbors b.1 b.2 := mem_neighbors_symm hr hc hbmem
        set cfg2 : Configuration :=
          ((cfg.setCell a.1 a.2 2).setCell b.1 b.2 1).setCell r c 0 with hcfg2
        have hcity2 : cfg2.city = city := by rw [hcfg2]; exact hcity
        have hshape2 : ShapeWF city cfg2 :=
          ((hshape.setCell _ _ _).setCell _ _ _).setCell _ _ _
        have hcell2a : cfg2.getCell a.1 a.2 = 2 := by
          rw [hcfg2, getCell_setCell_ne hane, getCell_setCell_ne hba]
          exact getCell_setCell_self hinA
        have hcell2b : cfg2.getCell b.1 b.2 = 1 := by
          rw [hcfg2, getCell_setCell_ne hbrc]
          exact getCell_setCell_self (hinB.setCellIn)
        have hcell2rc : cfg2.getCell r c = 0 := by
          rw [hcfg2]
          exact getCell_setCell_self (hin.setCellIn.setCellIn)
        have h2a0 : cfg2.hasNeighbor a.1 a.2 0 = true :=
          hasNeighbor_iff.mpr ⟨(r, c), by rw [hcity2]; exact hrc_mem_a, hcell2rc⟩
        have hcond2 : cfg2.hasNeighbor a.1 a.2 1 = true ∨
            2 ≤ countZeroNeighbors city cfg2 a.1 a.2 := by
          by_cases hwb2 : (b.1, b.2) = (w.1, w.2)
          · rw [Prod.mk.injEq] at hwb2
            refine Or.inl (hasNeighbor_iff.mpr ⟨w, by rw [hcity2]; exact hwmem, ?_⟩)
            rw [← hwb2.1, ← hwb2.2]
            exact hcell2b
          · have hcw : cfg2.getCell w.1 w.2 = cfg.getCell w.1 w.2 := by
              rw [hcfg2, getCell_setCell_ne hwrc, getCell_setCell_ne hwb2,
                getCell_setCell_ne haw]
            by_cases hw1 : cfg.getCell w.1 w.2 = 1
            · exact Or.inl (hasNeighbor_iff.mpr ⟨w, by rw [hcity2]; exact hwmem,
                by rw [hcw]; exact hw1⟩)
            · have hw0 : cfg.getCell w.1 w.2 = 0 := by omega
              refine Or.inr (countP_two_of_distinct (Ne.symm hwne)
                (neighbors_nodup city a.1 a.2) hrc_mem_a hwmem ?_ ?_)
              · simp [hcell2rc]
              · simp [hcw, hw0]
        have hred2 := @reduce2_char city cfg2 a.1 a.2 fuel true hcity2 hshape2
          hab.1 hab.2 hcell2a (by omega) hfuel2
        rcases hred2.1 ⟨h2a0, hcond2⟩ with ⟨mva, hmvane, hred2eq, hred2rep⟩
        have hcell3b : (cfg2.setCell a.1 a.2 0).getCell b.1 b.2 = 1 := by
          rw [getCell_setCell_ne (Ne.symm hba)]
          exact hcell2b
        have hcell3rc : (cfg2.setCell a.1 a.2 0).getCell r c = 0 := by
          rw [getCell_setCell_ne (Ne.symm hane)]
          exact hcell2rc
        have hshape3 : ShapeWF city (cfg2.setCell a.1 a.2 0) := hshape2.setCell _ _ _
        have hred1 := @reduce1_char city (cfg2.setCell a.1 a.2 0) b.1 b.2 fuel true
          (by rw [Configuration.city_setCell, hcity2]) hshape3 hbb.1 hbb.2 hcell3b
          (by omega) (by omega)
        rcases hred1.1 (hasNeighbor_iff.mpr ⟨(r, c),
          by rw [Configuration.city_setCell, hcity2]; exact hrc_mem_b, hcell3rc⟩)
          with ⟨hred1eq, hred1rep⟩
        have hfinal : (cfg2.setCell a.1 a.2 0).setCell b.1 b.2 0 = cfg.setCell r c 0 := by
          rw [hcfg2, setCell_comm hane, setCell_comm hbrc, setCell_comm hba,
            setCell_setCell_same, setCell_setCell_same, setCell_zero_collapse ha0,
            setCell_zero_collapse hb0]
        have hsel : selectPromotions city cfg r c [2, 1]
            (countZeroNeighbors city cfg r c - 1) [] =
            .ok (some [(a.1, a.2, 2), (b.1, b.2, 1)]) := by
          rw [selectPromotions, if_neg h2, if_neg (by omega), ha]
          dsimp only
          simp only [List.nil_append]
          rw [selectPromotions, if_neg h1, if_neg (by omega), hb]
          rfl
        refine ⟨(b.1, b.2, 1) :: (mva ++ [(r, c, 3), (b.1, b.2, 0), (a.1, a.2, 0)]),
          by simp, ?_, ?_⟩
        · rw [applySafeReduction, if_neg (by simp [hcol]), if_neg (by simp [h0]), hcol,
            needList_three, hsel]
          show ([(a.1, a.2, 2), (b.1, b.2, 1)] : List Move).foldlM
            (undoStepF (fun c2 r3 c3 => applySafeReduction city fuel c2 r3 c3 true))
            ((r, c, 3) :: [(b.1, b.2, 0), (a.1, a.2, 0)], cfg2) = _
          rw [List.foldlM_cons]
          rw [show undoStepF (fun c2 r3 c3 => applySafeReduction city fuel c2 r3 c3 true)
              ((r, c, 3) :: [(b.1, b.2, 0), (a.1, a.2, 0)], cfg2) (a.1, a.2, 2) =
              .ok (mva ++ [(r, c, 3), (b.1, b.2, 0), (a.1, a.2, 0)],
                cfg2.setCell a.1 a.2 0) by
            simp [undoStepF, hred2eq]]
          show ([(b.1, b.2, 1)] : List Move).foldlM
            (undoStepF (fun c2 r3 c3 => applySafeReduction city fuel c2 r3 c3 true))
            (mva ++ [(r, c, 3), (b.1, b.2, 0), (a.1, a.2, 0)],
              cfg2.setCell a.1 a.2 0) = _
          rw [List.foldlM_cons]
          rw [show undoStepF (fun c2 r3 c3 => applySafeReduction city fuel c2 r3 c3 true)
              (mva ++ [(r, c, 3), (b.1, b.2, 0), (a.1, a.2, 0)], cfg2.setCell a.1 a.2 0)
              (b.1, b.2, 1) =
              .ok ((b.1, b.2, 1) :: (mva ++ [(r, c, 3), (b.1, b.2, 0), (a.1, a.2, 0)]),
                (cfg2.setCell a.1 a.2 0).setCell b.1 b.2 0) by
            simp [undoStepF, hred1eq]]
          rw [hfinal]
          rfl
        · rw [← hfinal]
          show replayAll ((cfg2.setCell a.1 a.2 0).setCell b.1 b.2 0)
            ([(b.1, b.2, 1)] ++ (mva ++ [(r, c, 3), (b.1, b.2, 0), (a.1, a.2, 0)])) =
            .ok cfg
          rw [replayAll_append hred1rep]
          rw [replayAll_append hred2rep]
          rcases countP_ge_three_exists (neighbors_nodup city r c) hcz3 a b
            with ⟨z, hzmem, hza, hzb, hzp⟩
          have hz0 : cfg.getCell z.1 z.2 = 0 := by simpa using hzp
          have hvalid : ∀ k < 3, cfg2.hasNeighbor r c k = true := by
            intro k hk
            interval_cases k
            · refine hasNeighbor_iff.mpr ⟨z, by rw [hcity2]; exact hzmem, ?_⟩
              rw [hcfg2, getCell_setCell_ne (ne_of_mem_neighbors hzmem),
                getCell_setCell_ne (pair_eta_ne (Ne.symm hzb)),
                getCell_setCell_ne (pair_eta_ne (Ne.symm hza))]
              exact hz0
            · exact hasNeighbor_iff.mpr ⟨b, by rw [hcity2]; exact hbmem, hcell2b⟩
            · exact hasNeighbor_iff.mpr ⟨a, by rw [hcity2]; exact hamem, hcell2a⟩
          rw [replayAll]
          dsimp only
          rw [placeTower_verify_ok (by rw [hcity2]; exact hr) (by rw [hcity2]; exact hc)
            (by rw [hcity2]; exact hnb) hvalid]
          have hstep : cfg2.setCell r c 3 = (cfg.setCell a.1 a.2 2).setCell b.1 b.2 1 := by
            rw [hcfg2, setCell_setCell_same]
            apply setCell_value_collapse
            rw [getCell_setCell_ne (Ne.symm hbrc), getCell_setCell_ne (Ne.symm hane)]
            exact hcol
          dsimp only
          rw [hstep, replayAll]
          dsimp only
          have hcb : ((cfg.setCell a.1 a.2 2).setCell b.1 b.2 1).city = city := by
            rw [Configuration.city_setCell, Configuration.city_setCell, hcity]
          rw [placeTower_zero_ok (by rw [hcb]; exact hbb.1) (by rw [hcb]; exact hbb.2)
            (by rw [hcb]; omega)]
          rw [setCell_setCell_same]
          have hcollapse_b : (cfg.setCell a.1 a.2 2).setCell b.1 b.2 0 =
              cfg.setCell a.1 a.2 2 := by
            apply setCell_zero_collapse
            rw [getCell_setCell_ne (Ne.symm hba)]
            exact hb0
          rw [hcollapse_b]
          dsimp only
          rw [replayAll]
          dsimp only
          rw [placeTower_zero_ok (by rw [Configuration.city_setCell, hcity]; exact hab.1)
            (by rw [Configuration.city_setCell, hcity]; exact hab.2)
            (by rw [Configuration.city_setCell, hcity]; omega)]
          rw [setCell_setCell_same, setCell_zero_collapse ha0]
          rfl
  · intro hneg
    by_cases h0 : cfg.hasNeighbor r c 0 = true
    · rw [applySafeReduction, if_neg (by simp [hcol]), if_neg (by simp [h0]), hcol,
        needList_three]
      by_cases h2 : cfg.hasNeighbor r c 2 = true
      · have h1 : ¬ cfg.hasNeighbor r c 1 = true := fun h1 =>
          hneg ⟨h0, Or.inl ⟨h2, Or.inl h1⟩⟩
        have hcz : countZeroNeighbors city cfg r c < 2 := by
          by_contra hcon
          exact hneg ⟨h0, Or.inl ⟨h2, Or.inr (by omega)⟩⟩
        rw [selectPromotions, if_pos h2, selectPromotions, if_neg h1, if_pos (by omega)]
      · rw [selectPromotions, if_neg h2]
        by_cases hcz : 2 ≤ countZeroNeighbors city cfg r c
        · rw [if_neg (by omega)]
          by_cases hexP : ∃ p q, (p, q) ∈ city.neighbors r c ∧ Promotable2P city cfg r c p q
          · have h13 : ¬ (cfg.hasNeighbor r c 1 = true ∨
                3 ≤ countZeroNeighbors city cfg r c) :=
              fun hh => hneg ⟨h0, Or.inr ⟨h2, hcz, hexP, hh⟩⟩
            push_neg at h13
            rcases hexP with ⟨p', q', hpqmem, hpqP⟩
            have hnoerr2 : ∀ pq ∈ city.neighbors r c,
                ∃ bb, safelyPromotable city cfg r c pq.1 pq.2 2 = .ok bb :=
              fun pq hpq => ⟨_, sp_eq_two hpq⟩
            obtain ⟨a, ha⟩ := findPromotable_finds hnoerr2
              ⟨(p', q'), hpqmem, (by simp : (p', q') ∉ ([] : List (Nat × Nat))),
                (sp_two_true_iff hpqmem).mpr hpqP⟩
            rw [ha]
            dsimp only
            rw [selectPromotions, if_neg h13.1, if_pos (by omega)]
          · push_neg at hexP
            have hnone : findPromotable city cfg r c 2 (city.neighbors r c) [] =
                .ok none := by
              apply findPromotable_none_of
              · exact fun pq hpq => ⟨_, sp_eq_two hpq⟩
              · intro pq hpq hcon
                exact hexP pq.1 pq.2 hpq ((sp_two_true_iff hpq).mp hcon)
            rw [hnone]
        · rw [if_pos (by omega)]
    · rw [applySafeReduction, if_neg (by simp [hcol]),
        if_pos (by simp [hasNeighbor_false_of_not h0])]

end MasterLemmas

section WFLemmas

theorem set_getD_self_lists {α : Type} {l : List (List α)} {i : Nat} {d : List α}
    (h : i < l.length) : l.set i (l.getD i d) = l := by
  have he : l.getD i d = l[i] := by
    simp [List.getD_eq_getElem?_getD, List.getElem?_eq_getElem h]
  rw [he]
  apply List.ext_getElem
  · simp
  · intro n h1 h2
    rw [List.getElem_set]
    split
    · rename_i hi
      subst hi
      rfl
    · rfl

theorem setCell_out_of_shape {cfg : Configuration} {r c v : Nat}
    (h : ¬ InShape cfg r c) : cfg.setCell r c v = cfg := by
  unfold InShape at h
  push_neg at h
  by_cases h1 : r < cfg.towers.length
  · have h2 : (cfg.towers.getD r []).length ≤ c := h h1
    refine Configuration.ext2 rfl ?_
    show cfg.towers.set r ((cfg.towers.getD r []).set c v) = cfg.towers
    rw [List.set_eq_of_length_le h2]
    exact set_getD_self_lists h1
  · refine Configuration.ext2 rfl ?_
    show cfg.towers.set r ((cfg.towers.getD r []).set c v) = cfg.towers
    exact List.set_eq_of_length_le (by omega)

theorem CellsWF.setCellLt {city : City} {cfg : Configuration} {r c v : Nat}
    (h : CellsWF city cfg) (hv : v < city.nbColors) :
    CellsWF city (cfg.setCell r c v) := by
  intro row col
  by_cases hne : (r, c) = (row, col)
  · rw [Prod.mk.injEq] at hne
    obtain ⟨rfl, rfl⟩ := hne
    by_cases hin : InShape cfg r c
    · rw [getCell_setCell_self hin]
      exact hv
    · rw [setCell_out_of_shape hin]
      exact h r c
  · rw [getCell_setCell_ne hne]
    exact h row col

theorem getCell_zeroConfiguration (city : City) (row col : Nat) :
    (zeroConfiguration city).getCell row col = 0 := by
  unfold zeroConfiguration Configuration.getCell
  dsimp only
  simp only [List.getD_eq_getElem?_getD, List.getElem?_replicate]
  by_cases hr : row < city.n <;> by_cases hc : col < city.m <;> simp [hr, hc]

theorem mem_needList {k color : Nat} : k ∈ needList color ↔ 1 ≤ k ∧ k < color := by
  unfold needList
  rw [List.mem_reverse, List.mem_range'_1]
  omega

theorem placeTower_ok_inv {cfg : Configuration} {row col color : Nat} {verify : Bool}
    {cfg' : Configuration} (h : cfg.placeTower row col color verify = .ok cfg') :
    row < cfg.city.n ∧ col < cfg.city.m ∧ color < cfg.city.nbColors ∧
      cfg' = cfg.setCell row col color := by
  unfold Configuration.placeTower Configuration.checkBounds at h
  by_cases h1 : cfg.city.n ≤ row
  · rw [if_pos h1] at h
    exact absurd h (by simp)
  · rw [if_neg h1] at h
    by_cases h2 : cfg.city.m ≤ col
    · rw [if_pos h2] at h
      exact absurd h (by simp)
    · rw [if_neg h2] at h
      by_cases h3 : cfg.city.nbColors ≤ color
      · rw [if_pos h3] at h
        exact absurd h (by simp)
      · rw [if_neg h3] at h
        dsimp only at h
        split at h
        · exact absurd h (by simp)
        · injection h with h
          exact ⟨by omega, by omega, by omega, h.symm⟩

theorem foldl_setCell_cellsWF {city : City} :
    ∀ {ps : List Move} {cfg : Configuration}, CellsWF city cfg →
      (∀ p ∈ ps, p.2.2 < city.nbColors) →
      CellsWF city (ps.foldl (fun c p => c.setCell p.1 p.2.1 p.2.2) cfg) := by
  intro ps
  induction ps with
  | nil => intro cfg h _; exact h
  | cons p rest ih =>
    intro cfg h hps
    simp only [List.foldl_cons]
    exact ih (CellsWF.setCellLt h (hps p (List.mem_cons_self _ _)))
      (fun q hq => hps q (List.mem_cons_of_mem _ hq))

theorem undoFold_cellsWF {city : City} {fuel : Nat}
    (IH : ∀ cfg row col mv cfg', CellsWF city cfg →
      applySafeReduction city fuel cfg row col true = .ok (mv, cfg') →
      CellsWF city cfg') :
    ∀ {ps : List Move} {acc res : List Move × Configuration},
      CellsWF city acc.2 →
      ps.foldlM (undoStepF (fun c r2 c2 => applySafeReduction city fuel c r2 c2 true))
        acc = .ok res →
      CellsWF city res.2 := by
  intro ps
  induction ps with
  | nil =>
    intro acc res hacc h
    simp only [List.foldlM_nil] at h
    injection h with h
    rw [← h]
    exact hacc
  | cons p rest ih =>
    intro acc res hacc h
    rw [List.foldlM_cons] at h
    cases hred : applySafeReduction city fuel acc.2 p.1 p.2.1 true with
    | error e =>
      rw [show undoStepF (fun c r2 c2 => applySafeReduction city fuel c r2 c2 true) acc p =
        .error e by simp [undoStepF, hred]] at h
      exact absurd h (by simp [Bind.bind, Except.bind])
    | ok mc =>
      rw [show undoStepF (fun c r2 c2 => applySafeReduction city fuel c r2 c2 true) acc p =
        .ok (mc.1 ++ acc.1, mc.2) by simp [undoStepF, hred]] at h
      have h2 : rest.foldlM
          (undoStepF (fun c r2 c2 => applySafeReduction city fuel c r2 c2 true))
          (mc.1 ++ acc.1, mc.2) = .ok res := h
      have hmc : CellsWF city (mc.1 ++ acc.1, mc.2).2 := IH _ _ _ _ _ hacc
        (show applySafeReduction city fuel acc.2 p.1 p.2.1 true = .ok (mc.1, mc.2) from hred)
      exact ih hmc h2

theorem reduce_cellsWF {city : City} :
    ∀ {fuel : Nat} {cfg : Configuration} {row col : Nat} {eof : Bool}
      {mv : List Move} {cfg' : Configuration},
      CellsWF city cfg →
      applySafeReduction city fuel cfg row col eof = .ok (mv, cfg') →
      CellsWF city cfg' := by
  intro fuel
  induction fuel with
  | zero =>
    intro cfg row col eof mv cfg' _ h
    exact absurd h (by simp [applySafeReduction])
  | succ fuel ih =>
    intro cfg row col eof mv cfg' hwf h
    rw [applySafeReduction] at h
    split at h
    · split at h
      · exact absurd h (by simp)
      · injection h with h
        rw [show cfg' = (([], cfg) : List Move × Configuration).2 from by rw [h]]
        exact hwf
    · split at h
      · split at h
        · exact absurd h (by simp)
        · injection h with h
          rw [show cfg' = (([], cfg) : List Move × Configuration).2 from by rw [h]]
          exact hwf
      · split at h
        · exact absurd h (by simp)
        · split at h
          · exact absurd h (by simp)
          · injection h with h
            rw [show cfg' = (([], cfg) : List Move × Configuration).2 from by rw [h]]
            exact hwf
        · rename_i ps heq
          have hsel := select_some_spec heq
          have hcolors : ∀ p ∈ ps, p.2.2 < city.nbColors := by
            intro p hp
            have hmap : p.2.2 ∈ ps.map (fun p => p.2.2) := List.mem_map_of_mem _ hp
            rw [hsel.1] at hmap
            have hmem : p.2.2 ∈ needList (cfg.getCell row col) :=
              List.mem_of_mem_filter hmap
            rw [mem_needList] at hmem
            have := hwf row col
            omega
          have h0nb : 0 < city.nbColors := by
            have := hwf 0 0
            omega
          have hwf0 : CellsWF city
              ((ps.foldl (fun c p => c.setCell p.1 p.2.1 p.2.2) cfg).setCell row col 0) :=
            CellsWF.setCellLt (foldl_setCell_cellsWF hwf hcolors) h0nb
          exact undoFold_cellsWF (fun cfg row col mv cfg' hw hh => ih hw hh) hwf0 h

theorem select_ok_of_needs12 {city : City} {cfg : Configuration} {r c : Nat} :
    ∀ {needed : List Nat}, (∀ k ∈ needed, k = 1 ∨ k = 2) →
      ∀ (avail : Nat) (used : List (Nat × Nat)),
        ∃ o, selectPromotions city cfg r c needed avail used = .ok o := by
  intro needed
  induction needed with
  | nil => intro _ avail used; exact ⟨some [], rfl⟩
  | cons k rest ih =>
    intro hk avail used
    have hrest : ∀ j ∈ rest, j = 1 ∨ j = 2 := fun j hx => hk j (List.mem_cons_of_mem _ hx)
    by_cases hx : cfg.hasNeighbor r c k = true
    · rcases ih hrest avail used with ⟨o, ho⟩
      exact ⟨o, by rw [selectPromotions, if_pos hx]; exact ho⟩
    · by_cases hav : avail = 0
      · exact ⟨none, by rw [selectPromotions, if_neg hx, if_pos hav]⟩
      · have hnoerr : ∀ pq ∈ city.neighbors r c,
            ∃ b, safelyPromotable city cfg r c pq.1 pq.2 k = .ok b := by
          intro pq hpq
          rcases hk k (List.mem_cons_self _ _) with rfl | rfl
          · exact ⟨_, sp_eq_one hpq⟩
          · exact ⟨_, sp_eq_two hpq⟩
        rcases findPromotable_no_error used hnoerr with ⟨o, ho⟩
        cases o with
        | none => exact ⟨none, by rw [selectPromotions, if_neg hx, if_neg hav, ho]⟩
        | some pq =>
          rcases ih hrest (avail - 1) (used ++ [pq]) with ⟨o2, ho2⟩
          cases o2 with
          | none =>
            refine ⟨none, ?_⟩
            rw [selectPromotions, if_neg hx, if_neg hav, ho]
            dsimp only
            rw [ho2]
          | some ps =>
            refine ⟨some ((pq.1, pq.2, k) :: ps), ?_⟩
            rw [selectPromotions, if_neg hx, if_neg hav, ho]
            dsimp only
            rw [ho2]

end WFLemmas

section ClaimC7

/-- C7 — Promotion safety rule: for a reduction cell at color at most 3, the
needed-color loop only ever requests promotion targets 1 and 2 (so the
selection loop never hits the invalid-promotion-color error), a 1-promotion
of a neighbor is accepted exactly when that neighbor is at level 0, and a
2-promotion is accepted exactly when the neighbor is at level 0 and has some
other neighbor, distinct from the reduction cell, at level 0 or 1. -/
theorem spec_C7_promotion_safety (city : City) (cfg : Configuration) (r c : Nat)
    (hcol : cfg.getCell r c ≤ 3) :
    (∀ k ∈ needList (cfg.getCell r c), k = 1 ∨ k = 2) ∧
    (∀ avail used, ∃ o,
      selectPromotions city cfg r c (needList (cfg.getCell r c)) avail used = .ok o) ∧
    (∀ p q, (p, q) ∈ city.neighbors r c →
      (safelyPromotable city cfg r c p q 1 = .ok true ↔ cfg.getCell p q = 0) ∧
      (safelyPromotable city cfg r c p q 2 = .ok true ↔
        (cfg.getCell p q = 0 ∧ ∃ v w, (v, w) ∈ city.neighbors p q ∧ (v, w) ≠ (r, c) ∧
          (cfg.getCell v w = 0 ∨ cfg.getCell v w = 1)))) := by
  have h12 : ∀ k ∈ needList (cfg.getCell r c), k = 1 ∨ k = 2 := by
    intro k hkmem
    rw [mem_needList] at hkmem
    omega
  refine ⟨h12, fun avail used => select_ok_of_needs12 h12 avail used, ?_⟩
  intro p q hpq
  constructor
  · rw [sp_eq_one hpq]
    constructor
    · intro h
      injection h with h
      simpa using h
    · intro h
      rw [h]
      rfl
  · rw [sp_two_true_iff hpq]
    unfold Promotable2P
    constructor
    · rintro ⟨h1, vw, hvw, hne, hle⟩
      exact ⟨h1, vw.1, vw.2, hvw, pair_eta_ne hne, by omega⟩
    · rintro ⟨h1, v, w, hvw, hne, hor⟩
      exact ⟨h1, (v, w), hvw, hne, by dsimp only; omega⟩

/-- Witness for C7 at a concrete input: cell (0, 0) of the 1x3 target
`[2, 0, 2]` and its neighbor (0, 1). -/
theorem spec_C7_promotion_safety_witness :
    cfgA.getCell 0 0 ≤ 3 ∧ (0, 1) ∈ cityA.neighbors 0 0 ∧
      (safelyPromotable cityA cfgA 0 0 0 1 1 = .ok true ↔ cfgA.getCell 0 1 = 0) :=
  ⟨by decide, by decide,
    ((spec_C7_promotion_safety cityA cfgA 0 0 (by decide)).2.2 0 1 (by decide)).1⟩

end ClaimC7

section ClaimC10

/-- C10 — Level-range invariant: the all-zero constructor configuration is
within range; a successful `place_tower` had its color below `nb_colors`
and keeps every cell within range; and a successful safe reduction (whose
direct writes bypass `place_tower`) keeps every cell within range. -/
theorem spec_C10_level_range (city : City) (hnb : 0 < city.nbColors) :
    CellsWF city (zeroConfiguration city) ∧
    (∀ cfg : Configuration, ∀ row col color : Nat, ∀ verify : Bool,
      ∀ cfg' : Configuration, cfg.placeTower row col color verify = .ok cfg' →
      color < cfg.city.nbColors ∧
        (cfg.city = city → CellsWF city cfg → CellsWF city cfg')) ∧
    (∀ fuel : Nat, ∀ cfg : Configuration, ∀ row col : Nat, ∀ eof : Bool,
      ∀ mv : List Move, ∀ cfg' : Configuration, CellsWF city cfg →
      applySafeReduction city fuel cfg row col eof = .ok (mv, cfg') →
      CellsWF city cfg') := by
  refine ⟨?_, ?_, ?_⟩
  · intro row col
    rw [getCell_zeroConfiguration]
    exact hnb
  · intro cfg row col color verify cfg' h
    rcases placeTower_ok_inv h with ⟨h1, h2, h3, h4⟩
    refine ⟨h3, fun hcity hwf => ?_⟩
    rw [h4]
    exact CellsWF.setCellLt hwf (by rw [← hcity]; exact h3)
  · intro fuel cfg row col eof mv cfg' hwf h
    exact reduce_cellsWF hwf h

/-- Witness for C10 at a concrete input: the 2x2 city with 4 colors. -/
theorem spec_C10_level_range_witness :
    0 < cityC.nbColors ∧ CellsWF cityC (zeroConfiguration cityC) :=
  ⟨by decide, (spec_C10_level_range cityC (by decide)).1⟩

end ClaimC10

section SearchShapeLemmas

theorem sweepFold_shapeEq {city : City} :
    ∀ {l : List (Nat × Nat)} {acc res : List Move × Configuration × Bool},
      l.foldlM (sweepStep city) acc = .ok res → ShapeEq acc.2.1 res.2.1 := by
  intro l
  induction l with
  | nil =>
    intro acc res h
    simp only [List.foldlM_nil] at h
    injection h with h
    rw [← h]
    exact ShapeEq.refl _
  | cons rc rest ih =>
    intro acc res h
    rw [List.foldlM_cons] at h
    cases hred : applySafeReduction city city.nbColors acc.2.1 rc.1 rc.2 false with
    | error e =>
      rw [show sweepStep city acc rc = .error e by simp [sweepStep, hred]] at h
      exact absurd h (by simp [Bind.bind, Except.bind])
    | ok mc =>
      have hse : ShapeEq acc.2.1 mc.2 := reduce_shapeEq
        (show applySafeReduction city city.nbColors acc.2.1 rc.1 rc.2 false =
          .ok (mc.1, mc.2) from hred)
      by_cases hemp : mc.1.isEmpty
      · rw [show sweepStep city acc rc = .ok (acc.1, mc.2, acc.2.2) by
          simp [sweepStep, hred, hemp]] at h
        have h2 : rest.foldlM (sweepStep city) (acc.1, mc.2, acc.2.2) = .ok res := h
        have hrest := ih h2
        exact hse.trans hrest
      · rw [show sweepStep city acc rc = .ok (mc.1 ++ acc.1, mc.2, true) by
          simp only [sweepStep, hred]; rw [if_neg hemp]] at h
        have h2 : rest.foldlM (sweepStep city) (mc.1 ++ acc.1, mc.2, true) = .ok res := h
        have hrest := ih h2
        exact hse.trans hrest

theorem sweeps_shapeEq {city : City} :
    ∀ {fuel : Nat} {cfg : Configuration} {mv : List Move} {S : Configuration},
      applySafeReductions city fuel cfg = .ok (mv, S) → ShapeEq cfg S := by
  intro fuel
  induction fuel with
  | zero => intro cfg mv S h; exact absurd h (by simp [applySafeReductions])
  | succ fuel ih =>
    intro cfg mv S h
    rw [applySafeReductions] at h
    split at h
    · exact absurd h (by simp)
    · rename_i mv1 cfg1 changed heq
      have hse1 : ShapeEq cfg cfg1 := by
        have h2 : (cellList city).foldlM (sweepStep city)
            (([], cfg, false) : List Move × Configuration × Bool) =
            .ok (mv1, cfg1, changed) := by
          unfold sweepPass at heq
          exact heq
        exact sweepFold_shapeEq h2
      split at h
      · split at h
        · exact absurd h (by simp)
        · rename_i mv2 S2 heq2
          injection h with h
          have hs2 : S2 = S := congrArg (fun x => x.2) h
          rw [← hs2]
          exact hse1.trans (ih heq2)
      · injection h with h
        have hs : cfg1 = S := congrArg (fun x => x.2) h
        rw [← hs]
        exact hse1

theorem searchFold_shapeEq {current : Configuration}
    {red : Configuration → Except Err (Configuration × List Move)}
    (IH : ∀ next red' mv', red next = .ok (red', mv') → ShapeEq next red') :
    ∀ {l : List (Nat × Nat)} {currentMoves : List Move}
      {acc res : Configuration × List Move},
      ShapeEq current acc.1 →
      l.foldlM (searchStep red current currentMoves) acc = .ok res →
      ShapeEq current res.1 := by
  intro l
  induction l with
  | nil =>
    intro currentMoves acc res hacc h
    simp only [List.foldlM_nil] at h
    injection h with h
    rw [← h]
    exact hacc
  | cons z rest ih =>
    intro currentMoves acc res hacc h
    rw [List.foldlM_cons] at h
    by_cases hz : acc.1.allZero = true
    · rw [show searchStep red current currentMoves acc z = .ok acc by
        simp [searchStep, hz]] at h
      have h2 : rest.foldlM (searchStep red current currentMoves) acc = .ok res := h
      exact ih hacc h2
    · cases hp : current.placeTower z.1 z.2 2 false with
      | error e =>
        rw [show searchStep red current currentMoves acc z = .error e by
          simp [searchStep, hz, hp]] at h
        exact absurd h (by simp [Bind.bind, Except.bind])
      | ok next =>
        cases hr : red next with
        | error e =>
          rw [show searchStep red current currentMoves acc z = .error e by
            simp [searchStep, hz, hp, hr]] at h
          exact absurd h (by simp [Bind.bind, Except.bind])
        | ok rr =>
          have hnext : ShapeEq current next := by
            rcases placeTower_ok_inv hp with ⟨-, -, -, h4⟩
            rw [h4]
            exact ShapeEq.setCellE _ _ _ _
          have hrr : ShapeEq current rr.1 := hnext.trans
            (IH next rr.1 rr.2 (by rw [hr]))
          by_cases hz2 : rr.1.allZero = true
          · rw [show searchStep red current currentMoves acc z =
              .ok (rr.1, rr.2 ++ (z.1, z.2, 0) :: currentMoves) by
              simp [searchStep, hz, hp, hr, hz2]] at h
            have h2 : rest.foldlM (searchStep red current currentMoves)
                (rr.1, rr.2 ++ (z.1, z.2, 0) :: currentMoves) = .ok res := h
            have hrr2 : ShapeEq current
                (rr.1, rr.2 ++ (z.1, z.2, 0) :: currentMoves).1 := hrr
            exact ih hrr2 h2
          · by_cases hlt : rr.1.ltc acc.1 = true
            · rw [show searchStep red current currentMoves acc z =
                .ok (rr.1, rr.2 ++ (z.1, z.2, 0) :: currentMoves) by
                simp [searchStep, hz, hp, hr, hz2, hlt]] at h
              have h2 : rest.foldlM (searchStep red current currentMoves)
                  (rr.1, rr.2 ++ (z.1, z.2, 0) :: currentMoves) = .ok res := h
              have hrr2 : ShapeEq current
                  (rr.1, rr.2 ++ (z.1, z.2, 0) :: currentMoves).1 := hrr
              exact ih hrr2 h2
            · rw [show searchStep red current currentMoves acc z = .ok acc by
                simp [searchStep, hz, hp, hr, hz2, hlt]] at h
              have h2 : rest.foldlM (searchStep red current currentMoves) acc = .ok res := h
              exact ih hacc h2

theorem getReduced_shapeEq {city : City} :
    ∀ {fuelS : Nat} {cfg red : Configuration} {mv : List Move},
      getReducedAux city fuelS cfg = .ok (red, mv) → ShapeEq cfg red := by
  intro fuelS
  induction fuelS with
  | zero => intro cfg red mv h; exact absurd h (by simp [getReducedAux])
  | succ fuelS ih =>
    intro cfg red mv h
    rw [getReducedAux] at h
    split at h
    · exact absurd h (by simp)
    · rename_i currentMoves current heq
      have hse1 : ShapeEq cfg current := by
        have h2 : applySafeReductions city (city.n * city.m + 1) cfg =
            .ok (currentMoves, current) := heq
        exact sweeps_shapeEq h2
      split at h
      · injection h with h
        have hc : current = red := congrArg (fun x => x.1) h
        rw [← hc]
        exact hse1
      · have hacc : ShapeEq current ((current, currentMoves) :
            Configuration × List Move).1 := ShapeEq.refl _
        have hres := searchFold_shapeEq (fun next red' mv' hh => ih hh) hacc h
        exact hse1.trans hres

theorem validSeqGo_true_replay {endC : Configuration} :
    ∀ {moves : List Move} {startC : Configuration},
      validSeqGo endC startC moves = .ok true →
      ∃ final, replayAll startC moves = .ok final ∧ final.towers = endC.towers := by
  intro moves
  induction moves with
  | nil =>
    intro startC h
    rw [validSeqGo] at h
    injection h with h
    refine ⟨startC, rfl, ?_⟩
    simpa using h
  | cons mv rest ih =>
    intro startC h
    rw [validSeqGo] at h
    cases hp : startC.placeTower mv.1 mv.2.1 mv.2.2 true with
    | error e =>
      rw [hp] at h
      cases e <;> simp_all
    | ok c2 =>
      rw [hp] at h
      rcases ih h with ⟨final, hrep, htow⟩
      refine ⟨final, ?_, htow⟩
      rw [replayAll, hp]
      exact hrep

end SearchShapeLemmas

section ClaimC1

/-- C1 — Round-trip law: whenever `get_moves` returns a move list for a
well-formed target, replaying the moves in order from the all-zero
configuration with `verify=True` succeeds at every move and ends in a
configuration whose towers equal the target's exactly. -/
theorem spec_C1_round_trip (city : City) (cfg : Configuration) (moves : List Move)
    (hcity : cfg.city = city) (hshape : ShapeWF city cfg)
    (h : getMoves city cfg = .ok moves) :
    ∃ final, replayAll (zeroConfiguration city) moves = .ok final ∧
      final.towers = cfg.towers := by
  unfold getMoves at h
  split at h
  · exact absurd h (by simp)
  · rename_i reduced moves0 heq
    split at h
    · exact absurd h (by simp)
    · rename_i good heq2
      split at h
      · exact absurd h (by simp)
      · rename_i hgood
        split at h
        · exact absurd h (by simp)
        · rename_i haz
          injection h with h
          subst h
          have hg : good = true := by
            cases good
            · simp at hgood
            · rfl
          have ha : reduced.allZero = true := by
            cases hb : reduced.allZero
            · rw [hb] at haz; simp at haz
            · rfl
          subst hg
          have heqa : getReducedAux city (city.n * city.m + 1) cfg =
              .ok (reduced, moves0) := heq
          have hseq : ShapeEq cfg reduced := getReduced_shapeEq heqa
          have hredshape : ShapeWF city reduced := hshape.of_shapeEq hseq
          have hredcity : reduced.city = city := hseq.1.trans hcity
          have hzero : reduced = zeroConfiguration city :=
            allZero_eq_zeroConfiguration ha hredshape hredcity
          have hval : validSeqGo cfg reduced moves0 = .ok true := heq2
          rcases validSeqGo_true_replay hval with ⟨final, hrep, htow⟩
          refine ⟨final, ?_, htow⟩
          rw [← hzero]
          exact hrep

/-- Witness for C1 at a concrete input: the all-zero 2x2 target, for which
`get_moves` returns the empty move list. -/
theorem spec_C1_round_trip_witness :
    (zeroConfiguration cityC).city = cityC ∧ ShapeWF cityC (zeroConfiguration cityC) ∧
    getMoves cityC (zeroConfiguration cityC) = .ok [] ∧
    (∃ final, replayAll (zeroConfiguration cityC) [] = .ok final ∧
      final.towers = (zeroConfiguration cityC).towers) :=
  ⟨rfl,
    ⟨rfl, fun row hrow => by rw [List.eq_of_mem_replicate hrow]; exact List.length_replicate _ _⟩,
    by decide,
    spec_C1_round_trip cityC (zeroConfiguration cityC) [] rfl
      ⟨rfl, fun row hrow => by rw [List.eq_of_mem_replicate hrow]; exact List.length_replicate _ _⟩ (by decide)⟩

end ClaimC1

section TotalityLemmas

/-- Net effect and exact success condition of a top-level safe reduction
(`error_on_fail=False`) on a well-formed 4-color configuration: it always
returns, the moves replay, and it either leaves the configuration unchanged
(empty moves) or zeroes exactly the reduced cell. -/
theorem reduce_total {city : City} {cfg : Configuration} {r c : Nat}
    (hcity : cfg.city = city) (hshape : ShapeWF city cfg) (hwf : CellsWF city cfg)
    (hnb : city.nbColors = 4) (hr : r < city.n) (hc : c < city.m) :
    ∃ mv cfg', applySafeReduction city city.nbColors cfg r c false = .ok (mv, cfg') ∧
      replayAll cfg' mv = .ok cfg ∧
      ((mv = [] ∧ cfg' = cfg) ∨
        (mv ≠ [] ∧ cfg' = cfg.setCell r c 0 ∧ cfg.getCell r c ≠ 0)) ∧
      (mv = [] ↔ ¬ (cfg.getCell r c ≠ 0 ∧ RedCond city cfg r c)) := by
  have hcol4 : cfg.getCell r c < 4 := by rw [← hnb]; exact hwf r c
  have hnb3 : 3 < city.nbColors := by omega
  have h4 : cfg.getCell r c = 0 ∨ cfg.getCell r c = 1 ∨ cfg.getCell r c = 2 ∨
      cfg.getCell r c = 3 := by omega
  rcases h4 with h0 | h1 | h2 | h3
  · refine ⟨[], cfg, reduce_of_zero_cell h0 (by omega), rfl, Or.inl ⟨rfl, rfl⟩, ?_⟩
    simp [h0]
  · have hch := @reduce1_char city cfg r c city.nbColors false hcity hshape hr hc h1
      (by omega) (by omega)
    have hRC : RedCond city cfg r c ↔ cfg.hasNeighbor r c 0 = true := by
      unfold RedCond
      rw [h1]
      simp
    by_cases hcond : cfg.hasNeighbor r c 0 = true
    · rcases hch.1 hcond with ⟨heq, hrep⟩
      refine ⟨[(r, c, 1)], cfg.setCell r c 0, heq, hrep,
        Or.inr ⟨by simp, rfl, by omega⟩, ?_⟩
      constructor
      · intro h
        simp at h
      · intro hcon
        exact absurd ⟨by omega, hRC.mpr hcond⟩ hcon
    · have heq : applySafeReduction city city.nbColors cfg r c false = .ok ([], cfg) :=
        hch.2 hcond
      refine ⟨[], cfg, heq, rfl, Or.inl ⟨rfl, rfl⟩, ?_⟩
      exact ⟨fun _ hcon => hcond (hRC.mp hcon.2), fun _ => rfl⟩
  · have hch := @reduce2_char city cfg r c city.nbColors false hcity hshape hr hc h2
      (by omega) (by omega)
    have hRC : RedCond city cfg r c ↔ (cfg.hasNeighbor r c 0 = true ∧
        (cfg.hasNeighbor r c 1 = true ∨ 2 ≤ countZeroNeighbors city cfg r c)) := by
      unfold RedCond
      rw [h2]
    by_cases hcond : cfg.hasNeighbor r c 0 = true ∧
        (cfg.hasNeighbor r c 1 = true ∨ 2 ≤ countZeroNeighbors city cfg r c)
    · rcases hch.1 hcond with ⟨mv2, hne, heq, hrep⟩
      refine ⟨mv2, cfg.setCell r c 0, heq, hrep, Or.inr ⟨hne, rfl, by omega⟩, ?_⟩
      constructor
      · intro h
        exact absurd h hne
      · intro hcon
        exact absurd ⟨by omega, hRC.mpr hcond⟩ hcon
    · have heq : applySafeReduction city city.nbColors cfg r c false = .ok ([], cfg) :=
        hch.2 hcond
      refine ⟨[], cfg, heq, rfl, Or.inl ⟨rfl, rfl⟩, ?_⟩
      exact ⟨fun _ hcon => hcond (hRC.mp hcon.2), fun _ => rfl⟩
  · have hch := @reduce3_char city cfg r c city.nbColors false hcity hshape hr hc h3
      (by omega) (by omega)
    have hRC : RedCond city cfg r c ↔ (cfg.hasNeighbor r c 0 = true ∧
        ((cfg.hasNeighbor r c 2 = true ∧
          (cfg.hasNeighbor r c 1 = true ∨ 2 ≤ countZeroNeighbors city cfg r c)) ∨
         (¬ cfg.hasNeighbor r c 2 = true ∧ 2 ≤ countZeroNeighbors city cfg r c ∧
          (∃ p q, (p, q) ∈ city.neighbors r c ∧ Promotable2P city cfg r c p q) ∧
          (cfg.hasNeighbor r c 1 = true ∨ 3 ≤ countZeroNeighbors city cfg r c)))) := by
      unfold RedCond
      rw [h3]
    by_cases hcond : cfg.hasNeighbor r c 0 = true ∧
        ((cfg.hasNeighbor r c 2 = true ∧
          (cfg.hasNeighbor r c 1 = true ∨ 2 ≤ countZeroNeighbors city cfg r c)) ∨
         (¬ cfg.hasNeighbor r c 2 = true ∧ 2 ≤ countZeroNeighbors city cfg r c ∧
          (∃ p q, (p, q) ∈ city.neighbors r c ∧ Promotable2P city cfg r c p q) ∧
          (cfg.hasNeighbor r c 1 = true ∨ 3 ≤ countZeroNeighbors city cfg r c)))
    · rcases hch.1 hcond with ⟨mv2, hne, heq, hrep⟩
      refine ⟨mv2, cfg.setCell r c 0, heq, hrep, Or.inr ⟨hne, rfl, by omega⟩, ?_⟩
      constructor
      · intro h
        exact absurd h hne
      · intro hcon
        exact absurd ⟨by omega, hRC.mpr hcond⟩ hcon
    · have heq : applySafeReduction city city.nbColors cfg r c false = .ok ([], cfg) :=
        hch.2 hcond
      refine ⟨[], cfg, heq, rfl, Or.inl ⟨rfl, rfl⟩, ?_⟩
      exact ⟨fun _ hcon => hcond (hRC.mp hcon.2), fun _ => rfl⟩

theorem countSum_setCell {p : Nat → Bool} {cfg : Configuration} {r c v : Nat}
    (hin : InShape cfg r c) :
    ((cfg.setCell r c v).towers.map (fun row => row.countP p)).sum +
      (if p (cfg.getCell r c) then 1 else 0) =
    (cfg.towers.map (fun row => row.countP p)).sum + (if p v then 1 else 0) := by
  obtain ⟨h1, h2⟩ := hin
  unfold Configuration.setCell
  simp only [List.map_set]
  have hrow := countP_set_decomp (p := p) (l := cfg.towers.getD r []) h2 v
  have hs := sum_set_decomp (l := cfg.towers.map (fun row => row.countP p))
    (by simpa using h1) (((cfg.towers.getD r []).set c v).countP p)
  rw [getD_map_cnt h1] at hs
  have hg : cfg.getCell r c = (cfg.towers.getD r []).getD c 0 := rfl
  rw [hg]
  omega

theorem threeCount_setCell_le {cfg : Configuration} {r c : Nat} :
    threeCount (cfg.setCell r c 0) ≤ threeCount cfg := by
  by_cases hin : InShape cfg r c
  · have hc := countSum_setCell (p := fun t => t == 3) (v := 0) hin
    dsimp only at hc
    rw [show (if ((0 : Nat) == 3) = true then 1 else 0) = 0 from rfl] at hc
    unfold threeCount
    by_cases h3 : cfg.getCell r c = 3
    · rw [h3, show (if ((3 : Nat) == 3) = true then 1 else 0) = 1 from rfl] at hc
      omega
    · have hb : (cfg.getCell r c == 3) = false := by simpa using h3
      rw [hb, show (if (false = true) then 1 else 0) = 0 from rfl] at hc
      omega
  · rw [setCell_out_of_shape hin]

theorem threeCount_setCell_lt {cfg : Configuration} {r c : Nat}
    (hin : InShape cfg r c) (h3 : cfg.getCell r c = 3) :
    threeCount (cfg.setCell r c 0) < threeCount cfg := by
  have hc := countSum_setCell (p := fun t => t == 3) (v := 0) hin
  dsimp only at hc
  rw [show (if ((0 : Nat) == 3) = true then 1 else 0) = 0 from rfl, h3,
    show (if ((3 : Nat) == 3) = true then 1 else 0) = 1 from rfl] at hc
  unfold threeCount
  omega

theorem threeCount_setCell_eq {cfg : Configuration} {r c v : Nat}
    (hold : cfg.getCell r c ≠ 3) (hv : v ≠ 3) :
    threeCount (cfg.setCell r c v) = threeCount cfg := by
  by_cases hin : InShape cfg r c
  · have hc := countSum_setCell (p := fun t => t == 3) (v := v) hin
    dsimp only at hc
    have ha : (cfg.getCell r c == 3) = false := by simpa using hold
    have hb : (v == 3) = false := by simpa using hv
    rw [ha, hb, show (if (false = true) then 1 else 0) = 0 from rfl] at hc
    unfold threeCount
    omega
  · rw [setCell_out_of_shape hin]

theorem sweepFold_total {city : City} (hnb : city.nbColors = 4) :
    ∀ {l : List (Nat × Nat)}, (∀ rc ∈ l, rc.1 < city.n ∧ rc.2 < city.m) →
    ∀ {acc : List Move × Configuration × Bool},
      acc.2.1.city = city → ShapeWF city acc.2.1 → CellsWF city acc.2.1 →
      ∃ res, l.foldlM (sweepStep city) acc = .ok res ∧
        res.2.1.city = city ∧ ShapeWF city res.2.1 ∧ CellsWF city res.2.1 ∧
        (∀ cfg0, replayAll acc.2.1 acc.1 = .ok cfg0 →
          replayAll res.2.1 res.1 = .ok cfg0) ∧
        threeCount res.2.1 ≤ threeCount acc.2.1 ∧
        ((res.2.1 = acc.2.1 ∧ res.1 = acc.1 ∧ res.2.2 = acc.2.2) ∨
          (nonzeroCount res.2.1 < nonzeroCount acc.2.1 ∧ res.2.2 = true)) := by
  intro l
  induction l with
  | nil =>
    intro _ acc h1 h2 h3
    exact ⟨acc, rfl, h1, h2, h3, fun cfg0 h => h, le_refl _, Or.inl ⟨rfl, rfl, rfl⟩⟩
  | cons rc rest ih =>
    intro hmem acc h1 h2 h3
    have hrc := hmem rc (List.mem_cons_self _ _)
    rcases reduce_total h1 h2 h3 hnb hrc.1 hrc.2 with
      ⟨mv, cfg', heq, hrep, hcases, -⟩
    rcases hcases with ⟨hmve, hcfg'⟩ | ⟨hmvne, hcfg', hnz⟩
    · subst hmve
      subst hcfg'
      have hstep : sweepStep city acc rc = .ok (acc.1, acc.2.1, acc.2.2) := by
        unfold sweepStep
        rw [heq]
        rfl
      rcases ih (fun x hx => hmem x (List.mem_cons_of_mem _ hx)) h1 h2 h3 with
        ⟨res, hres, p1, p2, p3, p4, p5, p6⟩
      refine ⟨res, ?_, p1, p2, p3, p4, p5, p6⟩
      rw [List.foldlM_cons, hstep]
      exact hres
    · subst hcfg'
      have hstep : sweepStep city acc rc =
          .ok (mv ++ acc.1, acc.2.1.setCell rc.1 rc.2 0, true) := by
        unfold sweepStep
        rw [heq]
        have hemp : mv.isEmpty = false := by
          cases mv
          · exact absurd rfl hmvne
          · rfl
        simp [hemp]
      have hin : InShape acc.2.1 rc.1 rc.2 := h2.inShape hrc.1 hrc.2
      have h1b : ((mv ++ acc.1, acc.2.1.setCell rc.1 rc.2 0, true) :
          List Move × Configuration × Bool).2.1.city = city := h1
      have h2b : ShapeWF city ((mv ++ acc.1, acc.2.1.setCell rc.1 rc.2 0, true) :
          List Move × Configuration × Bool).2.1 := h2.setCell _ _ _
      have h3b : CellsWF city ((mv ++ acc.1, acc.2.1.setCell rc.1 rc.2 0, true) :
          List Move × Configuration × Bool).2.1 :=
        CellsWF.setCellLt h3 (by omega)
      rcases ih (fun x hx => hmem x (List.mem_cons_of_mem _ hx)) h1b h2b h3b with
        ⟨res, hres, p1, p2, p3, p4, p5, p6⟩
      refine ⟨res, ?_, p1, p2, p3, ?_, ?_, ?_⟩
      · rw [List.foldlM_cons, hstep]
        exact hres
      · intro cfg0 hc0
        apply p4
        show replayAll (acc.2.1.setCell rc.1 rc.2 0) (mv ++ acc.1) = .ok cfg0
        rw [replayAll_append hrep]
        exact hc0
      · exact p5.trans threeCount_setCell_le
      · right
        have hdec : nonzeroCount (acc.2.1.setCell rc.1 rc.2 0) < nonzeroCount acc.2.1 :=
          nonzeroCount_setCell_zero hin hnz
      /- the inner fold either kept the promoted configuration or shrank it further -/
        rcases p6 with ⟨e1, -, e3⟩ | ⟨hlt, hflag⟩
        · constructor
          · rw [e1]
            exact hdec
          · exact e3
        · exact ⟨hlt.trans hdec, hflag⟩

theorem sweepPass_total {city : City} {cfg : Configuration} (hnb : city.nbColors = 4)
    (h1 : cfg.city = city) (h2 : ShapeWF city cfg) (h3 : CellsWF city cfg) :
    ∃ mv S changed, sweepPass city cfg = .ok (mv, S, changed) ∧
      S.city = city ∧ ShapeWF city S ∧ CellsWF city S ∧
      replayAll S mv = .ok cfg ∧
      threeCount S ≤ threeCount cfg ∧
      ((S = cfg ∧ mv = [] ∧ changed = false) ∨
        (nonzeroCount S < nonzeroCount cfg ∧ changed = true)) := by
  have hmem : ∀ rc ∈ cellList city, rc.1 < city.n ∧ rc.2 < city.m := by
    intro rc hrc
    exact mem_cellList.mp hrc
  have h1b : ((([], cfg, false)) : List Move × Configuration × Bool).2.1.city = city := h1
  have h2b : ShapeWF city ((([], cfg, false)) :
      List Move × Configuration × Bool).2.1 := h2
  have h3b : CellsWF city ((([], cfg, false)) :
      List Move × Configuration × Bool).2.1 := h3
  rcases sweepFold_total hnb hmem h1b h2b h3b with
    ⟨⟨mv, S, changed⟩, hres, p1, p2, p3, p4, p5, p6⟩
  refine ⟨mv, S, changed, hres, p1, p2, p3, p4 cfg rfl, p5, ?_⟩
  rcases p6 with ⟨e1, e2, e3⟩ | ⟨hlt, hflag⟩
  · exact Or.inl ⟨e1, e2, e3⟩
  · exact Or.inr ⟨hlt, hflag⟩

theorem sweeps_total {city : City} (hnb : city.nbColors = 4) :
    ∀ {fuel : Nat} {cfg : Configuration},
      cfg.city = city → ShapeWF city cfg → CellsWF city cfg →
      nonzeroCount cfg < fuel →
      ∃ mv S, applySafeReductions city fuel cfg = .ok (mv, S) ∧
        S.city = city ∧ ShapeWF city S ∧ CellsWF city S ∧
        replayAll S mv = .ok cfg ∧ threeCount S ≤ threeCount cfg := by
  intro fuel
  induction fuel with
  | zero => intro cfg _ _ _ hlt; omega
  | succ fuel ih =>
    intro cfg h1 h2 h3 hlt
    rcases sweepPass_total hnb h1 h2 h3 with
      ⟨mv1, S1, changed, heq, q1, q2, q3, q4, q5, q6⟩
    rcases q6 with ⟨hS, hmv, hch⟩ | ⟨hdec, hch⟩
    · subst hch
      refine ⟨mv1, S1, ?_, q1, q2, q3, q4, q5⟩
      rw [applySafeReductions, heq]
      rfl
    · subst hch
      rcases ih q1 q2 q3 (by omega) with ⟨mv2, S2, heq2, r1, r2, r3, r4, r5⟩
      refine ⟨mv2 ++ mv1, S2, ?_, r1, r2, r3, ?_, r5.trans q5⟩
      · rw [applySafeReductions, heq]
        dsimp only
        rw [heq2]
        rfl
      · rw [replayAll_append r4]
        exact q4

theorem sweepsTop_total {city : City} {cfg : Configuration} (hnb : city.nbColors = 4)
    (h1 : cfg.city = city) (h2 : ShapeWF city cfg) (h3 : CellsWF city cfg) :
    ∃ mv S, applySafeReductionsTop city cfg = .ok (mv, S) ∧
      S.city = city ∧ ShapeWF city S ∧ CellsWF city S ∧
      replayAll S mv = .ok cfg ∧ threeCount S ≤ threeCount cfg := by
  have hfuel : nonzeroCount cfg < city.n * city.m + 1 := by
    have := nonzeroCount_le h2
    omega
  exact sweeps_total hnb h1 h2 h3 hfuel

theorem foldl_mem_of_step {α β : Type} {P : α → Prop} :
    ∀ {l : List β} {step : List α → β → List α},
      (∀ acc b, b ∈ l → ∀ x ∈ step acc b, x ∈ acc ∨ P x) →
      ∀ {acc : List α}, (∀ x ∈ acc, P x) → ∀ x ∈ l.foldl step acc, P x := by
  intro l
  induction l with
  | nil =>
    intro step _ acc hacc x hx
    exact hacc x (by simpa using hx)
  | cons b rest ih =>
    intro step hstep acc hacc x hx
    rw [List.foldl_cons] at hx
    refine ih (fun a bb hbb => hstep a bb (List.mem_cons_of_mem _ hbb)) ?_ x hx
    intro y hy
    rcases hstep acc b (List.mem_cons_self _ _) y hy with hmem | hp
    · exact hacc y hmem
    · exact hp

/-- A member of `__get_useful_two_promotions` is a zero cell flagged by some
3-tower whose neighbor counts pass the usefulness filter. -/
theorem mem_useful {city : City} {cfg : Configuration} {z : Nat × Nat}
    (h : z ∈ usefulTwoPromotions city cfg) :
    cfg.getCell z.1 z.2 = 0 ∧ ∃ t : Nat × Nat, t.1 < city.n ∧ t.2 < city.m ∧
      cfg.getCell t.1 t.2 = 3 ∧
      (cfg.neighborCounts t.1 t.2).getD 2 0 = 0 ∧
      2 ≤ (cfg.neighborCounts t.1 t.2).getD 0 0 ∧
      (1 ≤ (cfg.neighborCounts t.1 t.2).getD 1 0 ∨
        3 ≤ (cfg.neighborCounts t.1 t.2).getD 0 0) ∧
      z ∈ city.neighbors t.1 t.2 := by
  unfold usefulTwoPromotions at h
  refine foldl_mem_of_step
    (P := fun y : Nat × Nat => cfg.getCell y.1 y.2 = 0 ∧ ∃ t : Nat × Nat,
      t.1 < city.n ∧ t.2 < city.m ∧ cfg.getCell t.1 t.2 = 3 ∧
      (cfg.neighborCounts t.1 t.2).getD 2 0 = 0 ∧
      2 ≤ (cfg.neighborCounts t.1 t.2).getD 0 0 ∧
      (1 ≤ (cfg.neighborCounts t.1 t.2).getD 1 0 ∨
        3 ≤ (cfg.neighborCounts t.1 t.2).getD 0 0) ∧
      y ∈ city.neighbors t.1 t.2) ?_ (by simp) z h
  intro acc rc hrc x hx
  by_cases h3 : cfg.getCell rc.1 rc.2 ≠ 3
  · rw [if_pos h3] at hx
    exact Or.inl hx
  · rw [if_neg h3] at hx
    push_neg at h3
    dsimp only at hx
    by_cases hc2 : 0 < (cfg.neighborCounts rc.1 rc.2).getD 2 0
    · rw [if_pos hc2] at hx
      exact Or.inl hx
    · rw [if_neg hc2] at hx
      by_cases hc0 : (cfg.neighborCounts rc.1 rc.2).getD 0 0 < 2
      · rw [if_pos hc0] at hx
        exact Or.inl hx
      · rw [if_neg hc0] at hx
        by_cases hc1 : ((decide (1 ≤ (cfg.neighborCounts rc.1 rc.2).getD 1 0)) ||
            (decide (3 ≤ (cfg.neighborCounts rc.1 rc.2).getD 0 0))) = true
        · rw [if_pos hc1] at hx
          have hbounds := mem_cellList.mp hrc
          refine foldl_mem_of_step
            (P := fun y : Nat × Nat => y ∈ acc ∨ (cfg.getCell y.1 y.2 = 0 ∧
              ∃ t : Nat × Nat,
              t.1 < city.n ∧ t.2 < city.m ∧ cfg.getCell t.1 t.2 = 3 ∧
              (cfg.neighborCounts t.1 t.2).getD 2 0 = 0 ∧
              2 ≤ (cfg.neighborCounts t.1 t.2).getD 0 0 ∧
              (1 ≤ (cfg.neighborCounts t.1 t.2).getD 1 0 ∨
                3 ≤ (cfg.neighborCounts t.1 t.2).getD 0 0) ∧
              y ∈ city.neighbors t.1 t.2)) ?_ (fun y hy => Or.inl hy) x hx
          intro a pq hpq y hy
          by_cases hcnd : (cfg.getCell pq.1 pq.2 == 0 && !(a.contains pq)) = true
          · rw [if_pos hcnd] at hy
            rcases List.mem_append.mp hy with hya | hyp
            · exact Or.inl hya
            · right
              right
              have hye : y = pq := by simpa using hyp
              subst hye
              have hz0 : cfg.getCell y.1 y.2 = 0 := by
                rcases Bool.and_eq_true_iff.mp hcnd with ⟨hc, -⟩
                simpa using hc
              refine ⟨hz0, rc, hbounds.1, hbounds.2, h3, by omega, by omega, ?_, hpq⟩
              rcases Bool.or_eq_true_iff.mp hc1 with hd | hd
              · exact Or.inl (by simpa using hd)
              · exact Or.inr (by simpa using hd)
          · rw [if_neg hcnd] at hy
            exact Or.inl hy
        · rw [if_neg hc1] at hx
          exact Or.inl hx

theorem neighborCounts_getD {city : City} {cfg : Configuration}
    (hcity : cfg.city = city) {r c k : Nat} (hk : k < city.nbColors) :
    (cfg.neighborCounts r c).getD k 0 =
      (city.neighbors r c).countP (fun pq => cfg.getCell pq.1 pq.2 == k) := by
  unfold Configuration.neighborCounts
  rw [hcity]
  rw [List.getD_eq_getElem?_getD, List.getElem?_map, List.getElem?_range hk]
  rfl

theorem count_zero_iff_not_hasNeighbor {city : City} {cfg : Configuration} {r c k : Nat}
    (hcity : cfg.city = city) :
    ((city.neighbors r c).countP (fun pq => cfg.getCell pq.1 pq.2 == k) = 0) ↔
      ¬ cfg.hasNeighbor r c k = true := by
  rw [List.countP_eq_zero, hasNeighbor_iff, hcity]
  constructor
  · rintro hall ⟨u, hu, huv⟩
    exact absurd (by simpa using huv) (by simpa using hall u hu)
  · intro hne u hu
    by_contra hcon
    exact hne ⟨u, hu, by simpa using hcon⟩

theorem count_pos_hasNeighbor {city : City} {cfg : Configuration} {r c k : Nat}
    (hcity : cfg.city = city)
    (h : 1 ≤ (city.neighbors r c).countP (fun pq => cfg.getCell pq.1 pq.2 == k)) :
    cfg.hasNeighbor r c k = true := by
  have hpos : 0 < (city.neighbors r c).countP (fun pq => cfg.getCell pq.1 pq.2 == k) := by
    omega
  rcases List.countP_pos_iff.mp hpos with ⟨u, hu, huv⟩
  exact hasNeighbor_iff.mpr ⟨u, by rw [hcity]; exact hu, by simpa using huv⟩

/-- At a sweep fixpoint, no in-range cell is both nonzero and reducible. -/
theorem fixpoint_not_redcond {city : City} {S : Configuration}
    (hnb : city.nbColors = 4) (h1 : S.city = city) (h2 : ShapeWF city S)
    (h3 : CellsWF city S)
    (hfix : ∀ r c, r < city.n → c < city.m →
      applySafeReduction city city.nbColors S r c false = .ok ([], S)) :
    ∀ r c, r < city.n → c < city.m →
      ¬ (S.getCell r c ≠ 0 ∧ RedCond city S r c) := by
  intro r c hr hc
  rcases reduce_total h1 h2 h3 hnb hr hc with ⟨mv, cfg', heq, -, -, hiff⟩
  rw [hfix r c hr hc] at heq
  have hmv : mv = [] := by
    injection heq with heq
    exact (congrArg (fun x => x.1) heq).symm
  exact hiff.mp hmv

theorem hasNeighbor_transfer_setTwo {S : Configuration} {z : Nat × Nat} {r c k : Nat}
    (hk : k ≠ 2) (h : (S.setCell z.1 z.2 2).hasNeighbor r c k = true) :
    S.hasNeighbor r c k = true := by
  by_cases hin : InShape S z.1 z.2
  · rcases hasNeighbor_iff.mp h with ⟨u, hu, huv⟩
    rw [Configuration.city_setCell] at hu
    refine hasNeighbor_iff.mpr ⟨u, hu, ?_⟩
    by_cases hzu : (z.1, z.2) = (u.1, u.2)
    · exfalso
      rw [Prod.mk.injEq] at hzu
      rw [← hzu.1, ← hzu.2, getCell_setCell_self hin] at huv
      exact hk huv.symm
    · rw [getCell_setCell_ne hzu] at huv
      exact huv
  · rw [setCell_out_of_shape hin] at h
    exact h

theorem countZero_transfer_setTwo {city : City} {S : Configuration} {z : Nat × Nat}
    {r c : Nat} :
    countZeroNeighbors city (S.setCell z.1 z.2 2) r c ≤
      countZeroNeighbors city S r c := by
  by_cases hin : InShape S z.1 z.2
  · unfold countZeroNeighbors
    apply List.countP_mono_left
    intro u hu hc
    by_cases hzu : (z.1, z.2) = (u.1, u.2)
    · exfalso
      rw [Prod.mk.injEq] at hzu
      rw [← hzu.1, ← hzu.2, getCell_setCell_self hin] at hc
      simp at hc
    · rw [getCell_setCell_ne hzu] at hc
      exact hc
  · rw [setCell_out_of_shape hin]

/-- Analysis of a useful 2-promotion at a sweep fixpoint: placing a 2 at the
flagged zero cell makes the flagging 3-tower reducible while the placed cell
and every 1- or 2-cell stay irreducible, so only 3-cells can reduce. -/
theorem useful_next_props {city : City} {S : Configuration} {z : Nat × Nat}
    (hnb : city.nbColors = 4) (h1 : S.city = city) (h2 : ShapeWF city S)
    (h3 : CellsWF city S)
    (hfix : ∀ r c, r < city.n → c < city.m →
      applySafeReduction city city.nbColors S r c false = .ok ([], S))
    (hz : z ∈ usefulTwoPromotions city S) :
    z.1 < city.n ∧ z.2 < city.m ∧ S.getCell z.1 z.2 = 0 ∧
    (∀ r c, r < city.n → c < city.m →
      (S.setCell z.1 z.2 2).getCell r c ≠ 0 →
      RedCond city (S.setCell z.1 z.2 2) r c →
      (S.setCell z.1 z.2 2).getCell r c = 3) ∧
    (∃ t : Nat × Nat, t.1 < city.n ∧ t.2 < city.m ∧
      (S.setCell z.1 z.2 2).getCell t.1 t.2 ≠ 0 ∧
      RedCond city (S.setCell z.1 z.2 2) t.1 t.2) := by
  obtain ⟨hz0, t, ht1, ht2, ht3, hc2, hc0, hc1, hznb⟩ := mem_useful hz
  have hcnt2 : ¬ S.hasNeighbor t.1 t.2 2 = true := by
    rw [neighborCounts_getD h1 (by omega)] at hc2
    exact (count_zero_iff_not_hasNeighbor h1).mp hc2
  have hcz2 : 2 ≤ countZeroNeighbors city S t.1 t.2 := by
    rw [neighborCounts_getD h1 (by omega)] at hc0
    exact hc0
  have hc13 : S.hasNeighbor t.1 t.2 1 = true ∨
      3 ≤ countZeroNeighbors city S t.1 t.2 := by
    rcases hc1 with hd | hd
    · rw [neighborCounts_getD h1 (by omega)] at hd
      exact Or.inl (count_pos_hasNeighbor h1 hd)
    · rw [neighborCounts_getD h1 (by omega)] at hd
      exact Or.inr hd
  have hzb := mem_neighbors_bounds ht1 ht2 hznb
  have htnot := fixpoint_not_redcond hnb h1 h2 h3 hfix t.1 t.2 ht1 ht2
  have hnoP2 : ∀ p q, (p, q) ∈ city.neighbors t.1 t.2 →
      ¬ Promotable2P city S t.1 t.2 p q := by
    intro p q hpq hP
    apply htnot
    refine ⟨by omega, ?_⟩
    unfold RedCond
    rw [ht3]
    exact ⟨(hasNeighbor_zero_iff_countZero h1).mpr (by omega),
      Or.inr ⟨hcnt2, hcz2, ⟨p, q, hpq, hP⟩, hc13⟩⟩
  have hznbrs : ∀ u ∈ city.neighbors z.1 z.2, u ≠ (t.1, t.2) →
      2 ≤ S.getCell u.1 u.2 := by
    intro u hu hune
    by_contra hcon
    exact hnoP2 z.1 z.2 hznb ⟨hz0, u, hu, hune, by omega⟩
  have hinZ : InShape S z.1 z.2 := h2.inShape hzb.1 hzb.2
  have hnz2 : (S.setCell z.1 z.2 2).getCell z.1 z.2 = 2 := getCell_setCell_self hinZ
  have htz : (t.1, t.2) ≠ (z.1, z.2) := ne_of_mem_neighbors hznb
  have hnext_t : (S.setCell z.1 z.2 2).getCell t.1 t.2 = 3 := by
    rw [getCell_setCell_ne (Ne.symm htz)]
    exact ht3
  have hnext1 : (S.setCell z.1 z.2 2).city = city := by
    rw [Configuration.city_setCell]
    exact h1
  have hzirr : ¬ RedCond city (S.setCell z.1 z.2 2) z.1 z.2 := by
    rintro ⟨h0, -⟩
    rcases hasNeighbor_iff.mp h0 with ⟨u, hu, huv⟩
    rw [hnext1] at hu
    have hune_z : (z.1, z.2) ≠ (u.1, u.2) := ne_of_mem_neighbors hu
    rw [getCell_setCell_ne hune_z] at huv
    by_cases hut : u = (t.1, t.2)
    · subst hut
      dsimp only at huv
      rw [ht3] at huv
      exact absurd huv (by decide)
    · have := hznbrs u hu hut
      omega
  have htRed : RedCond city (S.setCell z.1 z.2 2) t.1 t.2 := by
    unfold RedCond
    rw [hnext_t]
    refine ⟨?_, Or.inl ⟨?_, ?_⟩⟩
    · rcases countP_ge_two_exists (neighbors_nodup city t.1 t.2) hcz2 z
        with ⟨x, hxmem, hxz, hxp⟩
      have hx0 : S.getCell x.1 x.2 = 0 := by simpa using hxp
      refine hasNeighbor_iff.mpr ⟨x, by rw [hnext1]; exact hxmem, ?_⟩
      rw [getCell_setCell_ne (pair_eta_ne (Ne.symm hxz))]
      exact hx0
    · exact hasNeighbor_iff.mpr ⟨z, by rw [hnext1]; exact hznb, hnz2⟩
    · rcases hc13 with hd | hd
      · rcases hasNeighbor_iff.mp hd with ⟨u, hu, huv⟩
        rw [h1] at hu
        have hzu : (z.1, z.2) ≠ (u.1, u.2) := ne_pair_of_cell_ne hz0 huv (by decide)
        refine Or.inl (hasNeighbor_iff.mpr ⟨u, by rw [hnext1]; exact hu, ?_⟩)
        rw [getCell_setCell_ne hzu]
        exact huv
      · rcases countP_ge_two_exists (neighbors_nodup city t.1 t.2)
          (show 2 ≤ countZeroNeighbors city S t.1 t.2 by omega) z
          with ⟨x, hxmem, hxz, hxp⟩
        rcases countP_ge_three_exists (neighbors_nodup city t.1 t.2) hd z x
          with ⟨y, hymem, hyz, hyx, hyp⟩
        have hx0 : S.getCell x.1 x.2 = 0 := by simpa using hxp
        have hy0 : S.getCell y.1 y.2 = 0 := by simpa using hyp
        refine Or.inr (countP_two_of_distinct (Ne.symm hyx)
          (neighbors_nodup city t.1 t.2) hxmem hymem ?_ ?_)
        · show ((S.setCell z.1 z.2 2).getCell x.1 x.2 == 0) = true
          rw [getCell_setCell_ne (pair_eta_ne (Ne.symm hxz))]
          simp [hx0]
        · show ((S.setCell z.1 z.2 2).getCell y.1 y.2 == 0) = true
          rw [getCell_setCell_ne (pair_eta_ne (Ne.symm hyz))]
          simp [hy0]
  refine ⟨hzb.1, hzb.2, hz0, ?_, t, ht1, ht2, by rw [hnext_t]; decide, htRed⟩
  intro r c hr hc hnz0 hRed
  by_cases hrz : (r, c) = (z.1, z.2)
  · rw [Prod.mk.injEq] at hrz
    obtain ⟨rfl, rfl⟩ := hrz
    exact absurd hRed hzirr
  · have hne2 : (z.1, z.2) ≠ (r, c) := fun he => hrz he.symm
    have hval : (S.setCell z.1 z.2 2).getCell r c = S.getCell r c :=
      getCell_setCell_ne hne2
    by_cases h33 : S.getCell r c = 3
    · rw [hval]
      exact h33
    · exfalso
      have hSnz : S.getCell r c ≠ 0 := by
        rw [hval] at hnz0
        exact hnz0
      apply fixpoint_not_redcond hnb h1 h2 h3 hfix r c hr hc
      refine ⟨hSnz, ?_⟩
      unfold RedCond at hRed ⊢
      rw [hval] at hRed
      obtain ⟨h0n, hmn⟩ := hRed
      have htrans0 : S.hasNeighbor r c 0 = true :=
        hasNeighbor_transfer_setTwo (by decide) h0n
      have hcol : S.getCell r c < 4 := by
        rw [← hnb]
        exact h3 r c
      have h12 : S.getCell r c = 1 ∨ S.getCell r c = 2 := by omega
      rcases h12 with he | he
      · rw [he]
        exact ⟨htrans0, trivial⟩
      · rw [he]
        rw [he] at hmn
        have hmn2 : (S.setCell z.1 z.2 2).hasNeighbor r c 1 = true ∨
            2 ≤ countZeroNeighbors city (S.setCell z.1 z.2 2) r c := hmn
        refine ⟨htrans0, ?_⟩
        rcases hmn2 with hd | hd
        · exact Or.inl (hasNeighbor_transfer_setTwo (by decide) hd)
        · refine Or.inr ?_
          have := @countZero_transfer_setTwo city S z r c
          omega

/-- When only 3-cells are reducible and some cell is reducible, a full
row-major fold strictly decreases the number of 3-cells. -/
theorem sweepFold_first_three {city : City} {next : Configuration}
    (hnb : city.nbColors = 4) (h1 : next.city = city) (h2 : ShapeWF city next)
    (h3 : CellsWF city next)
    (hirr : ∀ r c, r < city.n → c < city.m → next.getCell r c ≠ 0 →
      RedCond city next r c → next.getCell r c = 3) :
    ∀ {l : List (Nat × Nat)}, (∀ rc ∈ l, rc.1 < city.n ∧ rc.2 < city.m) →
      (∃ t ∈ l, next.getCell t.1 t.2 ≠ 0 ∧ RedCond city next t.1 t.2) →
      ∀ {mvAcc : List Move} {flag : Bool} {res : List Move × Configuration × Bool},
        l.foldlM (sweepStep city) (mvAcc, next, flag) = .ok res →
        threeCount res.2.1 < threeCount next := by
  intro l
  induction l with
  | nil =>
    intro _ hex
    rcases hex with ⟨t, ht, -⟩
    simp at ht
  | cons rc rest ih =>
    intro hmem hex mvAcc flag res h
    rw [List.foldlM_cons] at h
    have hrc := hmem rc (List.mem_cons_self _ _)
    rcases reduce_total h1 h2 h3 hnb hrc.1 hrc.2 with ⟨mv, cfg', heq, -, hcase, hiff⟩
    rcases hcase with ⟨hmve, hcfge⟩ | ⟨hmvne, hcfge, hnz⟩
    · subst hmve
      have hcfge2 := hcfge.symm
      subst hcfge2
      have hstep : sweepStep city (mvAcc, next, flag) rc = .ok (mvAcc, next, flag) := by
        unfold sweepStep
        dsimp only
        rw [heq]
        rfl
      rw [hstep] at h
      have h2' : rest.foldlM (sweepStep city) (mvAcc, next, flag) = .ok res := h
      rcases hex with ⟨t, htmem, htnz, htrc⟩
      have htne : t ≠ rc := by
        intro he
        subst he
        exact (hiff.mp rfl) ⟨htnz, htrc⟩
      rcases List.mem_cons.mp htmem with he | htmem2
      · exact absurd he htne
      · exact ih (fun x hx => hmem x (List.mem_cons_of_mem _ hx))
          ⟨t, htmem2, htnz, htrc⟩ h2'
    · have hrc3 : next.getCell rc.1 rc.2 = 3 := by
        apply hirr rc.1 rc.2 hrc.1 hrc.2 hnz
        by_contra hnr
        exact hmvne (hiff.mpr (fun hcon => hnr hcon.2))
      subst hcfge
      have hdrop : threeCount (next.setCell rc.1 rc.2 0) < threeCount next :=
        threeCount_setCell_lt (h2.inShape hrc.1 hrc.2) hrc3
      have hstep : sweepStep city (mvAcc, next, flag) rc =
          .ok (mv ++ mvAcc, next.setCell rc.1 rc.2 0, true) := by
        unfold sweepStep
        dsimp only
        rw [heq]
        have hemp : mv.isEmpty = false := by
          cases mv
          · exact absurd rfl hmvne
          · rfl
        simp [hemp]
      rw [hstep] at h
      have h2' : rest.foldlM (sweepStep city)
          (mv ++ mvAcc, next.setCell rc.1 rc.2 0, true) = .ok res := h
      have h1b : ((mv ++ mvAcc, next.setCell rc.1 rc.2 0, true) :
          List Move × Configuration × Bool).2.1.city = city := h1
      have h2b : ShapeWF city ((mv ++ mvAcc, next.setCell rc.1 rc.2 0, true) :
          List Move × Configuration × Bool).2.1 := h2.setCell _ _ _
      have h3b : CellsWF city ((mv ++ mvAcc, next.setCell rc.1 rc.2 0, true) :
          List Move × Configuration × Bool).2.1 := CellsWF.setCellLt h3 (by omega)
      rcases sweepFold_total hnb (fun x hx => hmem x (List.mem_cons_of_mem _ hx))
        h1b h2b h3b with ⟨res2, hres2, -, -, -, -, p5, -⟩
      rw [h2'] at hres2
      injection hres2 with hres2
      rw [← hres2] at p5
      exact lt_of_le_of_lt (p5.trans (le_refl _)) hdrop

/-- Running the sweep fixpoint never increases the number of 3-cells. -/
theorem sweeps_threeMono {city : City} (hnb : city.nbColors = 4) :
    ∀ {fuel : Nat} {cfg : Configuration} {mv : List Move} {S : Configuration},
      cfg.city = city → ShapeWF city cfg → CellsWF city cfg →
      applySafeReductions city fuel cfg = .ok (mv, S) →
      threeCount S ≤ threeCount cfg := by
  intro fuel
  induction fuel with
  | zero =>
    intro cfg mv S _ _ _ h
    exact absurd h (by simp [applySafeReductions])
  | succ fuel ih =>
    intro cfg mv S hc1 hc2 hc3 h
    rw [applySafeReductions] at h
    split at h
    · exact absurd h (by simp)
    · rename_i mv1 cfg1 changed heq
      rcases sweepPass_total hnb hc1 hc2 hc3 with
        ⟨mv1b, S1b, chb, heqb, q1, q2, q3, q4, q5, q6⟩
      rw [heq] at heqb
      injection heqb with heqb
      have e2 : S1b = cfg1 := congrArg (fun x => x.2.1) heqb.symm
      rw [e2] at q1 q2 q3 q5
      split at h
      · split at h
        · exact absurd h (by simp)
        · rename_i mv2 S2 heq2
          injection h with h
          have hs2 : S2 = S := congrArg (fun x => x.2) h
          rw [← hs2]
          exact (ih q1 q2 q3 heq2).trans q5
      · injection h with h
        have hs : cfg1 = S := congrArg (fun x => x.2) h
        rw [← hs]
        exact q5

/-- Strict decrease: from a sweep fixpoint, placing a speculative 2 at a
useful promotion cell and re-running the sweep fixpoint strictly decreases
the number of 3-cells. -/
theorem sweeps_SD {city : City} {S : Configuration} {z : Nat × Nat}
    (hnb : city.nbColors = 4) (h1 : S.city = city) (h2 : ShapeWF city S)
    (h3 : CellsWF city S)
    (hfix : ∀ r c, r < city.n → c < city.m →
      applySafeReduction city city.nbColors S r c false = .ok ([], S))
    (hz : z ∈ usefulTwoPromotions city S) :
    ∀ {fuel : Nat} {mv2 : List Move} {S2 : Configuration},
      applySafeReductions city fuel (S.setCell z.1 z.2 2) = .ok (mv2, S2) →
      threeCount S2 < threeCount S := by
  obtain ⟨hzr, hzc, hz0, hirr, hex⟩ := useful_next_props hnb h1 h2 h3 hfix hz
  have hn1 : (S.setCell z.1 z.2 2).city = city := by
    rw [Configuration.city_setCell]
    exact h1
  have hn2 : ShapeWF city (S.setCell z.1 z.2 2) := h2.setCell _ _ _
  have hn3 : CellsWF city (S.setCell z.1 z.2 2) := CellsWF.setCellLt h3 (by omega)
  have hthree : threeCount (S.setCell z.1 z.2 2) = threeCount S :=
    threeCount_setCell_eq (by omega) (by decide)
  intro fuel mv2 S2 h
  cases fuel with
  | zero => exact absurd h (by simp [applySafeReductions])
  | succ fuel =>
    rw [applySafeReductions] at h
    split at h
    · exact absurd h (by simp)
    · rename_i mv1 cfg1 changed heq
      have hpass : (cellList city).foldlM (sweepStep city)
          (([], S.setCell z.1 z.2 2, false) : List Move × Configuration × Bool) =
          .ok (mv1, cfg1, changed) := by
        unfold sweepPass at heq
        exact heq
      rcases hex with ⟨t, ht1, ht2, htnz, htRed⟩
      have hdrop : threeCount cfg1 < threeCount (S.setCell z.1 z.2 2) := by
        have := sweepFold_first_three hnb hn1 hn2 hn3 hirr
          (fun rc hrc => mem_cellList.mp hrc)
          ⟨t, mem_cellList.mpr ⟨ht1, ht2⟩, htnz, htRed⟩ hpass
        exact this
      -- configuration facts for the rest of the run
      rcases sweepPass_total hnb hn1 hn2 hn3 with
        ⟨mv1b, S1b, chb, heqb, q1, q2, q3, -, -, -⟩
      rw [heq] at heqb
      injection heqb with heqb
      have e2 : S1b = cfg1 := congrArg (fun x => x.2.1) heqb.symm
      rw [e2] at q1 q2 q3
      split at h
      · split at h
        · exact absurd h (by simp)
        · rename_i mv2b S2b heq2
          injection h with h
          have hs2 : S2b = S2 := congrArg (fun x => x.2) h
          rw [← hs2]
          have := sweeps_threeMono hnb q1 q2 q3 heq2
          omega
      · injection h with h
        have hs : cfg1 = S2 := congrArg (fun x => x.2) h
        rw [← hs]
        omega

theorem threeCount_le {city : City} {cfg : Configuration} (h : ShapeWF city cfg) :
    threeCount cfg ≤ city.n * city.m := by
  unfold threeCount
  obtain ⟨h1, h2⟩ := h
  calc (cfg.towers.map (fun row => row.countP (fun t => t == 3))).sum
      ≤ (cfg.towers.map (fun row => row.length)).sum := by
        apply List.sum_le_sum
        intro x hx
        exact List.countP_le_length _
    _ = city.n * city.m := by
        have he : cfg.towers.map (fun row => row.length) =
            List.replicate city.n city.m := by
          rw [List.eq_replicate_iff]
          constructor
          · simp [h1]
          · intro b hb
            rcases List.mem_map.mp hb with ⟨row, hrow, hrw⟩
            rw [← hrw]
            exact h2 row hrow
        rw [he, List.sum_replicate, smul_eq_mul]

theorem replay_validSeqGo {endC : Configuration} :
    ∀ {mv : List Move} {startC : Configuration},
      replayAll startC mv = .ok endC → validSeqGo endC startC mv = .ok true := by
  intro mv
  induction mv with
  | nil =>
    intro startC h
    rw [replayAll] at h
    injection h with h
    rw [validSeqGo, h]
    simp
  | cons m rest ih =>
    intro startC h
    rw [replayAll] at h
    cases hp : startC.placeTower m.1 m.2.1 m.2.2 true with
    | error e =>
      rw [hp] at h
      exact absurd h (by simp)
    | ok c2 =>
      rw [hp] at h
      rw [validSeqGo, hp]
      exact ih h

/-- Totality of the recursive reduction search: with enough fuel for the
3-cell measure it returns, preserves well-formedness, and its moves replay
to the original target. -/
theorem getReduced_total {city : City} (hnb : city.nbColors = 4) :
    ∀ {fuelS : Nat} {cfg : Configuration} {cm : List Move} {current : Configuration},
      cfg.city = city → ShapeWF city cfg → CellsWF city cfg →
      applySafeReductionsTop city cfg = .ok (cm, current) →
      threeCount current < fuelS →
      ∃ red mv, getReducedAux city fuelS cfg = .ok (red, mv) ∧
        red.city = city ∧ ShapeWF city red ∧ CellsWF city red ∧
        replayAll red mv = .ok cfg := by
  intro fuelS
  induction fuelS with
  | zero =>
    intro cfg cm current _ _ _ _ htc
    omega
  | succ fuelS ihS =>
    intro cfg cm current h1 h2 h3 hstop htc
    rcases sweepsTop_total hnb h1 h2 h3 with ⟨cmb, curb, hstopb, w1, w2, w3, wrep, -⟩
    rw [hstop] at hstopb
    injection hstopb with hstopb
    have ecm : cm = cmb := congrArg (fun x => x.1) hstopb
    have ecur : current = curb := congrArg (fun x => x.2) hstopb
    rw [← ecur] at w1 w2 w3
    rw [← ecur, ← ecm] at wrep
    have hfix := sweepsTop_fixpoint_cells hstop
    by_cases haz : current.allZero = true
    · refine ⟨current, cm, ?_, w1, w2, w3, wrep⟩
      rw [getReducedAux, hstop]
      dsimp only
      rw [if_pos haz]
    · have hfold : ∀ l : List (Nat × Nat),
          (∀ x ∈ l, x ∈ usefulTwoPromotions city current) →
          ∀ acc : Configuration × List Move, acc.1.city = city → ShapeWF city acc.1 →
          CellsWF city acc.1 → replayAll acc.1 acc.2 = .ok cfg →
          ∃ res : Configuration × List Move,
            l.foldlM (searchStep (getReducedAux city fuelS) current cm) acc =
              .ok res ∧
            res.1.city = city ∧ ShapeWF city res.1 ∧ CellsWF city res.1 ∧
            replayAll res.1 res.2 = .ok cfg := by
        intro l
        induction l with
        | nil =>
          intro _ acc a1 a2 a3 a4
          exact ⟨acc, rfl, a1, a2, a3, a4⟩
        | cons z rest ihl =>
          intro hsub acc a1 a2 a3 a4
          have hzmem := hsub z (List.mem_cons_self _ _)
          by_cases hz2 : acc.1.allZero = true
          · have hstep : searchStep (getReducedAux city fuelS) current cm acc z =
                .ok acc := by
              unfold searchStep
              rw [if_pos hz2]
            rcases ihl (fun x hx => hsub x (List.mem_cons_of_mem _ hx)) acc a1 a2 a3 a4
              with ⟨res, hres, b1, b2, b3, b4⟩
            refine ⟨res, ?_, b1, b2, b3, b4⟩
            rw [List.foldlM_cons, hstep]
            exact hres
          · obtain ⟨hzr, hzc, hz0, -, -⟩ :=
              useful_next_props hnb w1 w2 w3 hfix hzmem
            have hplace : current.placeTower z.1 z.2 2 false =
                .ok (current.setCell z.1 z.2 2) := by
              rw [placeTower_ok_of_bounds (by rw [w1]; exact hzr)
                (by rw [w1]; exact hzc) (by rw [w1]; omega)]
              rfl
            have hn1 : (current.setCell z.1 z.2 2).city = city := by
              rw [Configuration.city_setCell]
              exact w1
            have hn2 : ShapeWF city (current.setCell z.1 z.2 2) := w2.setCell _ _ _
            have hn3 : CellsWF city (current.setCell z.1 z.2 2) :=
              CellsWF.setCellLt w3 (by omega)
            rcases sweepsTop_total hnb hn1 hn2 hn3 with
              ⟨cm2, cur2, hstop2, -, -, -, -, -⟩
            have hSD : threeCount cur2 < threeCount current :=
              sweeps_SD hnb w1 w2 w3 hfix hzmem hstop2
            rcases ihS hn1 hn2 hn3 hstop2 (by omega) with
              ⟨red2, mv2, hred2, e1, e2, e3, erep⟩
            have hrepNew : replayAll red2 (mv2 ++ (z.1, z.2, 0) :: cm) = .ok cfg := by
              rw [replayAll_append erep, replayAll]
              dsimp only
              rw [placeTower_zero_ok (by rw [Configuration.city_setCell, w1]; exact hzr)
                (by rw [Configuration.city_setCell, w1]; exact hzc)
                (by rw [Configuration.city_setCell, w1]; omega)]
              rw [setCell_setCell_same, setCell_zero_collapse hz0]
              exact wrep
            by_cases hz3 : red2.allZero = true
            · have hstep : searchStep (getReducedAux city fuelS) current cm acc z =
                  .ok (red2, mv2 ++ (z.1, z.2, 0) :: cm) := by
                unfold searchStep
                rw [if_neg hz2, hplace]
                dsimp only
                rw [hred2]
                dsimp only
                rw [if_pos hz3]
              rcases ihl (fun x hx => hsub x (List.mem_cons_of_mem _ hx))
                (red2, mv2 ++ (z.1, z.2, 0) :: cm) e1 e2 e3 hrepNew with
                ⟨res, hres, b1, b2, b3, b4⟩
              refine ⟨res, ?_, b1, b2, b3, b4⟩
              rw [List.foldlM_cons, hstep]
              exact hres
            · by_cases hlt : red2.ltc acc.1 = true
              · have hstep : searchStep (getReducedAux city fuelS) current cm acc z =
                    .ok (red2, mv2 ++ (z.1, z.2, 0) :: cm) := by
                  unfold searchStep
                  rw [if_neg hz2, hplace]
                  dsimp only
                  rw [hred2]
                  dsimp only
                  rw [if_neg hz3, if_pos hlt]
                rcases ihl (fun x hx => hsub x (List.mem_cons_of_mem _ hx))
                  (red2, mv2 ++ (z.1, z.2, 0) :: cm) e1 e2 e3 hrepNew with
                  ⟨res, hres, b1, b2, b3, b4⟩
                refine ⟨res, ?_, b1, b2, b3, b4⟩
                rw [List.foldlM_cons, hstep]
                exact hres
              · have hstep : searchStep (getReducedAux city fuelS) current cm acc z =
                    .ok acc := by
                  unfold searchStep
                  rw [if_neg hz2, hplace]
                  dsimp only
                  rw [hred2]
                  dsimp only
                  rw [if_neg hz3, if_neg hlt]
                rcases ihl (fun x hx => hsub x (List.mem_cons_of_mem _ hx)) acc
                  a1 a2 a3 a4 with ⟨res, hres, b1, b2, b3, b4⟩
                refine ⟨res, ?_, b1, b2, b3, b4⟩
                rw [List.foldlM_cons, hstep]
                exact hres
      rcases hfold (usefulTwoPromotions city current) (fun x hx => hx)
        (current, cm) w1 w2 w3 wrep with ⟨res, hres, b1, b2, b3, b4⟩
      refine ⟨res.1, res.2, ?_, b1, b2, b3, b4⟩
      rw [getReducedAux, hstop]
      dsimp only
      rw [if_neg haz]
      exact hres

theorem getReducedTop_total {city : City} {cfg : Configuration}
    (hnb : city.nbColors = 4) (h1 : cfg.city = city) (h2 : ShapeWF city cfg)
    (h3 : CellsWF city cfg) :
    ∃ red mv, getReducedTop city cfg = .ok (red, mv) ∧
      red.city = city ∧ ShapeWF city red ∧ CellsWF city red ∧
      replayAll red mv = .ok cfg := by
  rcases sweepsTop_total hnb h1 h2 h3 with ⟨cm, current, hstop, -, w2, -, -, -⟩
  have htc : threeCount current < city.n * city.m + 1 := by
    have := threeCount_le w2
    omega
  exact getReduced_total hnb h1 h2 h3 hstop htc

end TotalityLemmas

section ClaimC2

/-- C2 — Raises-iff: on a well-formed 4-color target, the recursive reduction
search always returns a residual configuration and candidate moves;
`get_moves` raises exactly the `Infeasible` error carrying the target and that
residual, and it does so precisely when the residual is nonzero — in every
other case it returns the move list and raises nothing. -/
theorem spec_C2_raises_iff (city : City) (cfg : Configuration)
    (hcity : cfg.city = city) (hshape : ShapeWF city cfg) (hwf : CellsWF city cfg)
    (hnb : city.nbColors = 4) :
    ∃ red mv, getReducedTop city cfg = .ok (red, mv) ∧
      (∀ e, getMoves city cfg = .error e ↔
        (e = .infeasible cfg red ∧ ¬ red.allZero = true)) ∧
      (¬ red.allZero = true → getMoves city cfg = .error (.infeasible cfg red)) ∧
      (red.allZero = true → getMoves city cfg = .ok mv) := by
  rcases getReducedTop_total hnb hcity hshape hwf with ⟨red, mv, hred, -, -, -, hrep⟩
  have hval : validSequence red mv cfg = .ok true := replay_validSeqGo hrep
  have hG : getMoves city cfg =
      (if !red.allZero then .error (.infeasible cfg red) else .ok mv) := by
    unfold getMoves
    rw [hred]
    dsimp only
    rw [hval]
    rfl
  refine ⟨red, mv, hred, ?_, ?_, ?_⟩
  · intro e
    cases haz : red.allZero
    · have hG2 : getMoves city cfg = .error (.infeasible cfg red) := by
        rw [hG, haz]
        rfl
      constructor
      · intro hE
        rw [hG2] at hE
        injection hE with hE
        exact ⟨hE.symm, by simp [haz]⟩
      · rintro ⟨rfl, -⟩
        exact hG2
    · have hG2 : getMoves city cfg = .ok mv := by
        rw [hG, haz]
        rfl
      constructor
      · intro hE
        rw [hG2] at hE
        exact absurd hE (by simp)
      · rintro ⟨-, hcon⟩
        exact absurd rfl hcon
  · intro haz
    have haz2 : red.allZero = false := by
      cases hb : red.allZero
      · rfl
      · exact absurd hb haz
    rw [hG, haz2]
    rfl
  · intro haz
    rw [hG, haz]
    rfl

/-- Witness for C2 at a concrete input: the 1x1 target `[[1]]`, whose search
residual is the nonzero `[[1]]` itself, so `get_moves` raises `Infeasible`. -/
theorem spec_C2_raises_iff_witness :
    ∃ red mv, getReducedTop cityB cfgB = .ok (red, mv) ∧
      (∀ e, getMoves cityB cfgB = .error e ↔
        (e = .infeasible cfgB red ∧ ¬ red.allZero = true)) ∧
      (¬ red.allZero = true → getMoves cityB cfgB = .error (.infeasible cfgB red)) ∧
      (red.allZero = true → getMoves cityB cfgB = .ok mv) := by
  have hshape : ShapeWF cityB cfgB := by
    refine ⟨rfl, ?_⟩
    intro row hrow
    rw [List.mem_singleton.mp hrow]
    rfl
  have hwf : CellsWF cityB cfgB := by
    intro row col
    match row, col with
    | 0, 0 => decide
    | 0, c + 1 => exact (by decide : (0 : Nat) < 4)
    | r + 1, c => exact (by decide : (0 : Nat) < 4)
  exact spec_C2_raises_iff cityB cfgB rfl hshape hwf rfl

end ClaimC2

end TowerBlocks
